import Mathlib

/-!
AutoSearch scheduler, result matcher and command dispatcher of airdcpp-webclient

A shallow embedding of `AutoSearchManager.cpp`: the AutoSearch item, the
manager's item list with its rotating cursor, and the operations that move
the cursor (add, update, remove, the minute tick and the load); the result
handler with its action router, the handlers of bundle events, the status
text and the save; and of the dispatch of `AdcCommand.h`.

Objects are shared through `AutoSearchPtr` in the source, and the manager's
list stores pointers.  The embedding keeps that: a pointer is a natural
number (the address of the object), the store `objs` maps a pointer to the
current contents of the object it points to, and `searchItems` is a list of
pointers.  `find` over that list compares pointers, as in the source.
-/

namespace dcpp

/-! ## Data model -/

/-- Identity of an AutoSearch object (the address an `AutoSearchPtr` holds). -/
abbrev AutoSearchPtr := Nat

/-- The action of an item, `AutoSearch::ActionType`, with the enumerators
`AutoSearchManager.cpp` names. -/
inductive ActionType where
  | ACTION_DOWNLOAD
  | ACTION_QUEUE
  | ACTION_REPORT
  deriving DecidableEq, Repr

/-- The status of an item, `AutoSearch::StatusType`, with the enumerators
`AutoSearchManager.cpp` names. -/
inductive StatusType where
  | STATUS_SEARCHING
  | STATUS_LIST
  | STATUS_QUEUED_OK
  | STATUS_FAILED_MISSING
  | STATUS_FAILED_EXTRAS
  deriving DecidableEq, Repr

/-- The matching method, `StringMatch::Method`. -/
inductive Method where
  | PARTIAL
  | REGEX
  | WILDCARD
  | EXACT
  deriving DecidableEq, Repr

/-- A time of day, `SearchTime`, with the two members the scheduler reads. -/
structure SearchTime where
  hour : Nat
  minute : Nat
  deriving DecidableEq, Repr

/-- Modelled from the spec: the constructor `SearchTime(bool end = false)` of
the header, which is not among the sources; the spec gives the default window
as 00:00 to 23:59, so `SearchTime()` is 00:00 and `SearchTime(true)` is 23:59. -/
def SearchTime.ofEnd (isEnd : Bool) : SearchTime :=
  { hour := if isEnd then 23 else 0, minute := if isEnd then 59 else 0 }

/-- The fields of `struct tm` that the scheduler reads after `localtime_s`. -/
structure Tm where
  tm_wday : Nat
  tm_hour : Nat
  tm_min : Nat
  deriving DecidableEq, Repr

/-- The contents of an `AutoSearch` object.  `searchDays` is the value of the
`bitset<7>`: `searchDays[k]` of the source is `searchDays.testBit k`. -/
structure AutoSearch where
  enabled : Bool
  searchString : String
  fileType : String
  action : ActionType
  remove : Bool
  target : String
  tType : Int
  method : Method
  pattern : String
  nickPattern : String
  searchInterval : Int
  expireTime : Int
  lastSearch : Int
  checkAlreadyQueued : Bool
  checkAlreadyShared : Bool
  manualSearch : Bool
  token : Int
  status : StatusType
  searchDays : Nat
  startTime : SearchTime
  endTime : SearchTime
  bundleTokens : List String
  deriving DecidableEq, Repr

/-- The state of `AutoSearchManager`: the object store the pointers refer to,
and the members of the class. -/
structure AutoSearchManager where
  objs : AutoSearchPtr → AutoSearch
  searchItems : List AutoSearchPtr
  lastSave : Nat
  dirty : Bool
  lastSearch : Int
  curPos : Nat
  endOfListReached : Bool
  recheckTime : Int

/-- What the manager reads from code outside `AutoSearchManager.cpp`: the two
settings, the search type constants, whether `SearchManager::getSearchType`
resolves a type tag (it throws `SearchTypeException` when it does not), and
the constructor `SearchTime(const string&)` of the header. -/
structure Env where
  AUTOSEARCH_EVERY : Int
  AUTOSEARCH_RECHECK_TIME : Int
  SEARCH_TYPE_ANY : String
  SEARCH_TYPE_DIRECTORY : String
  SEARCH_TYPE_TTH : String
  getSearchType : String → Bool
  searchTimeOfString : String → SearchTime

/-- The inputs of one minute tick: the online hubs returned by
`getOnlineClients`, the `GET_TIME()` read by `hasEnabledItems`, the
`GET_TIME()` read by `checkSearches` and its local broken-down time. -/
structure MinuteInput where
  allowedHubs : List String
  expiryTime : Int
  curTime : Int
  tm : Tm

/-! ## The item -/

/-- `AutoSearch::allowNewItems`. -/
def AutoSearch.allowNewItems (as : AutoSearch) : Bool :=
  if !as.enabled then false
  else if as.status == StatusType.STATUS_SEARCHING || as.status == StatusType.STATUS_FAILED_MISSING then true
  else !as.remove

/-! ## The scheduler walk -/

/-- The body of the loop of `checkSearches` for one item: `false` when one of
the `continue` statements is taken, `true` when the item is selected. -/
def checkItem (as : AutoSearch) (tm : Tm) : Bool :=
  if !as.allowNewItems then false
  else if !as.searchDays.testBit tm.tm_wday then false
  else if as.startTime.hour > tm.tm_hour || as.endTime.hour < tm.tm_hour then false
  else if as.startTime.hour == tm.tm_hour && as.startTime.minute > tm.tm_min then false
  else if as.endTime.hour == tm.tm_hour && as.endTime.minute < tm.tm_min then false
  else true

/-- The loop of `checkSearches` over the items from the cursor on: the cursor
is incremented for every visited item, and the loop breaks at the first item
that is not skipped.  Returns the new cursor and the selected pointer. -/
def checkSearchesLoop (objs : AutoSearchPtr → AutoSearch) (tm : Tm) :
    List AutoSearchPtr → Nat → Nat × Option AutoSearchPtr
  | [], curPos => (curPos, none)
  | i :: rest, curPos =>
    if checkItem (objs i) tm then (curPos + 1, some i)
    else checkSearchesLoop objs tm rest (curPos + 1)

/-- The state change of `searchItem`: an unresolved file type is reset to
`SEARCH_TYPE_ANY`; the search itself and the log line are outside the state. -/
def searchItem (env : Env) (m : AutoSearchManager) (as : AutoSearchPtr) : AutoSearchManager :=
  if env.getSearchType (m.objs as).fileType then m
  else { m with objs := Function.update m.objs as { m.objs as with fileType := env.SEARCH_TYPE_ANY } }

/-- `AutoSearchManager::checkSearches`: the new state and the item searched. -/
def checkSearches (env : Env) (inp : MinuteInput) (m : AutoSearchManager) :
    AutoSearchManager × Option AutoSearchPtr :=
  if inp.allowedHubs.isEmpty then (m, none)
  else if m.curPos ≥ m.searchItems.length then
    ({ m with curPos := 0, endOfListReached := true, recheckTime := 0 }, none)
  else
    match checkSearchesLoop m.objs inp.tm (m.searchItems.drop m.curPos) m.curPos with
    | (pos, none) => ({ m with curPos := pos }, none)
    | (pos, some as) =>
      (searchItem env
        { m with
          curPos := pos
          lastSearch := 0
          objs := Function.update m.objs as { m.objs as with lastSearch := inp.curTime } }
        as, some as)

/-! ## List operations -/

/-- `AutoSearchManager::addAutoSearch(AutoSearchPtr)`: the new state and the
returned flag. -/
def addAutoSearch (m : AutoSearchManager) (aAutoSearch : AutoSearchPtr) : AutoSearchManager × Bool :=
  if m.searchItems.any (fun as => (m.objs as).searchString == (m.objs aAutoSearch).searchString) then
    (m, false)
  else
    ({ m with searchItems := m.searchItems ++ [aAutoSearch], dirty := true }, true)

/-- The loop of `updateAutoSearch`: `true` when it reaches `return false`, that
is when an item at a position other than `index` carries the search string.
The second argument is `distance(searchItems.begin(), i)`. -/
def updateAutoSearchLoop (objs : AutoSearchPtr → AutoSearch) (searchString : String) (index : Nat) :
    List AutoSearchPtr → Nat → Bool
  | [], _ => false
  | i :: rest, d =>
    if (objs i).searchString == searchString && d != index then true
    else updateAutoSearchLoop objs searchString index rest (d + 1)

/-- `AutoSearchManager::updateAutoSearch`.  The source writes
`searchItems[index]` without a bounds check; callers pass `index` below the
size of the list. -/
def updateAutoSearch (m : AutoSearchManager) (index : Nat) (ipw : AutoSearchPtr) :
    AutoSearchManager × Bool :=
  if updateAutoSearchLoop m.objs (m.objs ipw).searchString index m.searchItems 0 then (m, false)
  else ({ m with searchItems := m.searchItems.set index ipw, dirty := true }, true)

/-- `AutoSearchManager::removeAutoSearch`: `find` compares pointers, and
`indexOf` is the length of the list when the pointer is not found. -/
def removeAutoSearch (m : AutoSearchManager) (aItem : AutoSearchPtr) : AutoSearchManager :=
  let i := m.searchItems.indexOf aItem
  if i < m.searchItems.length then
    { m with
      curPos := if i < m.curPos then m.curPos - 1 else m.curPos
      searchItems := m.searchItems.eraseIdx i
      dirty := true }
  else m

/-! ## The minute tick -/

/-- The expiry test of `hasEnabledItems`. -/
def isExpired (as : AutoSearch) (curTime : Int) : Bool :=
  decide (as.expireTime > 0) && decide (as.expireTime < curTime)

/-- The loop of `hasEnabledItems`: collects the expired items in order and
sets `result` when an item that is not expired is enabled. -/
def hasEnabledItemsLoop (objs : AutoSearchPtr → AutoSearch) (curTime : Int) :
    List AutoSearchPtr → List AutoSearchPtr → Bool → List AutoSearchPtr × Bool
  | [], expired, result => (expired, result)
  | as :: rest, expired, result =>
    if isExpired (objs as) curTime then hasEnabledItemsLoop objs curTime rest (expired ++ [as]) result
    else if !(objs as).enabled then hasEnabledItemsLoop objs curTime rest expired result
    else hasEnabledItemsLoop objs curTime rest expired true

/-- `AutoSearchManager::hasEnabledItems`: the new state and the result. -/
def hasEnabledItems (curTime : Int) (m : AutoSearchManager) : AutoSearchManager × Bool :=
  if m.searchItems.isEmpty then ({ m with curPos := 0 }, false)
  else
    match hasEnabledItemsLoop m.objs curTime m.searchItems [] false with
    | (expired, result) =>
      let m1 := expired.foldl removeAutoSearch m
      (if !result then { m1 with curPos := 0 } else m1, result)

/-- The last statement of the minute handler: when the search interval has
elapsed, `hasEnabledItems` and then `checkSearches`. -/
def onMinuteSearch (env : Env) (inp : MinuteInput) (m : AutoSearchManager) :
    AutoSearchManager × Option AutoSearchPtr :=
  if m.lastSearch ≥ env.AUTOSEARCH_EVERY then
    match hasEnabledItems inp.expiryTime m with
    | (m1, true) => checkSearches env inp m1
    | (m1, false) => (m1, none)
  else (m, none)

/-- `AutoSearchManager::on(TimerManagerListener::Minute)`: the new state and
the item searched on this tick. -/
def onMinute (env : Env) (inp : MinuteInput) (m : AutoSearchManager) :
    AutoSearchManager × Option AutoSearchPtr :=
  let m1 := { m with lastSearch := m.lastSearch + 1 }
  if m1.endOfListReached then
    let m2 := { m1 with recheckTime := m1.recheckTime + 1 }
    if m2.recheckTime ≥ env.AUTOSEARCH_RECHECK_TIME then
      onMinuteSearch env inp { m2 with curPos := 0, endOfListReached := false }
    else (m2, none)
  else onMinuteSearch env inp m1

/-- A run of minute ticks: the final state and, per tick, the item searched. -/
def runMinutes (env : Env) : AutoSearchManager → List MinuteInput →
    AutoSearchManager × List (Option AutoSearchPtr)
  | m, [] => (m, [])
  | m, inp :: rest =>
    let r := onMinute env inp m
    let rs := runMinutes env r.1 rest
    (rs.1, r.2 :: rs.2)

/-- The items searched during a run, in order, without the idle ticks. -/
def selections (trace : List (Option AutoSearchPtr)) : List AutoSearchPtr :=
  trace.filterMap id

/-! ## Construction and load -/

/-- The constructor `AutoSearchManager::AutoSearchManager()`. -/
def AutoSearchManager.init (env : Env) (objs : AutoSearchPtr → AutoSearch) : AutoSearchManager :=
  { objs := objs
    searchItems := []
    lastSave := 0
    dirty := false
    lastSearch := env.AUTOSEARCH_EVERY - 2
    curPos := 0
    endOfListReached := false
    recheckTime := env.AUTOSEARCH_RECHECK_TIME }

/-- The constructor `AutoSearch::AutoSearch`.  `rand` is the value
`Util::randInt(10)` returns when it is called.  The members the constructor
does not name are default constructed: an empty `bitset<7>`, `SearchTime()`
twice and an empty token set. -/
def AutoSearch.create (aEnabled : Bool) (aSearchString aFileType : String) (aAction : ActionType)
    (aRemove : Bool) (aTarget : String) (aTargetType : Int) (aMethod : Method)
    (aMatcherString aUserMatch : String) (aSearchInterval aExpireTime : Int)
    (aCheckAlreadyQueued aCheckAlreadyShared : Bool) (aToken : Int) (rand : Int) : AutoSearch :=
  { enabled := aEnabled
    searchString := aSearchString
    fileType := aFileType
    action := aAction
    remove := aRemove
    target := aTarget
    tType := aTargetType
    method := aMethod
    pattern := if aMatcherString.isEmpty then aSearchString else aMatcherString
    nickPattern := aUserMatch
    searchInterval := aSearchInterval
    expireTime := aExpireTime
    lastSearch := 0
    checkAlreadyQueued := aCheckAlreadyQueued
    checkAlreadyShared := aCheckAlreadyShared
    manualSearch := false
    token := if aToken == 0 then rand else aToken
    status := StatusType.STATUS_SEARCHING
    searchDays := 0
    startTime := SearchTime.ofEnd false
    endTime := SearchTime.ofEnd false
    bundleTokens := [] }

/-- The attributes of one `Autosearch` element as the getters of `SimpleXML`
and the casts of `loadAutoSearch` deliver them. -/
structure XmlItem where
  Enabled : Bool
  SearchString : String
  FileType : String
  Action : ActionType
  Remove : Bool
  Target : String
  TargetType : Int
  MatcherType : Method
  MatcherString : String
  UserMatch : String
  SearchInterval : Int
  ExpireTime : Int
  CheckAlreadyQueued : Bool
  CheckAlreadyShared : Bool
  SearchDays : String
  StartTime : String
  EndTime : String
  LastSearchTime : Int
  Token : Int

/-- The value of `std::bitset<7>(str)`: every character must be 0 or 1
(otherwise `std::invalid_argument` is thrown, `none` here); of the first
`min 7 (length str)` characters the last one is bit 0. -/
def bitset7OfString (str : String) : Option Nat :=
  if str.toList.all (fun c => c == '0' || c == '1') then
    some ((str.toList.take 7).foldl (fun acc c => 2 * acc + (if c == '1' then 1 else 0)) 0)
  else none

/-- One element read by `loadAutoSearch`: the address `new` returns for the
object, the value `Util::randInt(10)` would return, and the attributes. -/
structure XmlChild where
  ptr : AutoSearchPtr
  rand : Int
  item : XmlItem

/-- The object `loadAutoSearch` builds from one element, or `none` when the
`bitset` constructor throws. -/
def loadItem (env : Env) (c : XmlChild) : Option AutoSearch :=
  let x := c.item
  let as := AutoSearch.create x.Enabled x.SearchString x.FileType x.Action x.Remove x.Target
    x.TargetType x.MatcherType x.MatcherString x.UserMatch x.SearchInterval x.ExpireTime
    x.CheckAlreadyQueued x.CheckAlreadyShared x.Token c.rand
  let as := { as with expireTime := x.ExpireTime }
  match (if !x.SearchDays.isEmpty then bitset7OfString x.SearchDays else some 127) with
  | none => none
  | some days =>
    some { as with
      searchDays := days
      startTime := if !x.StartTime.isEmpty then env.searchTimeOfString x.StartTime else SearchTime.ofEnd false
      endTime := if !x.EndTime.isEmpty then env.searchTimeOfString x.EndTime else SearchTime.ofEnd true
      lastSearch := x.LastSearchTime }

/-- `AutoSearchManager::loadAutoSearch` over the `Autosearch` elements of the
file; `none` when an exception that is not a `dcpp::Exception` escapes. -/
def loadAutoSearch (env : Env) : AutoSearchManager → List XmlChild → Option AutoSearchManager
  | m, [] => some m
  | m, c :: rest =>
    match loadItem env c with
    | none => none
    | some as =>
      loadAutoSearch env (addAutoSearch { m with objs := Function.update m.objs c.ptr as } c.ptr).1 rest

/-- What `AutoSearchLoad` finds on disk: a file that cannot be read or parsed
(a `dcpp::Exception`, caught), a document without the root element, or the
root element with its `LastPosition` and its item elements. -/
inductive XmlFile where
  | unreadable
  | noRoot
  | root (lastPosition : Int) (children : List XmlChild)

/-- `AutoSearchManager::AutoSearchLoad`.  `curPos` is an `unsigned int`, so
the stored integer is taken modulo `2 ^ 32`. -/
def AutoSearchLoad (env : Env) (m : AutoSearchManager) : XmlFile → Option AutoSearchManager
  | XmlFile.unreadable => some m
  | XmlFile.noRoot => some (if m.curPos ≥ m.searchItems.length then { m with curPos := 0 } else m)
  | XmlFile.root lastPosition children =>
    match loadAutoSearch env { m with curPos := (lastPosition % 2 ^ 32).toNat } children with
    | none => none
    | some m1 => some (if m1.curPos ≥ m1.searchItems.length then { m1 with curPos := 0 } else m1)

/-! ## Reachable states -/

/-- The states the manager reaches from its constructor by object creation
outside the list, `addAutoSearch`, `updateAutoSearch` with an index inside the
list, `removeAutoSearch`, minute ticks and loads.  A new object never has the
address of an object that is in the list. -/
inductive Reachable (env : Env) : AutoSearchManager → Prop where
  | init (objs : AutoSearchPtr → AutoSearch) : Reachable env (AutoSearchManager.init env objs)
  | create {m : AutoSearchManager} (p : AutoSearchPtr) (as : AutoSearch) :
      Reachable env m → p ∉ m.searchItems →
      Reachable env { m with objs := Function.update m.objs p as }
  | add {m : AutoSearchManager} (p : AutoSearchPtr) :
      Reachable env m → Reachable env (addAutoSearch m p).1
  | update {m : AutoSearchManager} (index : Nat) (p : AutoSearchPtr) :
      Reachable env m → index < m.searchItems.length → Reachable env (updateAutoSearch m index p).1
  | remove {m : AutoSearchManager} (p : AutoSearchPtr) :
      Reachable env m → Reachable env (removeAutoSearch m p)
  | minute {m : AutoSearchManager} (inp : MinuteInput) :
      Reachable env m → Reachable env (onMinute env inp m).1
  | load {m m1 : AutoSearchManager} (file : XmlFile) :
      Reachable env m →
      (∀ lp cs, file = XmlFile.root lp cs →
        (cs.map XmlChild.ptr).Nodup ∧ ∀ c ∈ cs, c.ptr ∉ m.searchItems) →
      AutoSearchLoad env m file = some m1 → Reachable env m1

/-! ## The scheduler seen through its four counters

For a list whose items all pass the walk and never expire, a minute tick only
depends on the cursor, the end-of-list flag and the two minute counters.  The
definitions below describe that view; the lemmas relate it to `onMinute`. -/

/-- The scheduler members of the manager. -/
structure Sched where
  pos : Nat
  eol : Bool
  ls : Int
  rt : Int
  deriving DecidableEq, Repr

/-- The scheduler members of a manager state. -/
def sched (m : AutoSearchManager) : Sched :=
  { pos := m.curPos, eol := m.endOfListReached, ls := m.lastSearch, rt := m.recheckTime }

/-- `onMinuteSearch` on the counters, for a list of `n` items that all pass:
the index of the searched item is returned. -/
def schedSearch (every : Int) (n : Nat) (s : Sched) : Sched × Option Nat :=
  if s.ls ≥ every then
    if s.pos ≥ n then ({ s with pos := 0, eol := true, rt := 0 }, none)
    else ({ s with pos := s.pos + 1, ls := 0 }, some s.pos)
  else (s, none)

/-- `onMinute` on the counters. -/
def schedMinute (every recheck : Int) (n : Nat) (s : Sched) : Sched × Option Nat :=
  if s.eol then
    if s.rt + 1 ≥ recheck then
      schedSearch every n { pos := 0, eol := false, ls := s.ls + 1, rt := s.rt + 1 }
    else ({ s with ls := s.ls + 1, rt := s.rt + 1 }, none)
  else schedSearch every n { s with ls := s.ls + 1 }

/-- A run of `k` minute ticks on the counters. -/
def schedRun (every recheck : Int) (n : Nat) : Sched → Nat → Sched × List (Option Nat)
  | s, 0 => (s, [])
  | s, k + 1 =>
    let r := schedMinute every recheck n s
    let rs := schedRun every recheck n r.1 k
    (rs.1, r.2 :: rs.2)

/-- The index the next selection will take. -/
def nextIndex (n : Nat) (s : Sched) : Nat :=
  if s.eol then 0 else if s.pos ≥ n then 0 else s.pos

/-- The successor of an index in the round robin over `n` items. -/
def succMod (n q : Nat) : Nat :=
  if q + 1 ≥ n then 0 else q + 1

/-- The round robin order: `k` indices from `q` on. -/
def cyc (n : Nat) : Nat → Nat → List Nat
  | _, 0 => []
  | q, k + 1 => q :: cyc n (succMod n q) k

/-- The number of steps from index `q` forward to index `i`. -/
def cycDist (n q i : Nat) : Nat :=
  if q ≤ i then i - q else i + n - q

/-- Every item of the list passes the walk at this tick and is not expired. -/
def AllOk (inp : MinuteInput) (m : AutoSearchManager) : Prop :=
  ∀ p ∈ m.searchItems, checkItem (m.objs p) inp.tm = true ∧ isExpired (m.objs p) inp.expiryTime = false

/-- The search strings of the items of the list are pairwise distinct. -/
def UniqueStrings (m : AutoSearchManager) : Prop :=
  (m.searchItems.map (fun p => (m.objs p).searchString)).Nodup

/-! ## Example data -/

/-- An enabled item that searches on every day from 00:00 to 23:59 and never
expires. -/
def exItem (searchString : String) : AutoSearch :=
  { enabled := true
    searchString := searchString
    fileType := "7"
    action := ActionType.ACTION_DOWNLOAD
    remove := false
    target := ""
    tType := 0
    method := Method.PARTIAL
    pattern := searchString
    nickPattern := ""
    searchInterval := 0
    expireTime := 0
    lastSearch := 0
    checkAlreadyQueued := false
    checkAlreadyShared := false
    manualSearch := false
    token := 1
    status := StatusType.STATUS_SEARCHING
    searchDays := 127
    startTime := SearchTime.ofEnd false
    endTime := SearchTime.ofEnd true
    bundleTokens := [] }

/-- An item with all days set that searches from 08:00 to 17:59. -/
def exOfficeItem : AutoSearch :=
  { exItem "office" with
    startTime := { hour := 8, minute := 0 }
    endTime := { hour := 17, minute := 59 } }

/-- Objects at the addresses 10, 11, 12 and 14, and a disabled object
everywhere else; the object at 14 has the search string of the one at 10. -/
def exObjs : AutoSearchPtr → AutoSearch := fun p =>
  if p = 10 then exItem "alpha"
  else if p = 11 then exItem "beta"
  else if p = 12 then exItem "gamma"
  else if p = 14 then exItem "alpha"
  else { exItem "delta" with enabled := false }

/-- Settings with a search every minute and a recheck time of one minute. -/
def exEnv : Env :=
  { AUTOSEARCH_EVERY := 1
    AUTOSEARCH_RECHECK_TIME := 1
    SEARCH_TYPE_ANY := "0"
    SEARCH_TYPE_DIRECTORY := "7"
    SEARCH_TYPE_TTH := "8"
    getSearchType := fun _ => true
    searchTimeOfString := fun _ => SearchTime.ofEnd false }

/-- Settings with a search every two minutes and a recheck time of two minutes. -/
def exEnv2 : Env :=
  { exEnv with AUTOSEARCH_EVERY := 2, AUTOSEARCH_RECHECK_TIME := 2 }

/-- A tick on a Wednesday at 12:30 with one hub online. -/
def exInput : MinuteInput :=
  { allowedHubs := ["adc://hub"]
    expiryTime := 1000
    curTime := 1000
    tm := { tm_wday := 3, tm_hour := 12, tm_min := 30 } }

/-- A manager with the list [10, 11, 12], the cursor at 0 and a due tick. -/
def exManager : AutoSearchManager :=
  { objs := exObjs
    searchItems := [10, 11, 12]
    lastSave := 0
    dirty := false
    lastSearch := 1
    curPos := 0
    endOfListReached := false
    recheckTime := 0 }

/-- A manager whose first item is disabled. -/
def exManagerSkip : AutoSearchManager :=
  { exManager with searchItems := [13, 11, 12] }

/-- A manager with the cursor after the second item. -/
def exManagerMid : AutoSearchManager :=
  { exManager with curPos := 2 }

/-- The state after the constructor, `addAutoSearch` of the object at 10 and
two minute ticks. -/
def exAtEnd : AutoSearchManager :=
  (onMinute exEnv exInput
    (onMinute exEnv exInput (addAutoSearch (AutoSearchManager.init exEnv exObjs) 10).1).1).1

/-! ## Search results and the action router -/

/-- The kind of a search result, `SearchResult::Types`. -/
inductive ResultType where
  | TYPE_FILE
  | TYPE_DIRECTORY
  deriving DecidableEq, Repr

/-- What the result matcher reads from a `SearchResult`: the search token,
the kind, the full path (`getFile`), the file name (`getFileName`), the size,
the hash in base 32 (`getTTH().toBase32()`), the user's CID and the hub. -/
structure SearchResult where
  token : String
  type : ResultType
  file : String
  fileName : String
  size : Int
  tth : String
  cid : String
  hubUrl : String
  deriving DecidableEq, Repr

/-- The calls `handleAction` makes on the queue, the directory listing
manager, the target utility and the hub client; `paused` is true for the
priority `QueueItem::PAUSED` and false for `QueueItem::DEFAULT`. -/
inductive Call where
  | addDirectoryDownload (file cid hubUrl target : String) (targetType : Int) (paused : Bool)
      (token : Int)
  | reportInsufficientSize (targetDir : String) (size : Int)
  | addFile (target : String) (size : Int) (tth cid hubUrl file : String) (paused : Bool)
      (token : Int)
  | message (cid hubUrl text : String)
  deriving DecidableEq, Repr

/-- The queue calls among the calls of `handleAction`. -/
def Call.isQueueCall : Call → Bool
  | Call.addDirectoryDownload _ _ _ _ _ _ _ => true
  | Call.addFile _ _ _ _ _ _ _ _ => true
  | _ => false

/-- What the result matcher asks of code outside `AutoSearchManager.cpp`:
`StringMatch::match` for a method and a pattern, `Util::getLastDir`,
`ClientManager::getNicks`, `ShareManager::isDirShared`,
`QueueManager::isDirQueued`, whether a queue call throws an `Exception`,
`TargetUtil::getVirtualTarget` (the target directory and whether there is
space), `ClientManager::findOnlineUser` (the nick and whether the client is
connected), and the order of the enumerators of `StatusType`. -/
structure Collab where
  strMatch : Method → String → String → Bool
  getLastDir : String → String
  getNicks : String → String → List String
  isDirShared : String → Bool
  isDirQueued : String → Bool
  queueThrows : Call → Bool
  getVirtualTarget : String → Int → Int → String × Bool
  findOnlineUser : String → String → Option (String × Bool)
  statusRank : StatusType → Nat

/-- Modelled from the spec: `AutoSearch::matchNick` of the header, which is
not among the sources; the spec gives it as the nick pattern being empty or
the wildcard matcher accepting the nick. -/
def matchNick (c : Collab) (as : AutoSearch) (aNick : String) : Bool :=
  as.nickPattern.isEmpty || c.strMatch Method.WILDCARD as.nickPattern aNick

/-- `AutoSearchManager::setItemStatus`. -/
def setItemStatus (m : AutoSearchManager) (as : AutoSearchPtr) (aStatus : StatusType) :
    AutoSearchManager :=
  { m with objs := Function.update m.objs as { m.objs as with status := aStatus } }

/-- `AutoSearchManager::handleAction`: the new state and the calls made, in
order.  A queue call that throws is still a call that was made. -/
def handleAction (c : Collab) (env : Env) (sr : SearchResult) (m : AutoSearchManager)
    (as : AutoSearchPtr) : AutoSearchManager × List Call :=
  let a := m.objs as
  if a.action == ActionType.ACTION_QUEUE || a.action == ActionType.ACTION_DOWNLOAD then
    let dir := c.getLastDir sr.file
    if a.fileType == env.SEARCH_TYPE_DIRECTORY && a.checkAlreadyShared && c.isDirShared dir then
      (m, [])
    else if a.fileType == env.SEARCH_TYPE_DIRECTORY && a.checkAlreadyQueued && c.isDirQueued dir then
      (m, [])
    else
      let paused := a.action == ActionType.ACTION_QUEUE
      if sr.type == ResultType.TYPE_DIRECTORY then
        let call := Call.addDirectoryDownload sr.file sr.cid sr.hubUrl a.target a.tType paused a.token
        if c.queueThrows call then (m, [call])
        else if c.statusRank a.status < c.statusRank StatusType.STATUS_LIST then
          (setItemStatus m as StatusType.STATUS_LIST, [call])
        else (m, [call])
      else
        let ti := c.getVirtualTarget a.target a.tType sr.size
        let report := if !ti.2 then [Call.reportInsufficientSize ti.1 sr.size] else []
        let call := Call.addFile (ti.1 ++ sr.fileName) sr.size sr.tth sr.cid sr.hubUrl sr.file paused
          a.token
        if c.queueThrows call then (m, report ++ [call])
        else (setItemStatus m as StatusType.STATUS_QUEUED_OK, report ++ [call])
  else if a.action == ActionType.ACTION_REPORT then
    match c.findOnlineUser sr.cid sr.hubUrl with
    | some (nick, connected) =>
      let msgs :=
        if connected then
          [Call.message sr.cid sr.hubUrl
            ("AutoSearch found a file: " ++ sr.file ++ " from an user " ++ nick)]
        else []
      (if a.remove then removeAutoSearch m as else m, msgs)
    | none => (m, [])
  else (m, [])

/-- The test `stricmp(sr->getToken(), "qa") == 0`: the token is `qa` up to
the case of its letters. -/
def isBundleSearchToken (token : String) : Bool :=
  token.toList.map Char.toLower == ['q', 'a']

/-- The match part of the loop body of the result handler, after the item
was admitted: file type, matcher and nick filter. -/
def matchResult (c : Collab) (env : Env) (sr : SearchResult) (as : AutoSearch) : Bool :=
  let nickOk :=
    if !as.nickPattern.isEmpty then (c.getNicks sr.cid sr.hubUrl).any (fun aNick => matchNick c as aNick)
    else true
  if as.fileType == env.SEARCH_TYPE_TTH then
    if !c.strMatch as.method as.pattern sr.tth then false else nickOk
  else if as.fileType == env.SEARCH_TYPE_DIRECTORY && sr.type != ResultType.TYPE_DIRECTORY then false
  else if !c.strMatch as.method as.pattern
      (if sr.type == ResultType.TYPE_DIRECTORY then c.getLastDir sr.file else sr.fileName) then false
  else nickOk

/-- The loop of the result handler over the items: an item that neither
allows new items nor has a manual search pending is skipped; otherwise its
manual search flag is cleared and, when the result matches, the item is
appended to the matches. -/
def onSearchResultLoop (c : Collab) (env : Env) (sr : SearchResult) :
    List AutoSearchPtr → (AutoSearchPtr → AutoSearch) → List AutoSearchPtr →
    (AutoSearchPtr → AutoSearch) × List AutoSearchPtr
  | [], objs, acc => (objs, acc)
  | as :: rest, objs, acc =>
    if !(objs as).allowNewItems && !(objs as).manualSearch then
      onSearchResultLoop c env sr rest objs acc
    else
      let objs1 := Function.update objs as { objs as with manualSearch := false }
      if matchResult c env sr (objs1 as) then onSearchResultLoop c env sr rest objs1 (acc ++ [as])
      else onSearchResultLoop c env sr rest objs1 acc

/-- The `for_each` over the matches: `handleAction` for every match in
order, with the calls collected. -/
def handleActions (c : Collab) (env : Env) (sr : SearchResult) :
    List AutoSearchPtr → AutoSearchManager → AutoSearchManager × List Call
  | [], m => (m, [])
  | as :: rest, m =>
    let r := handleAction c env sr m as
    let rs := handleActions c env sr rest r.1
    (rs.1, r.2 ++ rs.2)

/-- The items the result handler matches to a result. -/
def searchResultMatches (c : Collab) (env : Env) (sr : SearchResult) (m : AutoSearchManager) :
    List AutoSearchPtr :=
  if isBundleSearchToken sr.token then []
  else (onSearchResultLoop c env sr m.searchItems m.objs []).2

/-- `AutoSearchManager::on(SearchManagerListener::SR)`: the new state and
the calls made. -/
def onSearchResult (c : Collab) (env : Env) (sr : SearchResult) (m : AutoSearchManager) :
    AutoSearchManager × List Call :=
  if isBundleSearchToken sr.token then (m, [])
  else
    match onSearchResultLoop c env sr m.searchItems m.objs [] with
    | (objs1, found) => handleActions c env sr found { m with objs := objs1 }

/-- `AutoSearchManager::manualSearch`, with the hubs `getOnlineClients`
returns. -/
def manualSearch (env : Env) (allowedHubs : List String) (m : AutoSearchManager)
    (as : AutoSearchPtr) : AutoSearchManager :=
  if allowedHubs.isEmpty then m
  else
    searchItem env
      { m with objs := Function.update m.objs as { m.objs as with manualSearch := true } } as

/-- `AutoSearchManager::on(SearchManagerListener::SearchTypeRenamed)`. -/
def onSearchTypeRenamed (oldName newName : String) (m : AutoSearchManager) : AutoSearchManager :=
  { m with
    objs := m.searchItems.foldl
      (fun objs i =>
        if (objs i).fileType == oldName then
          Function.update objs i { objs i with fileType := newName }
        else objs)
      m.objs }

/-! ## The ADC command dispatcher -/

/-- The macro `ADC_CMD`: three letters packed into a 32-bit word, the first
letter in the low byte. -/
def ADC_CMD (a b c : Char) : Nat :=
  (a.toNat ||| (b.toNat <<< 8) ||| (c.toNat <<< 16)) % 2 ^ 32

/-- The command tags `AdcCommand::SUP` to `AdcCommand::PMI` that select the
overload of `handle`. -/
inductive AdcTag where
  | SUP
  | STA
  | INF
  | MSG
  | SCH
  | RES
  | CTM
  | RCM
  | GPA
  | PAS
  | QUI
  | GET
  | GFI
  | SND
  | SID
  | CMD
  | NAT
  | RNT
  | ZON
  | ZOF
  | TCP
  | PMI
  deriving DecidableEq, Repr

/-- The constant `AdcCommand::CMD_SUP`. -/
def CMD_SUP : Nat := ADC_CMD 'S' 'U' 'P'

/-- The constant `AdcCommand::CMD_STA`. -/
def CMD_STA : Nat := ADC_CMD 'S' 'T' 'A'

/-- The constant `AdcCommand::CMD_INF`. -/
def CMD_INF : Nat := ADC_CMD 'I' 'N' 'F'

/-- The constant `AdcCommand::CMD_MSG`. -/
def CMD_MSG : Nat := ADC_CMD 'M' 'S' 'G'

/-- The constant `AdcCommand::CMD_SCH`. -/
def CMD_SCH : Nat := ADC_CMD 'S' 'C' 'H'

/-- The constant `AdcCommand::CMD_RES`. -/
def CMD_RES : Nat := ADC_CMD 'R' 'E' 'S'

/-- The constant `AdcCommand::CMD_CTM`. -/
def CMD_CTM : Nat := ADC_CMD 'C' 'T' 'M'

/-- The constant `AdcCommand::CMD_RCM`. -/
def CMD_RCM : Nat := ADC_CMD 'R' 'C' 'M'

/-- The constant `AdcCommand::CMD_GPA`. -/
def CMD_GPA : Nat := ADC_CMD 'G' 'P' 'A'

/-- The constant `AdcCommand::CMD_PAS`. -/
def CMD_PAS : Nat := ADC_CMD 'P' 'A' 'S'

/-- The constant `AdcCommand::CMD_QUI`. -/
def CMD_QUI : Nat := ADC_CMD 'Q' 'U' 'I'

/-- The constant `AdcCommand::CMD_GET`. -/
def CMD_GET : Nat := ADC_CMD 'G' 'E' 'T'

/-- The constant `AdcCommand::CMD_GFI`. -/
def CMD_GFI : Nat := ADC_CMD 'G' 'F' 'I'

/-- The constant `AdcCommand::CMD_SND`. -/
def CMD_SND : Nat := ADC_CMD 'S' 'N' 'D'

/-- The constant `AdcCommand::CMD_SID`. -/
def CMD_SID : Nat := ADC_CMD 'S' 'I' 'D'

/-- The constant `AdcCommand::CMD_CMD`. -/
def CMD_CMD : Nat := ADC_CMD 'C' 'M' 'D'

/-- The constant `AdcCommand::CMD_NAT`. -/
def CMD_NAT : Nat := ADC_CMD 'N' 'A' 'T'

/-- The constant `AdcCommand::CMD_RNT`. -/
def CMD_RNT : Nat := ADC_CMD 'R' 'N' 'T'

/-- The constant `AdcCommand::CMD_ZON`. -/
def CMD_ZON : Nat := ADC_CMD 'Z' 'O' 'N'

/-- The constant `AdcCommand::CMD_ZOF`. -/
def CMD_ZOF : Nat := ADC_CMD 'Z' 'O' 'F'

/-- The constant `AdcCommand::CMD_TCP`. -/
def CMD_TCP : Nat := ADC_CMD 'T' 'C' 'P'

/-- The constant `AdcCommand::CMD_PMI`. -/
def CMD_PMI : Nat := ADC_CMD 'P' 'M' 'I'

/-- The code of a tag, `AdcCommand::Type<T>::CMD`. -/
def AdcTag.code : AdcTag → Nat
  | AdcTag.SUP => CMD_SUP
  | AdcTag.STA => CMD_STA
  | AdcTag.INF => CMD_INF
  | AdcTag.MSG => CMD_MSG
  | AdcTag.SCH => CMD_SCH
  | AdcTag.RES => CMD_RES
  | AdcTag.CTM => CMD_CTM
  | AdcTag.RCM => CMD_RCM
  | AdcTag.GPA => CMD_GPA
  | AdcTag.PAS => CMD_PAS
  | AdcTag.QUI => CMD_QUI
  | AdcTag.GET => CMD_GET
  | AdcTag.GFI => CMD_GFI
  | AdcTag.SND => CMD_SND
  | AdcTag.SID => CMD_SID
  | AdcTag.CMD => CMD_CMD
  | AdcTag.NAT => CMD_NAT
  | AdcTag.RNT => CMD_RNT
  | AdcTag.ZON => CMD_ZON
  | AdcTag.ZOF => CMD_ZOF
  | AdcTag.TCP => CMD_TCP
  | AdcTag.PMI => CMD_PMI

/-- The members of a parsed `AdcCommand`. -/
structure AdcCommand where
  parameters : List String
  features : String
  cmdInt : Nat
  sidFrom : Nat
  sidTo : Nat
  type : Char
  deriving DecidableEq, Repr

/-- The `switch` of `CommandHandler::dispatch(AdcCommand&)` on
`getCommand()`: the tag of the case taken, or `none` for `default`. -/
def dispatchCase (cmdInt : Nat) : Option AdcTag :=
  if cmdInt = CMD_SUP then some AdcTag.SUP
  else if cmdInt = CMD_STA then some AdcTag.STA
  else if cmdInt = CMD_INF then some AdcTag.INF
  else if cmdInt = CMD_MSG then some AdcTag.MSG
  else if cmdInt = CMD_SCH then some AdcTag.SCH
  else if cmdInt = CMD_RES then some AdcTag.RES
  else if cmdInt = CMD_CTM then some AdcTag.CTM
  else if cmdInt = CMD_RCM then some AdcTag.RCM
  else if cmdInt = CMD_GPA then some AdcTag.GPA
  else if cmdInt = CMD_PAS then some AdcTag.PAS
  else if cmdInt = CMD_QUI then some AdcTag.QUI
  else if cmdInt = CMD_GET then some AdcTag.GET
  else if cmdInt = CMD_GFI then some AdcTag.GFI
  else if cmdInt = CMD_SND then some AdcTag.SND
  else if cmdInt = CMD_SID then some AdcTag.SID
  else if cmdInt = CMD_CMD then some AdcTag.CMD
  else if cmdInt = CMD_NAT then some AdcTag.NAT
  else if cmdInt = CMD_RNT then some AdcTag.RNT
  else if cmdInt = CMD_ZON then some AdcTag.ZON
  else if cmdInt = CMD_ZOF then some AdcTag.ZOF
  else if cmdInt = CMD_TCP then some AdcTag.TCP
  else if cmdInt = CMD_PMI then some AdcTag.PMI
  else none

/-- What a run of the dispatcher does: the post-parse callback called with a
command, or the overload of `handle` for a tag called with a command. -/
inductive DispatchEvent where
  | callback (c : AdcCommand)
  | handle (n : AdcTag) (c : AdcCommand)
  deriving DecidableEq, Repr

/-- How the post-parse callback ends: it returns, or it throws a
`ParseException`. -/
inductive Outcome where
  | returns
  | throwsParseException
  deriving DecidableEq, Repr

/-- `CommandHandler::dispatch(AdcCommand&)`: the handlers invoked. -/
def CommandHandler.dispatch (aCmd : AdcCommand) : List DispatchEvent :=
  match dispatchCase aCmd.cmdInt with
  | some n => [DispatchEvent.handle n aCmd]
  | none => []

/-- `CommandHandler::dispatch(const string&, bool, ...)`.  `parse` is the
constructor `AdcCommand(aLine, aNmdc)` of the codec, `none` when it throws
`ParseException`; the callback is `none` when the `std::function` is empty.
The function is `noexcept` and its `catch` swallows `ParseException`, so the
result is only the list of calls made. -/
def CommandHandler.dispatchLine (parse : String → Bool → Option AdcCommand) (aLine : String)
    (aNmdc : Bool) (aOnCommandParsedF : Option (AdcCommand → Outcome)) : List DispatchEvent :=
  match parse aLine aNmdc with
  | none => []
  | some c =>
    match (if !aNmdc then aOnCommandParsedF else none) with
    | some f =>
      match f c with
      | Outcome.returns => DispatchEvent.callback c :: CommandHandler.dispatch c
      | Outcome.throwsParseException => [DispatchEvent.callback c]
    | none => CommandHandler.dispatch c

/-! ## Persistence -/

/-- The value of `std::bitset<7>::to_string()`: seven characters, the first
one for bit 6 and the last one for bit 0. -/
def bitset7ToString (bits : Nat) : String :=
  String.mk ((List.range 7).map (fun i => if bits.testBit (6 - i) then '1' else '0'))

/-- The attributes `AutoSearchSave` writes for one item.  `timeToString` is
`SearchTime::toString` of the header. -/
def saveItem (timeToString : SearchTime → String) (as : AutoSearch) : XmlItem :=
  { Enabled := as.enabled
    SearchString := as.searchString
    FileType := as.fileType
    Action := as.action
    Remove := as.remove
    Target := as.target
    TargetType := as.tType
    MatcherType := as.method
    MatcherString := as.pattern
    UserMatch := as.nickPattern
    SearchInterval := as.searchInterval
    ExpireTime := as.expireTime
    CheckAlreadyQueued := as.checkAlreadyQueued
    CheckAlreadyShared := as.checkAlreadyShared
    SearchDays := bitset7ToString as.searchDays
    StartTime := timeToString as.startTime
    EndTime := timeToString as.endTime
    LastSearchTime := as.lastSearch
    Token := as.token }

/-- The document `AutoSearchSave` builds: the root attribute `LastPosition`
and the item elements in the order of the list. -/
structure SavedFile where
  lastPosition : Nat
  items : List XmlItem

/-- `AutoSearchManager::AutoSearchSave`: the new state and the file that
replaces `AutoSearch.xml`, or `none` when the write throws (the `Exception` is
caught and only logged). -/
def AutoSearchSave (timeToString : SearchTime → String) (ioOk : Bool) (m : AutoSearchManager) :
    AutoSearchManager × Option SavedFile :=
  ({ m with dirty := false },
    if ioOk then
      some { lastPosition := m.curPos
             items := m.searchItems.map (fun as => saveItem timeToString (m.objs as)) }
    else none)

/-- `AutoSearchManager::on(TimerManagerListener::Second)`: the new state,
whether a save was triggered, and the file written.  The tick and `lastSave`
are `uint64_t` values (below `2 ^ 64`), and the sum `lastSave + 20 * 1000`
is taken in `uint64_t`, so it wraps at `2 ^ 64`. -/
def onSecond (timeToString : SearchTime → String) (aTick : Nat) (ioOk : Bool)
    (m : AutoSearchManager) : AutoSearchManager × Bool × Option SavedFile :=
  if m.dirty && decide ((m.lastSave + 20 * 1000) % 2 ^ 64 < aTick) then
    let r := AutoSearchSave timeToString ioOk { m with lastSave := aTick, dirty := false }
    (r.1, true, r.2)
  else (m, false, none)

/-- One step of a run of the seconds timer: what the rest of the program
does to the manager before the tick, the tick value, and whether the write
of a triggered save succeeds. -/
structure SecondStep where
  before : AutoSearchManager → AutoSearchManager
  aTick : Nat
  ioOk : Bool

/-- A run of the seconds timer: the final state and, for each tick in
order, the tick value, whether a save was triggered, and the dirty flag right
after the tick. -/
def runSeconds (timeToString : SearchTime → String) :
    AutoSearchManager → List SecondStep → AutoSearchManager × List (Nat × Bool × Bool)
  | m, [] => (m, [])
  | m, s :: rest =>
    let r := onSecond timeToString s.aTick s.ioOk (s.before m)
    let rs := runSeconds timeToString r.1 rest
    (rs.1, (s.aTick, r.2.1, r.1.dirty) :: rs.2)

/-- The tick values at which a save was triggered, in order. -/
def saveTicks (trace : List (Nat × Bool × Bool)) : List Nat :=
  (trace.filter (fun e => e.2.1)).map (fun e => e.1)

/-- The values an `int` holds. -/
def fitsInt (x : Int) : Bool :=
  decide (-(2 : Int) ^ 31 ≤ x) && decide (x < (2 : Int) ^ 31)

/-- What the getters of `SimpleXML` deliver in `loadAutoSearch` for an item
element `AutoSearchSave` wrote.  The two times are written as 64-bit integers
and read back with `getIntChildAttrib` into an `int`: the result is the
written value when an `int` holds it and is not defined otherwise (`none`).
The other attributes have the same type on both sides, and `SimpleXML`
returns an attribute string as it was written. -/
def readSavedItem (x : XmlItem) : Option XmlItem :=
  if fitsInt x.ExpireTime && fitsInt x.LastSearchTime then some x else none

/-- The string `SearchTime::toString` writes for a time is not empty and
`SearchTime(const string&)` reads the time back from it. -/
def TimeRoundTrip (env : Env) (timeToString : SearchTime → String) (t : SearchTime) : Prop :=
  (timeToString t).isEmpty = false ∧ env.searchTimeOfString (timeToString t) = t

/-! ## Example data for the result matcher, the dispatcher and persistence -/

/-- More objects: at 20 an item of any file type with the shared check, at
21 a directory item with the shared check, at 22 a disabled directory item,
at 23 a queued item with a bundle, at 24 an item that searches on Sundays
only, at 30 an item that expired at time 500; elsewhere as `exObjs`. -/
def exObjs2 : AutoSearchPtr → AutoSearch := fun p =>
  if p = 20 then { exItem "Some.Release" with fileType := "0", checkAlreadyShared := true }
  else if p = 21 then { exItem "Some.Release" with checkAlreadyShared := true }
  else if p = 22 then { exItem "Some.Release" with enabled := false }
  else if p = 23 then
    { exItem "queued" with
      status := StatusType.STATUS_QUEUED_OK, bundleTokens := ["b1"], token := 5 }
  else if p = 24 then { exItem "sunday" with searchDays := 1 }
  else if p = 30 then { exItem "old" with expireTime := 500 }
  else exObjs p

/-- Collaborators for the examples: exact string match, paths of a single
segment, a share that holds `Some.Release`, an empty queue, queue calls that
succeed, and nobody online. -/
def exCollab : Collab :=
  { strMatch := fun _ pattern s => pattern == s
    getLastDir := fun file => file
    getNicks := fun _ _ => []
    isDirShared := fun dir => dir == "Some.Release"
    isDirQueued := fun _ => false
    queueThrows := fun _ => false
    getVirtualTarget := fun target _ _ => (target, true)
    findOnlineUser := fun _ _ => none
    statusRank := fun s =>
      match s with
      | StatusType.STATUS_SEARCHING => 0
      | StatusType.STATUS_LIST => 1
      | StatusType.STATUS_QUEUED_OK => 2
      | StatusType.STATUS_FAILED_MISSING => 3
      | StatusType.STATUS_FAILED_EXTRAS => 4 }

/-- A directory result for `Some.Release` from an auto search. -/
def exDirResult : SearchResult :=
  { token := "as"
    type := ResultType.TYPE_DIRECTORY
    file := "Some.Release"
    fileName := ""
    size := 0
    tth := ""
    cid := "CID"
    hubUrl := "adc://hub" }

/-- A directory result for another directory. -/
def exOtherResult : SearchResult :=
  { exDirResult with file := "Other" }

/-- A manager over `exObjs2` with an empty list. -/
def exEmptyManager : AutoSearchManager :=
  { objs := exObjs2
    searchItems := []
    lastSave := 0
    dirty := false
    lastSearch := 1
    curPos := 0
    endOfListReached := false
    recheckTime := 0 }

/-- A manager whose list is the disabled item at 22. -/
def exManualManager : AutoSearchManager :=
  { exEmptyManager with searchItems := [22] }

/-- A manager whose first item is expired at the example tick. -/
def exExpiryManager : AutoSearchManager :=
  { exEmptyManager with searchItems := [30, 10, 11] }

/-- A manager whose list is the queued item at 23. -/
def exQueuedManager : AutoSearchManager :=
  { exEmptyManager with searchItems := [23] }

/-- A manager with the list [10, 11] to save and load. -/
def exSaveManager : AutoSearchManager :=
  { exEmptyManager with searchItems := [10, 11], curPos := 1 }

/-- A string form of a time, two digits, a colon and two digits. -/
def exTimeToString (t : SearchTime) : String :=
  String.mk [Char.ofNat (48 + t.hour / 10), Char.ofNat (48 + t.hour % 10), ':',
    Char.ofNat (48 + t.minute / 10), Char.ofNat (48 + t.minute % 10)]

/-- The time read from that string form. -/
def exTimeOfString (s : String) : SearchTime :=
  match s.toList with
  | [a, b, _, c, d] =>
    { hour := (a.toNat - 48) * 10 + (b.toNat - 48), minute := (c.toNat - 48) * 10 + (d.toNat - 48) }
  | _ => SearchTime.ofEnd false

/-- Settings whose `SearchTime` reads the example string form. -/
def exEnvTime : Env :=
  { exEnv with searchTimeOfString := exTimeOfString }

/-- The elements read back from the file saved for `exSaveManager`, with new
objects at 40 and 41. -/
def exChildren : List XmlChild :=
  [{ ptr := 40, rand := 7, item := saveItem exTimeToString (exObjs2 10) },
    { ptr := 41, rand := 7, item := saveItem exTimeToString (exObjs2 11) }]

/-- The element read back from the file saved for `exQueuedManager`. -/
def exQueuedChildren : List XmlChild :=
  [{ ptr := 40, rand := 7, item := saveItem exTimeToString (exObjs2 23) }]

/-- A parsed `IINF` command. -/
def exCommand : AdcCommand :=
  { parameters := ["NIalice"]
    features := ""
    cmdInt := CMD_INF
    sidFrom := 0
    sidTo := 0
    type := 'I' }

/-- A codec that parses one line. -/
def exParse : String → Bool → Option AdcCommand := fun aLine _ =>
  if aLine == "IINF NIalice" then some exCommand else none

/-- Three ticks of the seconds timer: a mutation and a tick at 25 s, a tick
at 30 s, a mutation and a tick at 46 s whose write fails. -/
def exSeconds : List SecondStep :=
  [{ before := fun m => { m with dirty := true }, aTick := 25000, ioOk := true },
    { before := fun m => { m with dirty := true }, aTick := 30000, ioOk := true },
    { before := fun m => m, aTick := 46000, ioOk := false }]

/-- The state after a manual search of the disabled item at 22. -/
def exAfterManual : AutoSearchManager :=
  manualSearch exEnv ["adc://hub"] exManualManager 22

/-- A result of a bundle search, with the token in upper case. -/
def exBundleResult : SearchResult :=
  { exOtherResult with token := "QA" }

/-- The result handler run on a sequence of results, one after the other:
the state after the last. -/
def onSearchResults (c : Collab) (env : Env) (srs : List SearchResult) (m : AutoSearchManager) :
    AutoSearchManager :=
  srs.foldl (fun st r => (onSearchResult c env r st).1) m

/-- The state of the result handler between its loop over the items and the
`for_each` over the matches. -/
def afterResultLoop (c : Collab) (env : Env) (sr : SearchResult) (m : AutoSearchManager) :
    AutoSearchManager :=
  { m with objs := (onSearchResultLoop c env sr m.searchItems m.objs []).1 }

/-! ## Bundles, the status text and the external add -/

/-- What the bundle handlers read from a `Bundle`: `getAutoSearch()`, the
token of the item the bundle was spawned from (0 for none), and `getToken()`,
the token of the bundle. -/
structure Bundle where
  autoSearch : Int
  token : String
  deriving DecidableEq, Repr

/-- `AutoSearchManager::getSearchByToken`: the first item of the list with
the token, or `nullptr`. -/
def getSearchByToken (m : AutoSearchManager) (aToken : Int) : Option AutoSearchPtr :=
  m.searchItems.find? (fun as => (m.objs as).token == aToken)

/-- Modelled from the spec: `AutoSearch::addBundle` of the header, which is
not among the sources; the spec says it maintains `bundle_tokens`, a set of
strings, so a token that is present is not added again. -/
def AutoSearch.addBundle (as : AutoSearch) (aToken : String) : AutoSearch :=
  { as with
    bundleTokens := if aToken ∈ as.bundleTokens then as.bundleTokens else as.bundleTokens ++ [aToken] }

/-- Modelled from the spec: `AutoSearch::removeBundle` of the header, which
is not among the sources; the spec says it maintains `bundle_tokens`, a set of
strings, so the token is absent afterwards. -/
def AutoSearch.removeBundle (as : AutoSearch) (aToken : String) : AutoSearch :=
  { as with bundleTokens := as.bundleTokens.filter (fun t => t != aToken) }

/-- `AutoSearchManager::onAddBundle`. -/
def onAddBundle (m : AutoSearchManager) (aBundle : Bundle) : AutoSearchManager :=
  if aBundle.autoSearch == 0 then m
  else
    match getSearchByToken m aBundle.autoSearch with
    | some as =>
      setItemStatus
        { m with objs := Function.update m.objs as ((m.objs as).addBundle aBundle.token) }
        as StatusType.STATUS_QUEUED_OK
    | none => m

/-- `AutoSearchManager::onRemoveBundle`. -/
def onRemoveBundle (m : AutoSearchManager) (aBundle : Bundle) (finished : Bool) :
    AutoSearchManager :=
  if aBundle.autoSearch == 0 then m
  else
    match getSearchByToken m aBundle.autoSearch with
    | some as =>
      let m1 := { m with objs := Function.update m.objs as ((m.objs as).removeBundle aBundle.token) }
      if (m1.objs as).remove && finished then removeAutoSearch m1 as else m1
    | none => m

/-- `AutoSearchManager::onBundleScanFailed`. -/
def onBundleScanFailed (m : AutoSearchManager) (aBundle : Bundle) (noMissing : Bool) :
    AutoSearchManager :=
  if aBundle.autoSearch == 0 then m
  else
    match getSearchByToken m aBundle.autoSearch with
    | some as =>
      setItemStatus m as
        (if noMissing then StatusType.STATUS_FAILED_EXTRAS else StatusType.STATUS_FAILED_MISSING)
    | none => m

/-- The two locals of `getStatus` for an enabled item when the final
concatenation is reached: `statusString` and `searching`. -/
def getStatusLocals (as : AutoSearch) : String × Bool :=
  let searching := !as.remove
  if as.status == StatusType.STATUS_SEARCHING then ("Active", true)
  else if as.status == StatusType.STATUS_LIST then ("Downloading list", searching)
  else
    let bundleCount := as.bundleTokens.length
    if bundleCount == 1 then
      if as.status == StatusType.STATUS_QUEUED_OK then ("Queued", searching)
      else if as.status == StatusType.STATUS_FAILED_MISSING then ("Failed (files missing)", true)
      else if as.status == StatusType.STATUS_FAILED_EXTRAS then ("Failed (extra files)", searching)
      else ("", searching)
    else (toString bundleCount ++ " bundles queued", true)

/-- `AutoSearchManager::getStatus`. -/
def getStatus (m : AutoSearchManager) (as : AutoSearchPtr) : String :=
  if !(m.objs as).enabled then "Disabled"
  else
    (getStatusLocals (m.objs as)).1 ++ ", " ++
      (if (getStatusLocals (m.objs as)).2 then "searching" else "not searching")

/-- What the external `addAutoSearch` reads besides its arguments: the
setting `AUTOSEARCH_EXPIRE_DAYS`, the two readings of `GET_TIME()`, the online
hubs, the address `new` returns, the default argument the header declares for
the token of the constructor, and the value `Util::randInt(10)` returns. -/
structure AddInput where
  expireDays : Int
  timeCreated : Int
  timeAdded : Int
  allowedHubs : List String
  ptr : AutoSearchPtr
  defaultToken : Int
  rand : Int

/-- The object the external `addAutoSearch` builds: the constructor call
and the three assignments that follow it. -/
def externalItem (env : Env) (inp : AddInput) (ss aTarget : String) (aTargetType : Int)
    (isDirectory aRemove : Bool) : AutoSearch :=
  { AutoSearch.create true ss
      (if isDirectory then env.SEARCH_TYPE_DIRECTORY else env.SEARCH_TYPE_ANY)
      ActionType.ACTION_DOWNLOAD aRemove aTarget aTargetType Method.PARTIAL "" "" 0
      (if inp.expireDays > 0 then inp.timeCreated + inp.expireDays * 24 * 60 * 60 else 0)
      false false inp.defaultToken inp.rand with
    startTime := SearchTime.ofEnd false, endTime := SearchTime.ofEnd true, searchDays := 127 }

/-- `AutoSearchManager::addAutoSearch(const string&, ...)`, for external
use: the new state and the item returned (`none` for `nullptr`).
`ss.length()` is the number of bytes of the string. -/
def addAutoSearchExternal (env : Env) (inp : AddInput) (ss aTarget : String) (aTargetType : Int)
    (isDirectory aRemove : Bool) (m : AutoSearchManager) :
    AutoSearchManager × Option AutoSearchPtr :=
  if ss.utf8ByteSize ≤ 5 then (m, none)
  else
    match addAutoSearch
      { m with
        objs := Function.update m.objs inp.ptr
          (externalItem env inp ss aTarget aTargetType isDirectory aRemove) } inp.ptr with
    | (m2, true) =>
      let m3 := { m2 with
        objs := Function.update m2.objs inp.ptr { m2.objs inp.ptr with lastSearch := inp.timeAdded } }
      (if inp.allowedHubs.isEmpty then m3 else searchItem env m3 inp.ptr, some inp.ptr)
    | (m2, false) => (m2, none)

/-! ## Example data for bundles, reports and the external add -/

/-- More objects: at 50 a report item that is removed after completion, at
51 a queued item with the token 6 and the bundle `b2` that is removed after
completion, at 52 a queued item with two bundles that is removed after
completion; elsewhere as `exObjs2`. -/
def exObjs3 : AutoSearchPtr → AutoSearch := fun p =>
  if p = 50 then
    { exItem "Some.Release" with action := ActionType.ACTION_REPORT, remove := true, token := 4 }
  else if p = 51 then
    { exItem "remove.me" with
      status := StatusType.STATUS_QUEUED_OK, bundleTokens := ["b2"], token := 6, remove := true }
  else if p = 52 then
    { exItem "two.bundles" with
      status := StatusType.STATUS_QUEUED_OK, bundleTokens := ["b1", "b2"], token := 8,
      remove := true }
  else exObjs2 p

/-- A manager whose list is the items at 23, 51, 50 and 52. -/
def exBundleManager : AutoSearchManager :=
  { exEmptyManager with objs := exObjs3, searchItems := [23, 51, 50, 52] }

/-- The example collaborators with the user of every result online and
connected. -/
def exOnlineCollab : Collab :=
  { exCollab with findOnlineUser := fun _ _ => some ("alice", true) }

/-- Two elements of a file with different search strings and the same
token. -/
def exTokenChildren : List XmlChild :=
  [{ ptr := 40, rand := 7, item := { saveItem exTimeToString (exObjs2 10) with Token := 5 } },
    { ptr := 41, rand := 7, item := { saveItem exTimeToString (exObjs2 11) with Token := 5 } }]

/-- Two elements of a file with different search strings and no token, for
which the generator returns the same value. -/
def exRandChildren : List XmlChild :=
  [{ ptr := 40, rand := 7, item := { saveItem exTimeToString (exObjs2 10) with Token := 0 } },
    { ptr := 41, rand := 7, item := { saveItem exTimeToString (exObjs2 11) with Token := 0 } }]

/-- Three elements of a file, the third with the search string of the
first. -/
def exDupChildren : List XmlChild :=
  [{ ptr := 40, rand := 7, item := saveItem exTimeToString (exObjs2 10) },
    { ptr := 41, rand := 7, item := saveItem exTimeToString (exObjs2 11) },
    { ptr := 42, rand := 7, item := saveItem exTimeToString (exObjs2 14) }]

/-- The inputs of an external add: no expiry, a hub online, a new object
at 60. -/
def exAddInput : AddInput :=
  { expireDays := 0
    timeCreated := 1000
    timeAdded := 1000
    allowedHubs := ["adc://hub"]
    ptr := 60
    defaultToken := 0
    rand := 7 }

/-! ## The item: `allowNewItems` -/

/-- C1: `allowNewItems` returns true exactly when the item is enabled and
its status is Searching or FailedMissing, or `remove` is false. -/
theorem allowNewItems_iff (as : AutoSearch) :
    as.allowNewItems = true ↔
      (as.enabled = true ∧
        ((as.status = StatusType.STATUS_SEARCHING ∨ as.status = StatusType.STATUS_FAILED_MISSING) ∨
          as.remove = false)) := by
  unfold AutoSearch.allowNewItems
  cases he : as.enabled <;> cases hr : as.remove <;> cases hs : as.status <;> simp

/-! ## The scheduler walk -/

/-- The walk over a list none of whose items passes visits all of them. -/
theorem checkSearchesLoop_none (objs : AutoSearchPtr → AutoSearch) (tm : Tm) :
    ∀ (l : List AutoSearchPtr) (pos : Nat),
      (∀ p ∈ l, checkItem (objs p) tm = false) →
      checkSearchesLoop objs tm l pos = (pos + l.length, none)
  | [], pos, _ => by simp [checkSearchesLoop]
  | p :: rest, pos, h => by
    have hp : checkItem (objs p) tm = false := h p (List.mem_cons_self _ _)
    have hrest : ∀ q ∈ rest, checkItem (objs q) tm = false :=
      fun q hq => h q (List.mem_cons_of_mem _ hq)
    simp only [checkSearchesLoop, hp, Bool.false_eq_true, if_false]
    rw [checkSearchesLoop_none objs tm rest (pos + 1) hrest]
    simp only [List.length_cons]
    congr 1
    omega

/-- The walk stops at the first item that passes. -/
theorem checkSearchesLoop_some (objs : AutoSearchPtr → AutoSearch) (tm : Tm) :
    ∀ (l : List AutoSearchPtr) (pos k : Nat) (p : AutoSearchPtr),
      l[k]? = some p → checkItem (objs p) tm = true →
      (∀ j q, j < k → l[j]? = some q → checkItem (objs q) tm = false) →
      checkSearchesLoop objs tm l pos = (pos + k + 1, some p)
  | [], _, k, p, hk, _, _ => by simp at hk
  | a :: rest, pos, 0, p, hk, hp, _ => by
    simp only [List.getElem?_cons_zero, Option.some.injEq] at hk
    subst hk
    simp [checkSearchesLoop, hp]
  | a :: rest, pos, k + 1, p, hk, hp, hbefore => by
    have ha : checkItem (objs a) tm = false := hbefore 0 a (Nat.succ_pos k) (by simp)
    have hk1 : rest[k]? = some p := by simpa using hk
    have hb : ∀ j q, j < k → rest[j]? = some q → checkItem (objs q) tm = false :=
      fun j q hj hq => hbefore (j + 1) q (Nat.succ_lt_succ hj) (by simpa using hq)
    simp only [checkSearchesLoop, ha, Bool.false_eq_true, if_false]
    rw [checkSearchesLoop_some objs tm rest (pos + 1) k p hk1 hp hb]
    congr 1
    omega

/-- `searchItem` changes neither the list nor the scheduler members, and of
the objects only the file type of the searched one. -/
theorem searchItem_frame (env : Env) (m : AutoSearchManager) (as : AutoSearchPtr) :
    (searchItem env m as).searchItems = m.searchItems ∧
    (searchItem env m as).curPos = m.curPos ∧
    (searchItem env m as).lastSearch = m.lastSearch ∧
    (searchItem env m as).endOfListReached = m.endOfListReached ∧
    (searchItem env m as).recheckTime = m.recheckTime ∧
    (searchItem env m as).dirty = m.dirty ∧
    (searchItem env m as).lastSave = m.lastSave ∧
    (∀ q, ((searchItem env m as).objs q) = m.objs q ∨
      ((searchItem env m as).objs q) = { m.objs q with fileType := env.SEARCH_TYPE_ANY }) := by
  unfold searchItem
  split
  · simp
  · refine ⟨rfl, rfl, rfl, rfl, rfl, rfl, rfl, ?_⟩
    intro q
    by_cases hq : q = as
    · subst hq
      right
      simp
    · left
      simp [Function.update_noteq hq]

/-- C2: with an online hub and the cursor inside the list, the walk of
`checkSearches` selects the first item at an index from the cursor on that
passes `checkItem` (that is `allowNewItems` and the day and time window),
sets its `lastSearch` to the current time, leaves the `lastSearch` of every
other object alone, resets the manager's minutes counter to 0 and leaves the
cursor one past the selected index; when no item from the cursor on passes,
nothing is selected, no `lastSearch` changes and the cursor is the length of
the list.  The result holds at most one selected item. -/
theorem checkSearches_selects_first (env : Env) (inp : MinuteInput) (m : AutoSearchManager)
    (hhubs : inp.allowedHubs ≠ []) (hpos : m.curPos < m.searchItems.length) :
    (∀ (i : Nat) (p : AutoSearchPtr), m.curPos ≤ i → m.searchItems[i]? = some p →
        checkItem (m.objs p) inp.tm = true →
        (∀ j q, m.curPos ≤ j → j < i → m.searchItems[j]? = some q →
          checkItem (m.objs q) inp.tm = false) →
        (checkSearches env inp m).2 = some p ∧
        ((checkSearches env inp m).1.objs p).lastSearch = inp.curTime ∧
        (∀ q, q ≠ p → ((checkSearches env inp m).1.objs q).lastSearch = (m.objs q).lastSearch) ∧
        (checkSearches env inp m).1.lastSearch = 0 ∧
        (checkSearches env inp m).1.curPos = i + 1 ∧
        (checkSearches env inp m).1.searchItems = m.searchItems) ∧
    ((∀ (i : Nat) (p : AutoSearchPtr), m.curPos ≤ i → m.searchItems[i]? = some p →
        checkItem (m.objs p) inp.tm = false) →
        (checkSearches env inp m).2 = none ∧
        (∀ q, ((checkSearches env inp m).1.objs q).lastSearch = (m.objs q).lastSearch) ∧
        (checkSearches env inp m).1.curPos = m.searchItems.length ∧
        (checkSearches env inp m).1.searchItems = m.searchItems) := by
  have hh : inp.allowedHubs.isEmpty = false := by
    cases h : inp.allowedHubs with
    | nil => exact absurd h hhubs
    | cons a l => rfl
  have hnot : ¬ m.curPos ≥ m.searchItems.length := by omega
  constructor
  · intro i p hi hip hp hbefore
    have hk : (m.searchItems.drop m.curPos)[i - m.curPos]? = some p := by
      rw [List.getElem?_drop]
      rw [show m.curPos + (i - m.curPos) = i by omega]
      exact hip
    have hb : ∀ j q, j < i - m.curPos → (m.searchItems.drop m.curPos)[j]? = some q →
        checkItem (m.objs q) inp.tm = false := by
      intro j q hj hq
      rw [List.getElem?_drop] at hq
      exact hbefore (m.curPos + j) q (by omega) (by omega) hq
    have hloop := checkSearchesLoop_some m.objs inp.tm (m.searchItems.drop m.curPos) m.curPos
      (i - m.curPos) p hk hp hb
    have hpos1 : m.curPos + (i - m.curPos) + 1 = i + 1 := by omega
    have hcs : checkSearches env inp m = (searchItem env
        { m with
          curPos := m.curPos + (i - m.curPos) + 1
          lastSearch := 0
          objs := Function.update m.objs p { m.objs p with lastSearch := inp.curTime } } p,
        some p) := by
      unfold checkSearches
      simp only [hh, Bool.false_eq_true, if_false, hnot, hloop]
    rw [hcs]
    obtain ⟨h1, h2, h3, _, _, _, _, h8⟩ := searchItem_frame env
      { m with
        curPos := m.curPos + (i - m.curPos) + 1
        lastSearch := 0
        objs := Function.update m.objs p { m.objs p with lastSearch := inp.curTime } } p
    refine ⟨rfl, ?_, ?_, h3, ?_, h1⟩
    · rcases h8 p with h | h <;> rw [h] <;> simp
    · intro q hq
      rcases h8 q with h | h <;> rw [h] <;> simp [Function.update_noteq hq]
    · rw [h2]
      exact hpos1
  · intro hall
    have hnone : ∀ q ∈ m.searchItems.drop m.curPos, checkItem (m.objs q) inp.tm = false := by
      intro q hq
      obtain ⟨j, hj⟩ := List.mem_iff_getElem?.mp hq
      rw [List.getElem?_drop] at hj
      exact hall (m.curPos + j) q (by omega) hj
    have hloop := checkSearchesLoop_none m.objs inp.tm (m.searchItems.drop m.curPos) m.curPos hnone
    have hcs : checkSearches env inp m =
        ({ m with curPos := m.curPos + (m.searchItems.drop m.curPos).length }, none) := by
      unfold checkSearches
      simp only [hh, Bool.false_eq_true, if_false, hnot, hloop]
    rw [hcs]
    refine ⟨rfl, fun q => rfl, ?_, rfl⟩
    simp only [List.length_drop]
    omega

/-- C3: an item is selectable at local time (weekday w, hour h, minute m)
exactly when it allows new items, bit w of `searchDays` is set and
(start.hour, start.minute) ≤ (h, m) ≤ (end.hour, end.minute) in the
lexicographic order; an item that allows new items, with all days set, start
08:00 and end 17:59, is skipped at 07:59, passes at 08:00 and at 17:59, and is
skipped at 18:00, on every weekday. -/
theorem checkItem_window :
    (∀ (as : AutoSearch) (tm : Tm),
      checkItem as tm = true ↔
        (as.allowNewItems = true ∧ as.searchDays.testBit tm.tm_wday = true ∧
          toLex (as.startTime.hour, as.startTime.minute) ≤ toLex (tm.tm_hour, tm.tm_min) ∧
          toLex (tm.tm_hour, tm.tm_min) ≤ toLex (as.endTime.hour, as.endTime.minute))) ∧
    (∀ (as : AutoSearch) (w : Nat), w < 7 → as.allowNewItems = true → as.searchDays = 127 →
      as.startTime = { hour := 8, minute := 0 } → as.endTime = { hour := 17, minute := 59 } →
      checkItem as { tm_wday := w, tm_hour := 7, tm_min := 59 } = false ∧
      checkItem as { tm_wday := w, tm_hour := 8, tm_min := 0 } = true ∧
      checkItem as { tm_wday := w, tm_hour := 17, tm_min := 59 } = true ∧
      checkItem as { tm_wday := w, tm_hour := 18, tm_min := 0 } = false) := by
  have gen : ∀ (as : AutoSearch) (tm : Tm),
      checkItem as tm = true ↔
        (as.allowNewItems = true ∧ as.searchDays.testBit tm.tm_wday = true ∧
          toLex (as.startTime.hour, as.startTime.minute) ≤ toLex (tm.tm_hour, tm.tm_min) ∧
          toLex (tm.tm_hour, tm.tm_min) ≤ toLex (as.endTime.hour, as.endTime.minute)) := by
    intro as tm
    unfold checkItem
    simp only [Prod.Lex.le_iff]
    cases ha : as.allowNewItems <;> cases hd : as.searchDays.testBit tm.tm_wday <;> simp
    omega
  refine ⟨gen, ?_⟩
  intro as w hw ha hd hs he
  have hbit : Nat.testBit 127 w = true := by
    interval_cases w <;> decide
  refine ⟨?_, ?_, ?_, ?_⟩
  · cases hc : checkItem as { tm_wday := w, tm_hour := 7, tm_min := 59 } with
    | false => rfl
    | true =>
      have := ((gen as _).mp hc).2.2.1
      rw [hs, Prod.Lex.le_iff] at this
      simp at this
  · rw [gen]
    simp [ha, hd, hs, he, hbit, Prod.Lex.le_iff]
  · rw [gen]
    simp [ha, hd, hs, he, hbit, Prod.Lex.le_iff]
  · cases hc : checkItem as { tm_wday := w, tm_hour := 18, tm_min := 0 } with
    | false => rfl
    | true =>
      have := ((gen as _).mp hc).2.2.2
      rw [he, Prod.Lex.le_iff] at this
      simp at this

/-! ## The minute tick on a list whose items all pass -/

/-- An item that passes the walk is enabled. -/
theorem enabled_of_checkItem (as : AutoSearch) (tm : Tm) (h : checkItem as tm = true) :
    as.enabled = true := by
  unfold checkItem at h
  cases ha : as.allowNewItems with
  | false => simp [ha] at h
  | true =>
    unfold AutoSearch.allowNewItems at ha
    cases he : as.enabled with
    | false => simp [he] at ha
    | true => rfl

/-- The loop of `hasEnabledItems` over enabled, unexpired items, once the
result is set. -/
theorem hasEnabledItemsLoop_true (objs : AutoSearchPtr → AutoSearch) (t : Int) :
    ∀ (l expired : List AutoSearchPtr),
      (∀ p ∈ l, (objs p).enabled = true ∧ isExpired (objs p) t = false) →
      hasEnabledItemsLoop objs t l expired true = (expired, true)
  | [], expired, _ => by simp [hasEnabledItemsLoop]
  | a :: rest, expired, h => by
    have ha := h a (List.mem_cons_self _ _)
    have hrest : ∀ p ∈ rest, (objs p).enabled = true ∧ isExpired (objs p) t = false :=
      fun p hp => h p (List.mem_cons_of_mem _ hp)
    simp only [hasEnabledItemsLoop, ha.1, ha.2, Bool.false_eq_true, if_false, Bool.not_true]
    exact hasEnabledItemsLoop_true objs t rest expired hrest

/-- `hasEnabledItems` on a non-empty list of enabled, unexpired items changes
nothing and returns true. -/
theorem hasEnabledItems_allOk (t : Int) (m : AutoSearchManager) (hne : m.searchItems ≠ [])
    (h : ∀ p ∈ m.searchItems, (m.objs p).enabled = true ∧ isExpired (m.objs p) t = false) :
    hasEnabledItems t m = (m, true) := by
  unfold hasEnabledItems
  cases hl : m.searchItems with
  | nil => exact absurd hl hne
  | cons a rest =>
    rw [hl] at h
    have ha := h a (List.mem_cons_self _ _)
    have hrest : ∀ p ∈ rest, (m.objs p).enabled = true ∧ isExpired (m.objs p) t = false :=
      fun p hp => h p (List.mem_cons_of_mem _ hp)
    simp only [List.isEmpty_cons, Bool.false_eq_true, if_false, hasEnabledItemsLoop, ha.1, ha.2,
      Bool.not_true]
    rw [hasEnabledItemsLoop_true m.objs t rest [] hrest]
    simp

/-- `checkItem` and `isExpired` do not read `lastSearch` or `fileType`. -/
theorem checkItem_isExpired_frame (a : AutoSearch) (x : Int) (f : String) (tm : Tm) (t : Int) :
    checkItem { a with lastSearch := x } tm = checkItem a tm ∧
    isExpired { a with lastSearch := x } t = isExpired a t ∧
    checkItem { a with fileType := f } tm = checkItem a tm ∧
    isExpired { a with fileType := f } t = isExpired a t ∧
    checkItem { a with lastSearch := x, fileType := f } tm = checkItem a tm ∧
    isExpired { a with lastSearch := x, fileType := f } t = isExpired a t :=
  ⟨rfl, rfl, rfl, rfl, rfl, rfl⟩

/-- `checkSearches` keeps the list, and keeps `checkItem` and `isExpired` of
every object. -/
theorem checkSearches_frame (env : Env) (inp : MinuteInput) (m : AutoSearchManager) :
    (checkSearches env inp m).1.searchItems = m.searchItems ∧
    (∀ q tm t, checkItem ((checkSearches env inp m).1.objs q) tm = checkItem (m.objs q) tm ∧
      isExpired ((checkSearches env inp m).1.objs q) t = isExpired (m.objs q) t) := by
  unfold checkSearches
  split
  · exact ⟨rfl, fun _ _ _ => ⟨rfl, rfl⟩⟩
  · split
    · exact ⟨rfl, fun _ _ _ => ⟨rfl, rfl⟩⟩
    · split
      · exact ⟨rfl, fun _ _ _ => ⟨rfl, rfl⟩⟩
      · rename_i pos as _
        obtain ⟨h1, _, _, _, _, _, _, h8⟩ := searchItem_frame env
          { m with
            curPos := pos
            lastSearch := 0
            objs := Function.update m.objs as { m.objs as with lastSearch := inp.curTime } } as
        refine ⟨h1, ?_⟩
        intro q tm t
        rcases h8 q with h | h
        · rw [h]
          by_cases hq : q = as
          · subst hq
            simp only [Function.update_same]
            exact ⟨(checkItem_isExpired_frame _ _ "" tm t).1, (checkItem_isExpired_frame _ _ "" tm t).2.1⟩
          · simp only [Function.update_noteq hq, and_self]
        · rw [h]
          by_cases hq : q = as
          · subst hq
            simp only [Function.update_same]
            exact ⟨(checkItem_isExpired_frame _ _ _ tm t).2.2.2.2.1,
              (checkItem_isExpired_frame _ _ _ tm t).2.2.2.2.2⟩
          · simp only [Function.update_noteq hq]
            exact ⟨(checkItem_isExpired_frame _ 0 _ tm t).2.2.1,
              (checkItem_isExpired_frame _ 0 _ tm t).2.2.2.1⟩

/-- With an online hub and the cursor inside a list whose items all pass,
`checkSearches` selects the item under the cursor. -/
theorem checkSearches_allOk_select (env : Env) (inp : MinuteInput) (m : AutoSearchManager)
    (hhubs : inp.allowedHubs ≠ []) (hall : AllOk inp m) (hpos : m.curPos < m.searchItems.length) :
    (checkSearches env inp m).2 = m.searchItems[m.curPos]? ∧
    sched (checkSearches env inp m).1 = { sched m with pos := m.curPos + 1, ls := 0 } := by
  have hh : inp.allowedHubs.isEmpty = false := by
    cases h : inp.allowedHubs with
    | nil => exact absurd h hhubs
    | cons a l => rfl
  have hnot : ¬ m.curPos ≥ m.searchItems.length := by omega
  have hget : m.searchItems[m.curPos]? = some (m.searchItems[m.curPos]) :=
    List.getElem?_eq_getElem hpos
  have hk : (m.searchItems.drop m.curPos)[0]? = some (m.searchItems[m.curPos]) := by
    rw [List.getElem?_drop]
    exact hget
  have hp : checkItem (m.objs (m.searchItems[m.curPos])) inp.tm = true :=
    (hall _ (List.getElem_mem _)).1
  have hloop := checkSearchesLoop_some m.objs inp.tm (m.searchItems.drop m.curPos) m.curPos 0
    (m.searchItems[m.curPos]) hk hp (fun j q hj _ => absurd hj (Nat.not_lt_zero j))
  have hcs : checkSearches env inp m = (searchItem env
      { m with
        curPos := m.curPos + 0 + 1
        lastSearch := 0
        objs := Function.update m.objs (m.searchItems[m.curPos])
          { m.objs (m.searchItems[m.curPos]) with lastSearch := inp.curTime } }
      (m.searchItems[m.curPos]), some (m.searchItems[m.curPos])) := by
    unfold checkSearches
    simp only [hh, Bool.false_eq_true, if_false, hnot, hloop]
  rw [hcs, hget]
  obtain ⟨_, h2, h3, h4, h5, _, _, _⟩ := searchItem_frame env
    { m with
      curPos := m.curPos + 0 + 1
      lastSearch := 0
      objs := Function.update m.objs (m.searchItems[m.curPos])
        { m.objs (m.searchItems[m.curPos]) with lastSearch := inp.curTime } }
    (m.searchItems[m.curPos])
  refine ⟨rfl, ?_⟩
  simp only [sched, h2, h3, h4, h5, Nat.add_zero]

/-- With an online hub and the cursor at or past the end of the list,
`checkSearches` starts the recheck wait. -/
theorem checkSearches_end (env : Env) (inp : MinuteInput) (m : AutoSearchManager)
    (hhubs : inp.allowedHubs ≠ []) (hpos : m.curPos ≥ m.searchItems.length) :
    checkSearches env inp m =
      ({ m with curPos := 0, endOfListReached := true, recheckTime := 0 }, none) := by
  have hh : inp.allowedHubs.isEmpty = false := by
    cases h : inp.allowedHubs with
    | nil => exact absurd h hhubs
    | cons a l => rfl
  unfold checkSearches
  simp only [hh, Bool.false_eq_true, if_false, hpos, if_true]

/-- `onMinuteSearch` keeps the list and the tests of every object when all
items pass. -/
theorem onMinuteSearch_sim (env : Env) (inp : MinuteInput) (m : AutoSearchManager)
    (hhubs : inp.allowedHubs ≠ []) (hne : m.searchItems ≠ []) (hall : AllOk inp m) :
    sched (onMinuteSearch env inp m).1 =
      (schedSearch env.AUTOSEARCH_EVERY m.searchItems.length (sched m)).1 ∧
    (onMinuteSearch env inp m).2 =
      (schedSearch env.AUTOSEARCH_EVERY m.searchItems.length (sched m)).2.bind
        (fun i => m.searchItems[i]?) ∧
    (onMinuteSearch env inp m).1.searchItems = m.searchItems ∧
    (∀ q tm t, checkItem ((onMinuteSearch env inp m).1.objs q) tm = checkItem (m.objs q) tm ∧
      isExpired ((onMinuteSearch env inp m).1.objs q) t = isExpired (m.objs q) t) := by
  have hen : ∀ p ∈ m.searchItems,
      (m.objs p).enabled = true ∧ isExpired (m.objs p) inp.expiryTime = false :=
    fun p hp => ⟨enabled_of_checkItem _ _ (hall p hp).1, (hall p hp).2⟩
  unfold onMinuteSearch schedSearch
  by_cases hdue : m.lastSearch ≥ env.AUTOSEARCH_EVERY
  · have hdue2 : (sched m).ls ≥ env.AUTOSEARCH_EVERY := hdue
    simp only [hdue, hdue2, if_true, hasEnabledItems_allOk inp.expiryTime m hne hen]
    obtain ⟨hf1, hf2⟩ := checkSearches_frame env inp m
    refine ⟨?_, ?_, hf1, hf2⟩
    · by_cases hpos : m.curPos ≥ m.searchItems.length
      · have hpos2 : (sched m).pos ≥ m.searchItems.length := hpos
        rw [checkSearches_end env inp m hhubs hpos]
        simp only [hpos2, if_true]
        rfl
      · have hpos2 : ¬ (sched m).pos ≥ m.searchItems.length := hpos
        simp only [hpos2, if_false]
        exact (checkSearches_allOk_select env inp m hhubs hall (by omega)).2
    · by_cases hpos : m.curPos ≥ m.searchItems.length
      · have hpos2 : (sched m).pos ≥ m.searchItems.length := hpos
        rw [checkSearches_end env inp m hhubs hpos]
        simp only [hpos2, if_true]
        rfl
      · have hpos2 : ¬ (sched m).pos ≥ m.searchItems.length := hpos
        simp only [hpos2, if_false]
        exact (checkSearches_allOk_select env inp m hhubs hall (by omega)).1
  · have hdue2 : ¬ (sched m).ls ≥ env.AUTOSEARCH_EVERY := hdue
    rw [if_neg hdue, if_neg hdue2]
    exact ⟨rfl, rfl, rfl, fun _ _ _ => ⟨rfl, rfl⟩⟩

/-- One minute tick on a non-empty list whose items all pass follows
`schedMinute`; the list and the tests of every object are kept. -/
theorem onMinute_sim (env : Env) (inp : MinuteInput) (m : AutoSearchManager)
    (hhubs : inp.allowedHubs ≠ []) (hne : m.searchItems ≠ []) (hall : AllOk inp m) :
    sched (onMinute env inp m).1 =
      (schedMinute env.AUTOSEARCH_EVERY env.AUTOSEARCH_RECHECK_TIME m.searchItems.length
        (sched m)).1 ∧
    (onMinute env inp m).2 =
      (schedMinute env.AUTOSEARCH_EVERY env.AUTOSEARCH_RECHECK_TIME m.searchItems.length
        (sched m)).2.bind (fun i => m.searchItems[i]?) ∧
    (onMinute env inp m).1.searchItems = m.searchItems ∧
    (∀ q tm t, checkItem ((onMinute env inp m).1.objs q) tm = checkItem (m.objs q) tm ∧
      isExpired ((onMinute env inp m).1.objs q) t = isExpired (m.objs q) t) := by
  unfold onMinute schedMinute
  by_cases heol : m.endOfListReached = true
  · have heol2 : (sched m).eol = true := heol
    simp only [heol, heol2, if_true]
    by_cases hr : m.recheckTime + 1 ≥ env.AUTOSEARCH_RECHECK_TIME
    · have hr2 : (sched m).rt + 1 ≥ env.AUTOSEARCH_RECHECK_TIME := hr
      rw [if_pos hr, if_pos hr2]
      exact onMinuteSearch_sim env inp
        { m with
          lastSearch := m.lastSearch + 1
          recheckTime := m.recheckTime + 1
          curPos := 0
          endOfListReached := false } hhubs hne hall
    · have hr2 : ¬ (sched m).rt + 1 ≥ env.AUTOSEARCH_RECHECK_TIME := hr
      rw [if_neg hr, if_neg hr2]
      exact ⟨rfl, rfl, rfl, fun _ _ _ => ⟨rfl, rfl⟩⟩
  · have heol2 : ¬ (sched m).eol = true := heol
    rw [if_neg heol, if_neg heol2]
    exact onMinuteSearch_sim env inp { m with lastSearch := m.lastSearch + 1 } hhubs hne hall

/-- A run of minute ticks on a non-empty list whose items pass at every
tick follows `schedRun`. -/
theorem runMinutes_sim (env : Env) :
    ∀ (inps : List MinuteInput) (m : AutoSearchManager), m.searchItems ≠ [] →
      (∀ inp ∈ inps, inp.allowedHubs ≠ [] ∧ AllOk inp m) →
      sched (runMinutes env m inps).1 =
        (schedRun env.AUTOSEARCH_EVERY env.AUTOSEARCH_RECHECK_TIME m.searchItems.length
          (sched m) inps.length).1 ∧
      (runMinutes env m inps).2 =
        (schedRun env.AUTOSEARCH_EVERY env.AUTOSEARCH_RECHECK_TIME m.searchItems.length
          (sched m) inps.length).2.map (fun o => o.bind (fun i => m.searchItems[i]?)) ∧
      (runMinutes env m inps).1.searchItems = m.searchItems ∧
      (∀ q tm t, checkItem ((runMinutes env m inps).1.objs q) tm = checkItem (m.objs q) tm ∧
        isExpired ((runMinutes env m inps).1.objs q) t = isExpired (m.objs q) t)
  | [], m, _, _ => ⟨rfl, rfl, rfl, fun _ _ _ => ⟨rfl, rfl⟩⟩
  | inp :: rest, m, hne, hok => by
    obtain ⟨hhubs, hall⟩ := hok inp (List.mem_cons_self _ _)
    obtain ⟨h1, h2, h3, h4⟩ := onMinute_sim env inp m hhubs hne hall
    have hne1 : (onMinute env inp m).1.searchItems ≠ [] := by rw [h3]; exact hne
    have hok1 : ∀ i ∈ rest, i.allowedHubs ≠ [] ∧ AllOk i (onMinute env inp m).1 := by
      intro i hi
      obtain ⟨hh, ha⟩ := hok i (List.mem_cons_of_mem _ hi)
      refine ⟨hh, ?_⟩
      intro p hp
      rw [h3] at hp
      rw [(h4 p i.tm i.expiryTime).1, (h4 p i.tm i.expiryTime).2]
      exact ha p hp
    obtain ⟨g1, g2, g3, g4⟩ := runMinutes_sim env rest (onMinute env inp m).1 hne1 hok1
    rw [h3, h1] at g1
    rw [h3, h1] at g2
    refine ⟨?_, ?_, ?_, ?_⟩
    · simp only [runMinutes, schedRun, List.length_cons]
      exact g1
    · simp only [runMinutes, schedRun, List.length_cons, List.map_cons]
      rw [g2, h2]
    · simp only [runMinutes]
      rw [g3, h3]
    · intro q tm t
      simp only [runMinutes]
      rw [(g4 q tm t).1, (g4 q tm t).2]
      exact h4 q tm t

/-! ## Runs of the counters -/

/-- Runs compose. -/
theorem schedRun_append (every recheck : Int) (n : Nat) :
    ∀ (a b : Nat) (s s1 s2 : Sched) (o1 o2 : List (Option Nat)),
      schedRun every recheck n s a = (s1, o1) → schedRun every recheck n s1 b = (s2, o2) →
      schedRun every recheck n s (a + b) = (s2, o1 ++ o2)
  | 0, b, s, s1, s2, o1, o2, h1, h2 => by
    simp only [schedRun, Prod.mk.injEq] at h1
    obtain ⟨rfl, rfl⟩ := h1
    simpa using h2
  | a + 1, b, s, s1, s2, o1, o2, h1, h2 => by
    simp only [schedRun, Prod.mk.injEq] at h1
    obtain ⟨h11, h12⟩ := h1
    have ih := schedRun_append every recheck n a b (schedMinute every recheck n s).1 s1 s2
      (schedRun every recheck n (schedMinute every recheck n s).1 a).2 o2
      (by rw [← h11]) h2
    rw [show a + 1 + b = (a + b) + 1 by omega]
    simp only [schedRun, ih, ← h12, List.cons_append]

/-- Ticks before the search interval has elapsed are idle. -/
theorem schedRun_idle (every recheck : Int) (n : Nat) :
    ∀ (k : Nat) (s : Sched), s.eol = false → s.ls + k < every →
      schedRun every recheck n s k = ({ s with ls := s.ls + k }, List.replicate k none)
  | 0, s, _, _ => by simp [schedRun]
  | k + 1, s, heol, hls => by
    have hstep : schedMinute every recheck n s = ({ s with ls := s.ls + 1 }, none) := by
      have hnd : ¬ s.ls + 1 ≥ every := by push_cast at hls; omega
      simp [schedMinute, schedSearch, heol, hnd]
    have ih := schedRun_idle every recheck n k { s with ls := s.ls + 1 } heol
      (by push_cast at hls; simp only; omega)
    simp only [schedRun, hstep, ih, List.replicate_succ, Prod.mk.injEq, and_true]
    congr 1
    push_cast
    omega

/-- Ticks of the recheck wait are idle. -/
theorem schedRun_recheck (every recheck : Int) (n : Nat) :
    ∀ (k : Nat) (s : Sched), s.eol = true → s.rt + k < recheck →
      schedRun every recheck n s k =
        ({ s with ls := s.ls + k, rt := s.rt + k }, List.replicate k none)
  | 0, s, _, _ => by simp [schedRun]
  | k + 1, s, heol, hrt => by
    have hstep : schedMinute every recheck n s =
        ({ s with ls := s.ls + 1, rt := s.rt + 1 }, none) := by
      have hnd : ¬ s.rt + 1 ≥ recheck := by push_cast at hrt; omega
      simp [schedMinute, heol, hnd]
    have ih := schedRun_recheck every recheck n k { s with ls := s.ls + 1, rt := s.rt + 1 } heol
      (by push_cast at hrt; simp only; omega)
    simp only [schedRun, hstep, ih, List.replicate_succ, Prod.mk.injEq, and_true]
    congr 1 <;> push_cast <;> omega

/-- A due tick with the cursor inside the list selects the item under it. -/
theorem schedMinute_select (every recheck : Int) (n : Nat) (s : Sched) (heol : s.eol = false)
    (hdue : s.ls + 1 ≥ every) (hpos : s.pos < n) :
    schedMinute every recheck n s = ({ s with pos := s.pos + 1, ls := 0 }, some s.pos) := by
  have hnot : ¬ s.pos ≥ n := by omega
  simp [schedMinute, schedSearch, heol, hdue, hnot]

/-- A due tick with the cursor at the end starts the recheck wait. -/
theorem schedMinute_end (every recheck : Int) (n : Nat) (s : Sched) (heol : s.eol = false)
    (hdue : s.ls + 1 ≥ every) (hpos : s.pos ≥ n) :
    schedMinute every recheck n s =
      ({ pos := 0, eol := true, ls := s.ls + 1, rt := 0 }, none) := by
  simp [schedMinute, schedSearch, heol, hdue, hpos]

/-- The tick that ends the recheck wait, when the search interval has also
elapsed, selects the first item. -/
theorem schedMinute_restart (every recheck : Int) (n : Nat) (s : Sched) (heol : s.eol = true)
    (hrt : s.rt + 1 ≥ recheck) (hdue : s.ls + 1 ≥ every) (hn : 0 < n) :
    schedMinute every recheck n s =
      ({ pos := 1, eol := false, ls := 0, rt := s.rt + 1 }, some 0) := by
  have hnot : ¬ 0 ≥ n := by omega
  simp [schedMinute, schedSearch, heol, hdue, hrt, hnot]

/-- From a selection, `e` more ticks reach the next selection. -/
theorem schedRun_round (recheck : Int) (n e : Nat) (he : 1 ≤ e) (s : Sched) (heol : s.eol = false)
    (hls : s.ls = 0) (hpos : s.pos < n) :
    schedRun (e : Int) recheck n s e =
      ({ s with pos := s.pos + 1, ls := 0 }, List.replicate (e - 1) none ++ [some s.pos]) := by
  have h1 := schedRun_idle (e : Int) recheck n (e - 1) s heol (by rw [hls]; omega)
  have h2 : schedRun (e : Int) recheck n { s with ls := s.ls + ((e - 1 : Nat) : Int) } 1 =
      ({ s with pos := s.pos + 1, ls := 0 }, [some s.pos]) := by
    have := schedMinute_select (e : Int) recheck n { s with ls := s.ls + ((e - 1 : Nat) : Int) }
      heol (by simp only [hls]; omega) hpos
    simp only [schedRun, this]
  have h3 := schedRun_append (e : Int) recheck n (e - 1) 1 _ _ _ _ _ h1 h2
  rw [show e - 1 + 1 = e by omega] at h3
  exact h3

/-- From the last selection of a cycle, `e` more ticks reach the end of list. -/
theorem schedRun_round_end (recheck : Int) (n e : Nat) (he : 1 ≤ e) (s : Sched)
    (heol : s.eol = false) (hls : s.ls = 0) (hpos : s.pos ≥ n) :
    schedRun (e : Int) recheck n s e =
      ({ pos := 0, eol := true, ls := e, rt := 0 }, List.replicate (e - 1) none ++ [none]) := by
  have h1 := schedRun_idle (e : Int) recheck n (e - 1) s heol (by rw [hls]; omega)
  have h2 : schedRun (e : Int) recheck n { s with ls := s.ls + ((e - 1 : Nat) : Int) } 1 =
      ({ pos := 0, eol := true, ls := e, rt := 0 }, [none]) := by
    have := schedMinute_end (e : Int) recheck n { s with ls := s.ls + ((e - 1 : Nat) : Int) }
      heol (by simp only [hls]; omega) hpos
    simp only [schedRun, this]
    simp only [hls, Prod.mk.injEq, and_true, Sched.mk.injEq, true_and]
    omega
  have h3 := schedRun_append (e : Int) recheck n (e - 1) 1 _ _ _ _ _ h1 h2
  rw [show e - 1 + 1 = e by omega] at h3
  exact h3

/-- The counters over a cycle of three items: a due tick, then three rounds
of `e` ticks, select the indices 0, 1 and 2 and reach the end of the list. -/
theorem schedRun_cycle3 (recheck : Int) (e : Nat) (he : 1 ≤ e) (s : Sched) (heol : s.eol = false)
    (hpos : s.pos = 0) (hdue : s.ls + 1 ≥ (e : Int)) :
    schedRun (e : Int) recheck 3 s (1 + 3 * e) =
      ({ pos := 0, eol := true, ls := e, rt := 0 },
        [some 0] ++ List.replicate (e - 1) none ++ [some 1] ++ List.replicate (e - 1) none ++
          [some 2] ++ List.replicate (e - 1) none ++ [none]) := by
  have h1 : schedRun (e : Int) recheck 3 s 1 = ({ s with pos := s.pos + 1, ls := 0 }, [some 0]) := by
    have := schedMinute_select (e : Int) recheck 3 s heol hdue (by omega)
    simp only [schedRun, this, hpos]
  have h2 := schedRun_round recheck 3 e he { s with pos := s.pos + 1, ls := 0 } heol rfl
    (by simp only [hpos]; omega)
  have h3 := schedRun_round recheck 3 e he { s with pos := s.pos + 1 + 1, ls := 0 } heol rfl
    (by simp only [hpos]; omega)
  have h4 := schedRun_round_end recheck 3 e he { s with pos := s.pos + 1 + 1 + 1, ls := 0 } heol rfl
    (by simp only [hpos]; omega)
  have h12 := schedRun_append (e : Int) recheck 3 1 e _ _ _ _ _ h1 h2
  have h123 := schedRun_append (e : Int) recheck 3 (1 + e) e _ _ _ _ _ h12 h3
  have h1234 := schedRun_append (e : Int) recheck 3 (1 + e + e) e _ _ _ _ _ h123 h4
  rw [show 1 + e + e + e = 1 + 3 * e by omega] at h1234
  rw [h1234]
  simp only [hpos, List.append_assoc]

/-- The counters after the end of the list: `r - 1` idle ticks of the
recheck wait, the tick that selects index 0, and two rounds. -/
theorem schedRun_recheck3 (e r : Nat) (he : 1 ≤ e) (hr : 1 ≤ r) :
    schedRun (e : Int) (r : Int) 3 { pos := 0, eol := true, ls := e, rt := 0 } (r + 2 * e) =
      ({ pos := 3, eol := false, ls := 0, rt := ((r - 1 : Nat) : Int) + 1 },
        List.replicate (r - 1) none ++ [some 0] ++ List.replicate (e - 1) none ++ [some 1] ++
          List.replicate (e - 1) none ++ [some 2]) := by
  have h1 := schedRun_recheck (e : Int) (r : Int) 3 (r - 1) { pos := 0, eol := true, ls := e, rt := 0 }
    rfl (by simp only; omega)
  have h2 : schedRun (e : Int) (r : Int) 3
      { pos := 0, eol := true, ls := (e : Int) + ((r - 1 : Nat) : Int), rt := 0 + ((r - 1 : Nat) : Int) } 1 =
      ({ pos := 1, eol := false, ls := 0, rt := 0 + ((r - 1 : Nat) : Int) + 1 }, [some 0]) := by
    have := schedMinute_restart (e : Int) (r : Int) 3
      { pos := 0, eol := true, ls := (e : Int) + ((r - 1 : Nat) : Int), rt := 0 + ((r - 1 : Nat) : Int) }
      rfl (by simp only; omega) (by simp only; omega) (by omega)
    simp only [schedRun, this]
  have h3 := schedRun_round (r : Int) 3 e he
    { pos := 1, eol := false, ls := 0, rt := 0 + ((r - 1 : Nat) : Int) + 1 } rfl rfl (by simp only; omega)
  have h4 := schedRun_round (r : Int) 3 e he
    { pos := 1 + 1, eol := false, ls := 0, rt := 0 + ((r - 1 : Nat) : Int) + 1 } rfl rfl
    (by simp only; omega)
  have h12 := schedRun_append (e : Int) (r : Int) 3 (r - 1) 1 _ _ _ _ _ h1 h2
  have h123 := schedRun_append (e : Int) (r : Int) 3 (r - 1 + 1) e _ _ _ _ _ h12 h3
  have h1234 := schedRun_append (e : Int) (r : Int) 3 (r - 1 + 1 + e) e _ _ _ _ _ h123 h4
  rw [show r - 1 + 1 + e + e = r + 2 * e by omega] at h1234
  rw [h1234]
  simp only [List.append_assoc, Prod.mk.injEq, Sched.mk.injEq, and_true, true_and]
  omega

/-- C4: with the list [A, B, C] whose items pass the walk and are unexpired
at every tick, an online hub at every tick, search interval e ≥ 1 and recheck
time r ≥ 1, from cursor 0 without the end-of-list flag and with the first
tick due: the first 1 + 3e ticks select A, then after e ticks B, then after e
ticks C, and the tick e later selects nothing and leaves the end-of-list flag
set, the cursor 0 and the recheck counter 0; of the following r + 2e ticks
the first r - 1 select nothing (the flag is still set after them), the r-th
selects A again, and B and C follow at intervals of e ticks. -/
theorem round_robin_three (env : Env) (m : AutoSearchManager) (A B C : AutoSearchPtr) (e r : Nat)
    (inps1 inps2 : List MinuteInput) (he : 1 ≤ e) (hr : 1 ≤ r)
    (hE : env.AUTOSEARCH_EVERY = e) (hR : env.AUTOSEARCH_RECHECK_TIME = r)
    (hitems : m.searchItems = [A, B, C]) (hpos : m.curPos = 0)
    (heol : m.endOfListReached = false) (hdue : m.lastSearch + 1 ≥ e)
    (hok : ∀ inp ∈ inps1 ++ inps2, inp.allowedHubs ≠ [] ∧ AllOk inp m)
    (hlen1 : inps1.length = 1 + 3 * e) (hlen2 : inps2.length = r + 2 * e) :
    (runMinutes env m inps1).2 =
      [some A] ++ List.replicate (e - 1) none ++ [some B] ++ List.replicate (e - 1) none ++
        [some C] ++ List.replicate (e - 1) none ++ [none] ∧
    (runMinutes env m inps1).1.endOfListReached = true ∧
    (runMinutes env m inps1).1.curPos = 0 ∧
    (runMinutes env m inps1).1.recheckTime = 0 ∧
    (runMinutes env m inps1).1.searchItems = [A, B, C] ∧
    (runMinutes env (runMinutes env m inps1).1 (inps2.take (r - 1))).1.endOfListReached = true ∧
    (runMinutes env (runMinutes env m inps1).1 inps2).2 =
      List.replicate (r - 1) none ++ [some A] ++ List.replicate (e - 1) none ++ [some B] ++
        List.replicate (e - 1) none ++ [some C] := by
  have hne : m.searchItems ≠ [] := by rw [hitems]; simp
  obtain ⟨a1, a2, a3, a4⟩ := runMinutes_sim env inps1 m hne
    (fun inp hi => hok inp (List.mem_append_left _ hi))
  have hcyc := schedRun_cycle3 (r : Int) e he (sched m) heol hpos hdue
  have hlen : m.searchItems.length = 3 := by rw [hitems]; rfl
  rw [hE, hR, hlen, hlen1, hcyc] at a1 a2
  simp only [sched, Sched.mk.injEq] at a1
  obtain ⟨b1, b2, b3, b4⟩ := a1
  have hne1 : (runMinutes env m inps1).1.searchItems ≠ [] := by rw [a3]; exact hne
  have hok1 : ∀ inp ∈ inps2, inp.allowedHubs ≠ [] ∧ AllOk inp (runMinutes env m inps1).1 := by
    intro i hi
    obtain ⟨hh, ha⟩ := hok i (List.mem_append_right _ hi)
    refine ⟨hh, ?_⟩
    intro p hp
    rw [a3] at hp
    rw [(a4 p i.tm i.expiryTime).1, (a4 p i.tm i.expiryTime).2]
    exact ha p hp
  have hs1 : sched (runMinutes env m inps1).1 = { pos := 0, eol := true, ls := e, rt := 0 } := by
    simp only [sched, b1, b2, b3, b4]
  obtain ⟨c1, c2, _, _⟩ := runMinutes_sim env inps2 (runMinutes env m inps1).1 hne1 hok1
  rw [hE, hR, a3, hlen, hlen2, hs1, schedRun_recheck3 e r he hr] at c2
  obtain ⟨d1, _, _, _⟩ := runMinutes_sim env (inps2.take (r - 1)) (runMinutes env m inps1).1 hne1
    (fun inp hi => hok1 inp (List.mem_of_mem_take hi))
  have hlt : (inps2.take (r - 1)).length = r - 1 := by
    rw [List.length_take, hlen2]
    omega
  rw [hE, hR, a3, hlen, hlt, hs1,
    schedRun_recheck (e : Int) (r : Int) 3 (r - 1) { pos := 0, eol := true, ls := e, rt := 0 } rfl
      (by simp only; omega)] at d1
  simp only [sched, Sched.mk.injEq] at d1
  refine ⟨?_, b2, b1, b4, ?_, d1.2.1, ?_⟩
  · rw [a2, hitems]
    simp
  · rw [a3, hitems]
  · rw [c2, hitems]
    simp

/-! ## Round robin order of the selections -/

/-- The successor of an index is an index. -/
theorem succMod_lt (n q : Nat) (hn : 0 < n) : succMod n q < n := by
  unfold succMod
  split <;> omega

/-- A tick either selects nothing and keeps the next index, or selects the
next index and moves to its successor. -/
theorem schedMinute_nextIndex (every recheck : Int) (n : Nat) (s : Sched) :
    ((schedMinute every recheck n s).2 = none ∧
      nextIndex n (schedMinute every recheck n s).1 = nextIndex n s) ∨
    ((schedMinute every recheck n s).2 = some (nextIndex n s) ∧
      nextIndex n (schedMinute every recheck n s).1 = succMod n (nextIndex n s)) := by
  unfold schedMinute schedSearch nextIndex succMod
  cases heol : s.eol <;> simp only [Bool.false_eq_true, if_false, if_true] <;>
    split_ifs <;> simp_all

/-- The selected indices of a run follow the round robin order from the
next index on. -/
theorem schedRun_selections (every recheck : Int) (n : Nat) :
    ∀ (k : Nat) (s : Sched),
      ∃ K, (schedRun every recheck n s k).2.filterMap id = cyc n (nextIndex n s) K
  | 0, s => ⟨0, by simp [schedRun, cyc]⟩
  | k + 1, s => by
    obtain ⟨K, hK⟩ := schedRun_selections every recheck n k (schedMinute every recheck n s).1
    rcases schedMinute_nextIndex every recheck n s with ⟨h1, h2⟩ | ⟨h1, h2⟩
    · refine ⟨K, ?_⟩
      simp only [schedRun, List.filterMap_cons, h1, id_eq]
      rw [hK, h2]
    · refine ⟨K + 1, ?_⟩
      simp only [schedRun, List.filterMap_cons, h1, id_eq, cyc]
      rw [hK, h2]

/-- The indices of the round robin order are indices of the list. -/
theorem cyc_lt (n : Nat) (hn : 0 < n) :
    ∀ (k q : Nat), q < n → ∀ i ∈ cyc n q k, i < n
  | 0, _, _, i, hi => by simp [cyc] at hi
  | k + 1, q, hq, i, hi => by
    simp only [cyc, List.mem_cons] at hi
    rcases hi with rfl | hi
    · exact hq
    · exact cyc_lt n hn k (succMod n q) (succMod_lt n q hn) i hi

/-- The length of a stretch of the round robin order. -/
theorem cyc_length (n : Nat) : ∀ (k q : Nat), (cyc n q k).length = k
  | 0, _ => rfl
  | k + 1, q => by simp [cyc, cyc_length n k]

/-- A stretch of the round robin order splits into two stretches. -/
theorem cyc_append (n : Nat) (hn : 0 < n) :
    ∀ (a q : Nat), q < n → ∃ q1, q1 < n ∧ ∀ b, cyc n q (a + b) = cyc n q a ++ cyc n q1 b
  | 0, q, hq => ⟨q, hq, fun b => by simp [cyc]⟩
  | a + 1, q, _ => by
    obtain ⟨q1, hq1, h⟩ := cyc_append n hn a (succMod n q) (succMod_lt n q hn)
    refine ⟨q1, hq1, fun b => ?_⟩
    rw [show a + 1 + b = (a + b) + 1 by omega]
    simp only [cyc, h b, List.cons_append]

/-- The number of times index `i` occurs among `k` indices from `q` on. -/
theorem cyc_count (n : Nat) (hn : 0 < n) (i : Nat) (hi : i < n) :
    ∀ (k q : Nat), q < n → (cyc n q k).count i = (k + n - 1 - cycDist n q i) / n
  | 0, q, hq => by
    simp only [cyc, List.count_nil]
    symm
    apply Nat.div_eq_of_lt
    omega
  | k + 1, q, hq => by
    have ih := cyc_count n hn i hi k (succMod n q) (succMod_lt n q hn)
    simp only [cyc, List.count_cons, ih]
    by_cases hqi : q = i
    · subst hqi
      have hd : cycDist n (succMod n q) q = n - 1 := by
        unfold cycDist succMod
        split_ifs <;> omega
      have hd0 : cycDist n q q = 0 := by
        unfold cycDist
        split_ifs <;> omega
      rw [hd, hd0]
      simp only [beq_self_eq_true, if_true]
      rw [show k + n - 1 - (n - 1) = k by omega, show k + 1 + n - 1 - 0 = k + n by omega]
      exact (Nat.add_div_right k hn).symm
    · have hne : (q == i) = false := by simpa using hqi
      have hnum : k + n - 1 - cycDist n (succMod n q) i = k + 1 + n - 1 - cycDist n q i := by
        unfold cycDist succMod
        split_ifs <;> omega
      simp only [hne, Bool.false_eq_true, if_false, Nat.add_zero, hnum]

/-- Fairness of the round robin order: among `k` consecutive indices every
index occurs at least ⌊k/n⌋ and at most ⌈k/n⌉ times. -/
theorem cyc_count_bounds (n : Nat) (hn : 0 < n) (i : Nat) (hi : i < n) (k q : Nat) (hq : q < n) :
    k / n ≤ (cyc n q k).count i ∧ (cyc n q k).count i ≤ (k + n - 1) / n := by
  rw [cyc_count n hn i hi k q hq]
  have hd : cycDist n q i ≤ n - 1 := by
    unfold cycDist
    split_ifs <;> omega
  constructor
  · apply Nat.div_le_div_right
    omega
  · apply Nat.div_le_div_right
    omega

/-- The next index is an index of a non-empty list. -/
theorem nextIndex_lt (n : Nat) (hn : 0 < n) (s : Sched) : nextIndex n s < n := by
  unfold nextIndex
  split_ifs <;> omega

/-- The selections of a trace of pointers that was read off a trace of
indices. -/
theorem selections_map_bind (f : Nat → Option AutoSearchPtr) :
    ∀ (l : List (Option Nat)),
      selections (l.map (fun o => o.bind f)) = (l.filterMap id).filterMap f
  | [] => rfl
  | none :: l => by
    have ih := selections_map_bind f l
    unfold selections at ih
    simp [selections, ih]
  | some i :: l => by
    have ih := selections_map_bind f l
    unfold selections at ih
    cases hf : f i <;> simp [selections, ih, hf]

/-- Reading the items at indices inside the list. -/
theorem filterMap_getElem?_eq_map (items : List AutoSearchPtr) :
    ∀ (l : List Nat), (∀ j ∈ l, j < items.length) →
      l.filterMap (fun i => items[i]?) = l.map (fun i => items.getD i 0)
  | [], _ => rfl
  | j :: l, h => by
    have hj : j < items.length := h j (List.mem_cons_self _ _)
    have ih := filterMap_getElem?_eq_map items l (fun x hx => h x (List.mem_cons_of_mem _ hx))
    simp [List.filterMap_cons, List.getElem?_eq_getElem hj, ih]

/-- In a list without repetition, counting an item among the items read at
given indices is counting its index. -/
theorem count_map_getD (items : List AutoSearchPtr) (hnd : items.Nodup) (i : Nat)
    (hi : i < items.length) :
    ∀ (l : List Nat), (∀ j ∈ l, j < items.length) →
      (l.map (fun j => items.getD j 0)).count (items.getD i 0) = l.count i
  | [], _ => rfl
  | j :: l, h => by
    have hj : j < items.length := h j (List.mem_cons_self _ _)
    have ih := count_map_getD items hnd i hi l (fun x hx => h x (List.mem_cons_of_mem _ hx))
    have hiff : (items.getD j 0 == items.getD i 0) = (j == i) := by
      rw [List.getD_eq_getElem _ _ hj, List.getD_eq_getElem _ _ hi]
      by_cases hji : j = i
      · subst hji
        simp
      · have : items[j] ≠ items[i] := fun heq => hji ((hnd.getElem_inj_iff).mp heq)
        simp [hji, this]
    simp only [List.map_cons, List.count_cons, ih, hiff]

/-- C5: fairness of the scheduler.  On a list of M ≥ 1 distinct items that
pass the walk and are unexpired at every tick, with an online hub at every
tick, take any run of minute ticks and any N consecutive selections of it
(a window `win` of the sequence of selected items): every item of the list
is selected at least ⌊N/M⌋ times and at most ⌈N/M⌉ = ⌊(N + M - 1)/M⌋ times
in the window. -/
theorem scheduler_fairness (env : Env) (m : AutoSearchManager) (inps : List MinuteInput)
    (hne : m.searchItems ≠ []) (hnodup : m.searchItems.Nodup)
    (hok : ∀ inp ∈ inps, inp.allowedHubs ≠ [] ∧ AllOk inp m)
    (pre win post : List AutoSearchPtr)
    (hsel : selections (runMinutes env m inps).2 = pre ++ win ++ post)
    (p : AutoSearchPtr) (hp : p ∈ m.searchItems) :
    win.length / m.searchItems.length ≤ win.count p ∧
    win.count p ≤ (win.length + m.searchItems.length - 1) / m.searchItems.length := by
  have hn : 0 < m.searchItems.length := List.length_pos.mpr hne
  obtain ⟨_, a2, _, _⟩ := runMinutes_sim env inps m hne hok
  obtain ⟨K, hK⟩ := schedRun_selections env.AUTOSEARCH_EVERY env.AUTOSEARCH_RECHECK_TIME
    m.searchItems.length inps.length (sched m)
  have hq := nextIndex_lt m.searchItems.length hn (sched m)
  rw [a2, selections_map_bind, hK,
    filterMap_getElem?_eq_map m.searchItems _ (cyc_lt _ hn K _ hq)] at hsel
  have hlenK : K = pre.length + (win.length + post.length) := by
    have := congrArg List.length hsel
    simp only [List.length_map, cyc_length, List.length_append] at this
    omega
  obtain ⟨q1, hq1, hsplit1⟩ := cyc_append m.searchItems.length hn pre.length _ hq
  obtain ⟨q2, _, hsplit2⟩ := cyc_append m.searchItems.length hn win.length q1 hq1
  rw [hlenK, hsplit1, hsplit2, List.map_append, List.map_append, List.append_assoc] at hsel
  have h1 := List.append_inj hsel.symm (by simp [cyc_length])
  have h2 := List.append_inj h1.2 (by simp [cyc_length])
  obtain ⟨i, hi, hip⟩ := List.getElem_of_mem hp
  have hpi : p = m.searchItems.getD i 0 := by
    rw [List.getD_eq_getElem _ _ hi]
    exact hip.symm
  have hcount : win.count p = (cyc m.searchItems.length q1 win.length).count i := by
    rw [hpi]
    conv_lhs => rw [h2.1]
    exact count_map_getD m.searchItems hnodup i hi _ (cyc_lt _ hn _ _ hq1)
  rw [hcount]
  exact cyc_count_bounds m.searchItems.length hn i hi win.length q1 hq1

/-! ## Removal and the cursor -/

/-- Erasing the first occurrence of a listed pointer and moving the cursor
as `removeAutoSearch` does keeps the part of the list after the cursor, up to
the erased pointer. -/
theorem drop_eraseIdx_indexOf :
    ∀ (l : List AutoSearchPtr) (x : AutoSearchPtr) (pos : Nat), x ∈ l → l.Nodup →
      (l.eraseIdx (l.indexOf x)).drop (if l.indexOf x < pos then pos - 1 else pos) =
        (l.drop pos).erase x
  | [], x, _, hx, _ => by simp at hx
  | a :: rest, x, pos, hx, hnd => by
    have hnd' := List.nodup_cons.mp hnd
    by_cases hax : a = x
    · subst hax
      rw [List.indexOf_cons_self]
      cases pos with
      | zero => simp
      | succ k =>
        simp only [Nat.succ_pos, if_true, List.eraseIdx_cons_zero, Nat.add_sub_cancel,
          List.drop_succ_cons]
        rw [List.erase_of_not_mem]
        exact fun h => hnd'.1 (List.mem_of_mem_drop h)
    · have hxr : x ∈ rest := by
        rcases List.mem_cons.mp hx with h | h
        · exact absurd h.symm hax
        · exact h
      rw [List.indexOf_cons_ne _ hax]
      cases pos with
      | zero =>
        have ih := drop_eraseIdx_indexOf rest x 0 hxr hnd'.2
        simp only [Nat.not_lt_zero, if_false, List.drop_zero] at ih
        simp only [Nat.not_lt_zero, if_false, List.drop_zero, List.eraseIdx_cons_succ]
        rw [List.erase_cons_tail (by simpa using hax), ih]
      | succ k =>
        have ih := drop_eraseIdx_indexOf rest x k hxr hnd'.2
        simp only [List.eraseIdx_cons_succ, List.drop_succ_cons, Nat.succ_lt_succ_iff]
        by_cases hlt : rest.indexOf x < k
        · simp only [hlt, if_true] at ih
          simp only [hlt, if_true, Nat.add_sub_cancel]
          rw [← ih]
          obtain ⟨k', rfl⟩ : ∃ k', k = k' + 1 := ⟨k - 1, by omega⟩
          simp
        · simp only [hlt, if_false] at ih
          simp only [hlt, if_false, List.drop_succ_cons]
          exact ih

/-- The same for the part of the list before the cursor. -/
theorem take_eraseIdx_indexOf :
    ∀ (l : List AutoSearchPtr) (x : AutoSearchPtr) (pos : Nat), x ∈ l → l.Nodup →
      (l.eraseIdx (l.indexOf x)).take (if l.indexOf x < pos then pos - 1 else pos) =
        (l.take pos).erase x
  | [], x, _, hx, _ => by simp at hx
  | a :: rest, x, pos, hx, hnd => by
    have hnd' := List.nodup_cons.mp hnd
    by_cases hax : a = x
    · subst hax
      rw [List.indexOf_cons_self]
      cases pos with
      | zero => simp
      | succ k => simp
    · have hxr : x ∈ rest := by
        rcases List.mem_cons.mp hx with h | h
        · exact absurd h.symm hax
        · exact h
      rw [List.indexOf_cons_ne _ hax]
      cases pos with
      | zero => simp
      | succ k =>
        have ih := take_eraseIdx_indexOf rest x k hxr hnd'.2
        simp only [List.eraseIdx_cons_succ, List.take_succ_cons, Nat.succ_lt_succ_iff]
        rw [List.erase_cons_tail (by simpa using hax), ← ih]
        by_cases hlt : rest.indexOf x < k
        · simp only [hlt, if_true, Nat.add_sub_cancel]
          obtain ⟨k', rfl⟩ : ∃ k', k = k' + 1 := ⟨k - 1, by omega⟩
          simp
        · simp only [hlt, if_false, List.take_succ_cons]

/-- Distinct search strings in the list mean that no pointer is listed twice. -/
theorem nodup_of_uniqueStrings (m : AutoSearchManager) (h : UniqueStrings m) :
    m.searchItems.Nodup :=
  List.Nodup.of_map _ h

/-- C6: no double skip.  In a list in which every item occurs once (as it
does when the search strings are unique), for every cursor, after
`removeAutoSearch x` for an item x of the list (at any index, before, at or
after the cursor) the items from the new cursor to the end are the items from
the old cursor to the end with x deleted, and the items before the new cursor
are the items before the old cursor with x deleted: the next walk skips no
unvisited item and revisits no visited one. -/
theorem removeAutoSearch_no_double_skip (m : AutoSearchManager) (x : AutoSearchPtr)
    (hx : x ∈ m.searchItems) (hnd : m.searchItems.Nodup) :
    (removeAutoSearch m x).searchItems.drop (removeAutoSearch m x).curPos =
      (m.searchItems.drop m.curPos).erase x ∧
    (removeAutoSearch m x).searchItems.take (removeAutoSearch m x).curPos =
      (m.searchItems.take m.curPos).erase x ∧
    (removeAutoSearch m x).searchItems = m.searchItems.erase x := by
  have hlt : m.searchItems.indexOf x < m.searchItems.length := List.indexOf_lt_length.mpr hx
  unfold removeAutoSearch
  simp only [hlt, if_true]
  exact ⟨drop_eraseIdx_indexOf m.searchItems x m.curPos hx hnd,
    take_eraseIdx_indexOf m.searchItems x m.curPos hx hnd,
    List.eraseIdx_indexOf_eq_erase x m.searchItems⟩

/-! ## The cursor stays inside the list -/

/-- `removeAutoSearch` keeps the cursor at or below the length of the list. -/
theorem removeAutoSearch_curPos_le (m : AutoSearchManager) (p : AutoSearchPtr)
    (h : m.curPos ≤ m.searchItems.length) :
    (removeAutoSearch m p).curPos ≤ (removeAutoSearch m p).searchItems.length := by
  unfold removeAutoSearch
  by_cases hlt : m.searchItems.indexOf p < m.searchItems.length
  · simp only [hlt, if_true, List.length_eraseIdx_of_lt hlt]
    split <;> omega
  · simp only [hlt, if_false]
    exact h

/-- Removing a list of items keeps the cursor at or below the length. -/
theorem foldl_removeAutoSearch_curPos_le :
    ∀ (expired : List AutoSearchPtr) (m : AutoSearchManager), m.curPos ≤ m.searchItems.length →
      (expired.foldl removeAutoSearch m).curPos ≤ (expired.foldl removeAutoSearch m).searchItems.length
  | [], _, h => h
  | p :: rest, m, h => by
    simp only [List.foldl_cons]
    exact foldl_removeAutoSearch_curPos_le rest (removeAutoSearch m p)
      (removeAutoSearch_curPos_le m p h)

/-- `hasEnabledItems` keeps the cursor at or below the length. -/
theorem hasEnabledItems_curPos_le (t : Int) (m : AutoSearchManager)
    (h : m.curPos ≤ m.searchItems.length) :
    (hasEnabledItems t m).1.curPos ≤ (hasEnabledItems t m).1.searchItems.length := by
  unfold hasEnabledItems
  split
  · exact Nat.zero_le _
  · split
    rename_i expired result _
    cases result with
    | true => exact foldl_removeAutoSearch_curPos_le expired m h
    | false => exact Nat.zero_le _

/-- The walk advances the cursor by at most the number of items it is given. -/
theorem checkSearchesLoop_le (objs : AutoSearchPtr → AutoSearch) (tm : Tm) :
    ∀ (l : List AutoSearchPtr) (pos : Nat), (checkSearchesLoop objs tm l pos).1 ≤ pos + l.length
  | [], pos => by simp [checkSearchesLoop]
  | a :: rest, pos => by
    simp only [checkSearchesLoop]
    split
    · simp only [List.length_cons]
      omega
    · have := checkSearchesLoop_le objs tm rest (pos + 1)
      simp only [List.length_cons]
      omega

/-- `checkSearches` keeps the cursor at or below the length. -/
theorem checkSearches_curPos_le (env : Env) (inp : MinuteInput) (m : AutoSearchManager)
    (h : m.curPos ≤ m.searchItems.length) :
    (checkSearches env inp m).1.curPos ≤ (checkSearches env inp m).1.searchItems.length := by
  have hloop := checkSearchesLoop_le m.objs inp.tm (m.searchItems.drop m.curPos) m.curPos
  rw [List.length_drop] at hloop
  unfold checkSearches
  split
  · exact h
  · split
    · exact Nat.zero_le _
    · split
      · rename_i pos heq
        rw [heq] at hloop
        simp only at hloop ⊢
        omega
      · rename_i pos as heq
        rw [heq] at hloop
        obtain ⟨h1, h2, _⟩ := searchItem_frame env
          { m with
            curPos := pos
            lastSearch := 0
            objs := Function.update m.objs as { m.objs as with lastSearch := inp.curTime } } as
        rw [h1, h2]
        simp only at hloop ⊢
        omega

/-- `onMinuteSearch` keeps the cursor at or below the length. -/
theorem onMinuteSearch_curPos_le (env : Env) (inp : MinuteInput) (m : AutoSearchManager)
    (h : m.curPos ≤ m.searchItems.length) :
    (onMinuteSearch env inp m).1.curPos ≤ (onMinuteSearch env inp m).1.searchItems.length := by
  unfold onMinuteSearch
  split
  · have h1 := hasEnabledItems_curPos_le inp.expiryTime m h
    split
    · rename_i m1 heq
      rw [heq] at h1
      exact checkSearches_curPos_le env inp m1 h1
    · rename_i m1 heq
      rw [heq] at h1
      exact h1
  · exact h

/-- A minute tick keeps the cursor at or below the length. -/
theorem onMinute_curPos_le (env : Env) (inp : MinuteInput) (m : AutoSearchManager)
    (h : m.curPos ≤ m.searchItems.length) :
    (onMinute env inp m).1.curPos ≤ (onMinute env inp m).1.searchItems.length := by
  unfold onMinute
  simp only
  split
  · split
    · exact onMinuteSearch_curPos_le env inp _ (Nat.zero_le _)
    · exact h
  · exact onMinuteSearch_curPos_le env inp _ h

/-- `addAutoSearch` keeps the cursor and does not shorten the list. -/
theorem addAutoSearch_curPos_le (m : AutoSearchManager) (p : AutoSearchPtr)
    (h : m.curPos ≤ m.searchItems.length) :
    (addAutoSearch m p).1.curPos ≤ (addAutoSearch m p).1.searchItems.length := by
  unfold addAutoSearch
  split
  · exact h
  · simp only [List.length_append, List.length_singleton]
    omega

/-- `updateAutoSearch` keeps the cursor and the length of the list. -/
theorem updateAutoSearch_curPos_le (m : AutoSearchManager) (index : Nat) (p : AutoSearchPtr)
    (h : m.curPos ≤ m.searchItems.length) :
    (updateAutoSearch m index p).1.curPos ≤ (updateAutoSearch m index p).1.searchItems.length := by
  unfold updateAutoSearch
  split
  · exact h
  · simp only [List.length_set]
    exact h

/-- `AutoSearchLoad` leaves the cursor at or below the length. -/
theorem AutoSearchLoad_curPos_le (env : Env) (m m1 : AutoSearchManager) (file : XmlFile)
    (h : m.curPos ≤ m.searchItems.length) (hload : AutoSearchLoad env m file = some m1) :
    m1.curPos ≤ m1.searchItems.length := by
  cases file with
  | unreadable =>
    simp only [AutoSearchLoad, Option.some.injEq] at hload
    rw [← hload]
    exact h
  | noRoot =>
    simp only [AutoSearchLoad, Option.some.injEq] at hload
    rw [← hload]
    split
    · exact Nat.zero_le _
    · exact h
  | root lp cs =>
    simp only [AutoSearchLoad] at hload
    split at hload
    · exact absurd hload (by simp)
    · rename_i m2 _
      simp only [Option.some.injEq] at hload
      rw [← hload]
      split
      · exact Nat.zero_le _
      · rename_i hge
        simp only [ge_iff_le, not_le] at hge
        exact Nat.le_of_lt hge

/-- In every reachable state the cursor is at or below the length of the list. -/
theorem reachable_curPos_le (env : Env) (m : AutoSearchManager) (h : Reachable env m) :
    m.curPos ≤ m.searchItems.length := by
  induction h with
  | init objs => exact Nat.zero_le _
  | create p as _ _ ih => exact ih
  | add p _ ih => exact addAutoSearch_curPos_le _ p ih
  | update index p _ _ ih => exact updateAutoSearch_curPos_le _ index p ih
  | remove p _ ih => exact removeAutoSearch_curPos_le _ p ih
  | minute inp _ ih => exact onMinute_curPos_le env inp _ ih
  | load file _ _ hload ih => exact AutoSearchLoad_curPos_le env _ _ file ih hload

/-- C7: cursor bound.  In every state reached from the constructor by
object creation, `addAutoSearch`, `updateAutoSearch`, `removeAutoSearch`,
minute ticks and loads, the cursor does not exceed the length of the item
list, and it is 0 whenever the list is empty. -/
theorem cursor_bound (env : Env) (m : AutoSearchManager) (h : Reachable env m) :
    m.curPos ≤ m.searchItems.length ∧ (m.searchItems = [] → m.curPos = 0) := by
  have hle := reachable_curPos_le env m h
  refine ⟨hle, fun hnil => ?_⟩
  rw [hnil] at hle
  exact Nat.le_zero.mp hle

/-- C8 as amended: in every reachable state the cursor is below the length
of the item list or equal to it (the position past the last item, which is 0
when the list is empty). -/
theorem cursor_inside_or_at_end (env : Env) (m : AutoSearchManager) (h : Reachable env m) :
    m.curPos < m.searchItems.length ∨ m.curPos = m.searchItems.length :=
  Nat.lt_or_eq_of_le (reachable_curPos_le env m h)

/-! ## Uniqueness of the search strings -/

/-- What `searchItem` and `checkSearches` may change in an object: only
`lastSearch` and `fileType`. -/
theorem checkSearches_objs (env : Env) (inp : MinuteInput) (m : AutoSearchManager)
    (q : AutoSearchPtr) :
    ∃ ls ft, (checkSearches env inp m).1.objs q = { m.objs q with lastSearch := ls, fileType := ft } := by
  unfold checkSearches
  split
  · exact ⟨_, _, rfl⟩
  · split
    · exact ⟨_, _, rfl⟩
    · split
      · exact ⟨_, _, rfl⟩
      · rename_i pos as _
        obtain ⟨_, _, _, _, _, _, _, h8⟩ := searchItem_frame env
          { m with
            curPos := pos
            lastSearch := 0
            objs := Function.update m.objs as { m.objs as with lastSearch := inp.curTime } } as
        by_cases hq : q = as
        · subst hq
          rcases h8 q with h | h
          · exact ⟨inp.curTime, (m.objs q).fileType, by rw [h]; simp only [Function.update_same]⟩
          · exact ⟨inp.curTime, env.SEARCH_TYPE_ANY, by rw [h]; simp only [Function.update_same]⟩
        · rcases h8 q with h | h
          · exact ⟨(m.objs q).lastSearch, (m.objs q).fileType, by
              rw [h]; simp only [Function.update_noteq hq]⟩
          · exact ⟨(m.objs q).lastSearch, env.SEARCH_TYPE_ANY, by
              rw [h]; simp only [Function.update_noteq hq]⟩

/-- `removeAutoSearch` leaves a sublist and does not touch the objects. -/
theorem removeAutoSearch_frame (m : AutoSearchManager) (p : AutoSearchPtr) :
    (removeAutoSearch m p).searchItems.Sublist m.searchItems ∧
    (removeAutoSearch m p).objs = m.objs := by
  unfold removeAutoSearch
  simp only
  split
  · exact ⟨List.eraseIdx_sublist _ _, rfl⟩
  · exact ⟨List.Sublist.refl _, rfl⟩

/-- Removing a list of items leaves a sublist and does not touch the objects. -/
theorem foldl_removeAutoSearch_frame :
    ∀ (expired : List AutoSearchPtr) (m : AutoSearchManager),
      (expired.foldl removeAutoSearch m).searchItems.Sublist m.searchItems ∧
      (expired.foldl removeAutoSearch m).objs = m.objs
  | [], _ => ⟨List.Sublist.refl _, rfl⟩
  | p :: rest, m => by
    obtain ⟨h1, h2⟩ := foldl_removeAutoSearch_frame rest (removeAutoSearch m p)
    obtain ⟨g1, g2⟩ := removeAutoSearch_frame m p
    simp only [List.foldl_cons]
    exact ⟨h1.trans g1, h2.trans g2⟩

/-- `hasEnabledItems` leaves a sublist and does not touch the objects. -/
theorem hasEnabledItems_frame (t : Int) (m : AutoSearchManager) :
    (hasEnabledItems t m).1.searchItems.Sublist m.searchItems ∧
    (hasEnabledItems t m).1.objs = m.objs := by
  unfold hasEnabledItems
  split
  · exact ⟨List.Sublist.refl _, rfl⟩
  · split
    rename_i expired result _
    cases result with
    | true => exact foldl_removeAutoSearch_frame expired m
    | false => exact foldl_removeAutoSearch_frame expired m

/-- `onMinuteSearch` leaves a sublist of the list and changes at most
`lastSearch` and `fileType` of an object. -/
theorem onMinuteSearch_frame (env : Env) (inp : MinuteInput) (m : AutoSearchManager) :
    (onMinuteSearch env inp m).1.searchItems.Sublist m.searchItems ∧
    (∀ q, ∃ ls ft, (onMinuteSearch env inp m).1.objs q =
      { m.objs q with lastSearch := ls, fileType := ft }) := by
  unfold onMinuteSearch
  split
  · obtain ⟨h1, h2⟩ := hasEnabledItems_frame inp.expiryTime m
    split
    · rename_i m1 heq
      rw [heq] at h1 h2
      refine ⟨?_, ?_⟩
      · rw [(checkSearches_frame env inp m1).1]
        exact h1
      · intro q
        obtain ⟨ls, ft, h⟩ := checkSearches_objs env inp m1 q
        exact ⟨ls, ft, by rw [h, h2]⟩
    · rename_i m1 heq
      rw [heq] at h1 h2
      exact ⟨h1, fun q => ⟨_, _, by rw [h2]⟩⟩
  · exact ⟨List.Sublist.refl _, fun q => ⟨_, _, rfl⟩⟩

/-- A minute tick leaves a sublist of the list and changes at most
`lastSearch` and `fileType` of an object. -/
theorem onMinute_frame (env : Env) (inp : MinuteInput) (m : AutoSearchManager) :
    (onMinute env inp m).1.searchItems.Sublist m.searchItems ∧
    (∀ q, ∃ ls ft, (onMinute env inp m).1.objs q =
      { m.objs q with lastSearch := ls, fileType := ft }) := by
  unfold onMinute
  simp only
  split
  · split
    · exact onMinuteSearch_frame env inp _
    · exact ⟨List.Sublist.refl _, fun q => ⟨_, _, rfl⟩⟩
  · exact onMinuteSearch_frame env inp _

/-- Uniqueness only depends on the list and on the search strings. -/
theorem UniqueStrings_of_sublist (m m1 : AutoSearchManager) (h : UniqueStrings m)
    (hsub : m1.searchItems.Sublist m.searchItems)
    (hstr : ∀ q ∈ m1.searchItems, (m1.objs q).searchString = (m.objs q).searchString) :
    UniqueStrings m1 := by
  unfold UniqueStrings at h ⊢
  rw [List.map_congr_left hstr]
  exact List.Nodup.sublist (hsub.map _) h

/-- `addAutoSearch` keeps the search strings distinct. -/
theorem addAutoSearch_unique (m : AutoSearchManager) (p : AutoSearchPtr) (h : UniqueStrings m) :
    UniqueStrings (addAutoSearch m p).1 := by
  unfold addAutoSearch
  split
  · exact h
  · rename_i hany
    unfold UniqueStrings at h ⊢
    simp only [List.map_append, List.map_cons, List.map_nil]
    rw [List.nodup_append]
    refine ⟨h, List.nodup_singleton _, ?_⟩
    intro a ha hb
    rw [List.mem_singleton] at hb
    subst hb
    apply hany
    obtain ⟨q, hq, hqs⟩ := List.mem_map.mp ha
    rw [List.any_eq_true]
    exact ⟨q, hq, by simpa using hqs⟩

/-- When the loop of `updateAutoSearch` runs to the end, no item off the
index carries the string. -/
theorem updateAutoSearchLoop_false (objs : AutoSearchPtr → AutoSearch) (str : String) (index : Nat) :
    ∀ (l : List AutoSearchPtr) (d : Nat), updateAutoSearchLoop objs str index l d = false →
      ∀ j p, l[j]? = some p → d + j ≠ index → (objs p).searchString ≠ str
  | [], _, _, j, p, hj, _ => by simp at hj
  | a :: rest, d, h, j, p, hj, hne => by
    simp only [updateAutoSearchLoop] at h
    split at h
    · exact absurd h (by simp)
    · rename_i hcond
      cases j with
      | zero =>
        simp only [List.getElem?_cons_zero, Option.some.injEq] at hj
        subst hj
        intro heq
        apply hcond
        simp only [Nat.add_zero] at hne
        simp [heq, hne]
      | succ k =>
        simp only [List.getElem?_cons_succ] at hj
        exact updateAutoSearchLoop_false objs str index rest (d + 1) h k p hj (by omega)

/-- When the loop of `updateAutoSearch` returns early, an item off the index
carries the string. -/
theorem updateAutoSearchLoop_true (objs : AutoSearchPtr → AutoSearch) (str : String) (index : Nat) :
    ∀ (l : List AutoSearchPtr) (d : Nat), updateAutoSearchLoop objs str index l d = true →
      ∃ j p, l[j]? = some p ∧ d + j ≠ index ∧ (objs p).searchString = str
  | [], _, h => by simp [updateAutoSearchLoop] at h
  | a :: rest, d, h => by
    simp only [updateAutoSearchLoop] at h
    split at h
    · rename_i hcond
      simp only [Bool.and_eq_true, beq_iff_eq, bne_iff_ne, ne_eq] at hcond
      exact ⟨0, a, by simp, by simpa using hcond.2, hcond.1⟩
    · obtain ⟨j, p, h1, h2, h3⟩ := updateAutoSearchLoop_true objs str index rest (d + 1) h
      exact ⟨j + 1, p, by simpa using h1, by omega, h3⟩

/-- Replacing one element of a list keeps the images distinct when no other
element has the image of the new one. -/
theorem nodup_map_set (f : AutoSearchPtr → String) (x : AutoSearchPtr) :
    ∀ (l : List AutoSearchPtr) (index : Nat), (l.map f).Nodup →
      (∀ j p, l[j]? = some p → j ≠ index → f p ≠ f x) → ((l.set index x).map f).Nodup
  | [], _, _, _ => by simp
  | a :: rest, 0, hnd, h => by
    simp only [List.set_cons_zero, List.map_cons, List.nodup_cons] at hnd ⊢
    refine ⟨?_, hnd.2⟩
    intro hmem
    obtain ⟨q, hq, hqs⟩ := List.mem_map.mp hmem
    obtain ⟨j, hj⟩ := List.mem_iff_getElem?.mp hq
    exact h (j + 1) q (by simpa using hj) (by omega) hqs
  | a :: rest, k + 1, hnd, h => by
    simp only [List.set_cons_succ, List.map_cons, List.nodup_cons] at hnd ⊢
    refine ⟨?_, nodup_map_set f x rest k hnd.2
      (fun j p hj hne => h (j + 1) p (by simpa using hj) (by omega))⟩
    intro hmem
    obtain ⟨q, hq, hqs⟩ := List.mem_map.mp hmem
    rcases List.mem_or_eq_of_mem_set hq with hq1 | hq1
    · exact hnd.1 (List.mem_map.mpr ⟨q, hq1, hqs⟩)
    · subst hq1
      exact h 0 a (by simp) (by omega) hqs.symm

/-- `updateAutoSearch` keeps the search strings distinct. -/
theorem updateAutoSearch_unique (m : AutoSearchManager) (index : Nat) (p : AutoSearchPtr)
    (h : UniqueStrings m) : UniqueStrings (updateAutoSearch m index p).1 := by
  unfold updateAutoSearch
  split
  · exact h
  · rename_i hloop
    simp only [Bool.not_eq_true] at hloop
    unfold UniqueStrings at h ⊢
    exact nodup_map_set (fun q => (m.objs q).searchString) p m.searchItems index h
      (fun j q hj hne => updateAutoSearchLoop_false m.objs _ index m.searchItems 0 hloop j q hj
        (by omega))

/-- `removeAutoSearch` keeps the search strings distinct. -/
theorem removeAutoSearch_unique (m : AutoSearchManager) (p : AutoSearchPtr) (h : UniqueStrings m) :
    UniqueStrings (removeAutoSearch m p) := by
  obtain ⟨h1, h2⟩ := removeAutoSearch_frame m p
  exact UniqueStrings_of_sublist m _ h h1 (fun q _ => by rw [h2])

/-- A minute tick keeps the search strings distinct. -/
theorem onMinute_unique (env : Env) (inp : MinuteInput) (m : AutoSearchManager)
    (h : UniqueStrings m) : UniqueStrings (onMinute env inp m).1 := by
  obtain ⟨h1, h2⟩ := onMinute_frame env inp m
  refine UniqueStrings_of_sublist m _ h h1 (fun q _ => ?_)
  obtain ⟨ls, ft, hq⟩ := h2 q
  rw [hq]

/-- Creating an object at an address outside the list keeps the search
strings of the list. -/
theorem create_unique (m : AutoSearchManager) (p : AutoSearchPtr) (as : AutoSearch)
    (hp : p ∉ m.searchItems) (h : UniqueStrings m) :
    UniqueStrings { m with objs := Function.update m.objs p as } := by
  refine UniqueStrings_of_sublist m _ h (List.Sublist.refl _) (fun q hq => ?_)
  have hne : q ≠ p := fun heq => hp (heq ▸ hq)
  simp only [Function.update_noteq hne]

/-- `loadAutoSearch` with new objects at fresh addresses keeps the search
strings distinct. -/
theorem loadAutoSearch_unique (env : Env) :
    ∀ (cs : List XmlChild) (m m1 : AutoSearchManager), UniqueStrings m →
      (cs.map XmlChild.ptr).Nodup → (∀ c ∈ cs, c.ptr ∉ m.searchItems) →
      loadAutoSearch env m cs = some m1 → UniqueStrings m1
  | [], m, m1, h, _, _, hload => by
    simp only [loadAutoSearch, Option.some.injEq] at hload
    rw [← hload]
    exact h
  | c :: rest, m, m1, h, hnd, hfresh, hload => by
    simp only [loadAutoSearch] at hload
    split at hload
    · exact absurd hload (by simp)
    · rename_i as _
      simp only [List.map_cons, List.nodup_cons] at hnd
      have hc : c.ptr ∉ m.searchItems := hfresh c (List.mem_cons_self _ _)
      have h1 := create_unique m c.ptr as hc h
      have h2 := addAutoSearch_unique _ c.ptr h1
      refine loadAutoSearch_unique env rest _ m1 h2 hnd.2 ?_ hload
      intro c1 hc1 hmem
      have hne : c1.ptr ≠ c.ptr := fun heq => hnd.1 (heq ▸ List.mem_map_of_mem _ hc1)
      have hold : c1.ptr ∉ m.searchItems := hfresh c1 (List.mem_cons_of_mem _ hc1)
      unfold addAutoSearch at hmem
      split at hmem
      · exact hold hmem
      · simp only [List.mem_append, List.mem_singleton] at hmem
        rcases hmem with hm | hm
        · exact hold hm
        · exact hne hm

/-- `AutoSearchLoad` with new objects at fresh addresses keeps the search
strings distinct. -/
theorem AutoSearchLoad_unique (env : Env) (m m1 : AutoSearchManager) (file : XmlFile)
    (h : UniqueStrings m)
    (hfresh : ∀ lp cs, file = XmlFile.root lp cs →
      (cs.map XmlChild.ptr).Nodup ∧ ∀ c ∈ cs, c.ptr ∉ m.searchItems)
    (hload : AutoSearchLoad env m file = some m1) : UniqueStrings m1 := by
  cases file with
  | unreadable =>
    simp only [AutoSearchLoad, Option.some.injEq] at hload
    rw [← hload]
    exact h
  | noRoot =>
    simp only [AutoSearchLoad, Option.some.injEq] at hload
    rw [← hload]
    split
    · exact h
    · exact h
  | root lp cs =>
    obtain ⟨hnd, hf⟩ := hfresh lp cs rfl
    simp only [AutoSearchLoad] at hload
    split at hload
    · exact absurd hload (by simp)
    · rename_i m2 heq
      have h2 : UniqueStrings m2 :=
        loadAutoSearch_unique env cs { m with curPos := (lp % 2 ^ 32).toNat } m2 h hnd hf heq
      simp only [Option.some.injEq] at hload
      rw [← hload]
      split
      · exact h2
      · exact h2

/-- In every reachable state the search strings are pairwise distinct. -/
theorem reachable_unique (env : Env) (m : AutoSearchManager) (h : Reachable env m) :
    UniqueStrings m := by
  induction h with
  | init objs => exact List.nodup_nil
  | create p as _ hp ih => exact create_unique _ p as hp ih
  | add p _ ih => exact addAutoSearch_unique _ p ih
  | update index p _ _ ih => exact updateAutoSearch_unique _ index p ih
  | remove p _ ih => exact removeAutoSearch_unique _ p ih
  | minute inp _ ih => exact onMinute_unique env inp _ ih
  | load file _ hfresh hload ih => exact AutoSearchLoad_unique env _ _ file ih hfresh hload

/-- C9: uniqueness of the search strings.  If the search strings of the
listed items are pairwise distinct, they still are after `addAutoSearch`,
after `updateAutoSearch` with an index inside the list and after
`removeAutoSearch`, whatever the operation returns; and they are pairwise
distinct in every state reachable from the constructor, loads included. -/
theorem search_strings_unique :
    (∀ (m : AutoSearchManager) (p : AutoSearchPtr), UniqueStrings m →
      UniqueStrings (addAutoSearch m p).1) ∧
    (∀ (m : AutoSearchManager) (index : Nat) (p : AutoSearchPtr), index < m.searchItems.length →
      UniqueStrings m → UniqueStrings (updateAutoSearch m index p).1) ∧
    (∀ (m : AutoSearchManager) (p : AutoSearchPtr), UniqueStrings m →
      UniqueStrings (removeAutoSearch m p)) ∧
    (∀ (env : Env) (m : AutoSearchManager), Reachable env m → UniqueStrings m) :=
  ⟨addAutoSearch_unique, fun m index p _ h => updateAutoSearch_unique m index p h,
    removeAutoSearch_unique, reachable_unique⟩

/-! ## Duplicate rejection -/

/-- C10: duplicate rejection is exact and atomic.  For every state, the
empty list included, `addAutoSearch` returns false exactly when an item of the
list has the search string of the new item; on false the whole state (list,
cursor, dirty flag, objects) is unchanged; on true the item is appended at the
end, every earlier index keeping its item, the dirty flag is set and the
cursor kept.  `updateAutoSearch` with an index inside the list returns false
exactly when an item at another index has the search string; on false the
whole state is unchanged; on true it replaces the item at the index and no
other, sets the dirty flag and keeps the cursor. -/
theorem duplicate_rejection (m : AutoSearchManager) (item : AutoSearchPtr) (index : Nat) :
    ((addAutoSearch m item).2 = false ↔
      ∃ p ∈ m.searchItems, (m.objs p).searchString = (m.objs item).searchString) ∧
    ((addAutoSearch m item).2 = false → (addAutoSearch m item).1 = m) ∧
    ((addAutoSearch m item).2 = true →
      (addAutoSearch m item).1.searchItems = m.searchItems ++ [item] ∧
      (∀ j, j < m.searchItems.length →
        (addAutoSearch m item).1.searchItems[j]? = m.searchItems[j]?) ∧
      (addAutoSearch m item).1.searchItems[m.searchItems.length]? = some item ∧
      (addAutoSearch m item).1.searchItems.length = m.searchItems.length + 1 ∧
      (addAutoSearch m item).1.dirty = true ∧
      (addAutoSearch m item).1.curPos = m.curPos ∧
      (addAutoSearch m item).1.objs = m.objs) ∧
    (index < m.searchItems.length →
      ((updateAutoSearch m index item).2 = false ↔
        ∃ j p, j ≠ index ∧ m.searchItems[j]? = some p ∧
          (m.objs p).searchString = (m.objs item).searchString) ∧
      ((updateAutoSearch m index item).2 = false → (updateAutoSearch m index item).1 = m) ∧
      ((updateAutoSearch m index item).2 = true →
        (updateAutoSearch m index item).1.searchItems = m.searchItems.set index item ∧
        (updateAutoSearch m index item).1.searchItems[index]? = some item ∧
        (∀ j, j ≠ index →
          (updateAutoSearch m index item).1.searchItems[j]? = m.searchItems[j]?) ∧
        (updateAutoSearch m index item).1.searchItems.length = m.searchItems.length ∧
        (updateAutoSearch m index item).1.dirty = true ∧
        (updateAutoSearch m index item).1.curPos = m.curPos ∧
        (updateAutoSearch m index item).1.objs = m.objs)) := by
  refine ⟨?_, ?_, ?_, fun hidx => ⟨?_, ?_, ?_⟩⟩
  · unfold addAutoSearch
    split
    · rename_i hany
      rw [List.any_eq_true] at hany
      obtain ⟨p, hp, hps⟩ := hany
      exact ⟨fun _ => ⟨p, hp, by simpa using hps⟩, fun _ => rfl⟩
    · rename_i hany
      refine ⟨fun h => absurd h (by simp), ?_⟩
      rintro ⟨p, hp, hps⟩
      exact absurd (List.any_eq_true.mpr ⟨p, hp, by simpa using hps⟩) hany
  · unfold addAutoSearch
    split
    · exact fun _ => rfl
    · exact fun h => absurd h (by simp)
  · unfold addAutoSearch
    split
    · exact fun h => absurd h (by simp)
    · intro _
      refine ⟨rfl, ?_, ?_, ?_, rfl, rfl, rfl⟩
      · intro j hj
        exact List.getElem?_append_left hj
      · simp
      · simp
  · unfold updateAutoSearch
    split
    · rename_i hloop
      obtain ⟨j, p, h1, h2, h3⟩ := updateAutoSearchLoop_true m.objs _ index m.searchItems 0 hloop
      exact ⟨fun _ => ⟨j, p, by omega, h1, h3⟩, fun _ => rfl⟩
    · rename_i hloop
      simp only [Bool.not_eq_true] at hloop
      refine ⟨fun h => absurd h (by simp), ?_⟩
      rintro ⟨j, p, h1, h2, h3⟩
      exact absurd h3
        (updateAutoSearchLoop_false m.objs _ index m.searchItems 0 hloop j p h2 (by omega))
  · unfold updateAutoSearch
    split
    · exact fun _ => rfl
    · exact fun h => absurd h (by simp)
  · unfold updateAutoSearch
    split
    · exact fun h => absurd h (by simp)
    · intro _
      refine ⟨rfl, ?_, ?_, ?_, rfl, rfl, rfl⟩
      · exact List.getElem?_set_self hidx
      · intro j hj
        exact List.getElem?_set_ne (Ne.symm hj)
      · exact List.length_set _ _ _

/-! ## The theorems on the example data -/

/-- The first item of `exManagerSkip` is disabled, so the walk selects the
item at index 1 and leaves the cursor at 2. -/
theorem checkSearches_selects_first_witness :
    exInput.allowedHubs ≠ [] ∧ exManagerSkip.curPos < exManagerSkip.searchItems.length ∧
    (checkSearches exEnv exInput exManagerSkip).2 = some 11 ∧
    ((checkSearches exEnv exInput exManagerSkip).1.objs 11).lastSearch = 1000 ∧
    (checkSearches exEnv exInput exManagerSkip).1.lastSearch = 0 ∧
    (checkSearches exEnv exInput exManagerSkip).1.curPos = 2 :=
  have h := (checkSearches_selects_first exEnv exInput exManagerSkip (by decide) (by decide)).1
    1 11 (by decide) (by decide) (by decide)
    (fun j q _ hj hq => by
      have hj0 : j = 0 := by omega
      subst hj0
      have hq13 : q = 13 := by
        have : exManagerSkip.searchItems[0]? = some 13 := rfl
        rw [this] at hq
        exact (Option.some.inj hq).symm
      subst hq13
      decide)
  ⟨by decide, by decide, h.1, h.2.1, h.2.2.2.1, h.2.2.2.2.1⟩

/-- The window 08:00 to 17:59 on a Wednesday. -/
theorem checkItem_window_witness :
    checkItem exOfficeItem { tm_wday := 3, tm_hour := 7, tm_min := 59 } = false ∧
    checkItem exOfficeItem { tm_wday := 3, tm_hour := 8, tm_min := 0 } = true ∧
    checkItem exOfficeItem { tm_wday := 3, tm_hour := 17, tm_min := 59 } = true ∧
    checkItem exOfficeItem { tm_wday := 3, tm_hour := 18, tm_min := 0 } = false :=
  checkItem_window.2 exOfficeItem 3 (by decide) (by decide) rfl rfl rfl

/-- The items of `exManager` pass at the example tick. -/
theorem exManager_allOk : AllOk exInput exManager := by
  intro p hp
  have h3 : p = 10 ∨ p = 11 ∨ p = 12 := by
    simpa [exManager] using hp
  rcases h3 with rfl | rfl | rfl <;> decide

/-- The round robin over [10, 11, 12] with a search every two minutes and a
recheck time of two minutes. -/
theorem round_robin_three_witness :
    (runMinutes exEnv2 exManager (List.replicate 7 exInput)).2 =
      [some 10, none, some 11, none, some 12, none, none] ∧
    (runMinutes exEnv2 exManager (List.replicate 7 exInput)).1.endOfListReached = true ∧
    (runMinutes exEnv2 exManager (List.replicate 7 exInput)).1.curPos = 0 ∧
    (runMinutes exEnv2 exManager (List.replicate 7 exInput)).1.recheckTime = 0 ∧
    (runMinutes exEnv2 (runMinutes exEnv2 exManager (List.replicate 7 exInput)).1
      (List.replicate 6 exInput)).2 = [none, some 10, none, some 11, none, some 12] :=
  have h := round_robin_three exEnv2 exManager 10 11 12 2 2 (List.replicate 7 exInput)
    (List.replicate 6 exInput) (by decide) (by decide) rfl rfl rfl rfl rfl (by decide)
    (fun inp hi => by
      have : inp = exInput := by
        rcases List.mem_append.mp hi with h | h
        · exact List.eq_of_mem_replicate h
        · exact List.eq_of_mem_replicate h
      subst this
      exact ⟨by decide, exManager_allOk⟩)
    rfl rfl
  ⟨h.1, h.2.1, h.2.2.1, h.2.2.2.1, h.2.2.2.2.2.2⟩

/-- Five ticks with a search every minute select 10, 11, 12 and, after the
recheck, 10 again: in these four selections every item occurs once or twice. -/
theorem scheduler_fairness_witness :
    selections (runMinutes exEnv exManager (List.replicate 5 exInput)).2 = [10, 11, 12, 10] ∧
    4 / 3 ≤ [10, 11, 12, 10].count 10 ∧ [10, 11, 12, 10].count 10 ≤ (4 + 3 - 1) / 3 :=
  have hsel : selections (runMinutes exEnv exManager (List.replicate 5 exInput)).2 =
      [] ++ [10, 11, 12, 10] ++ [] := by decide
  have h := scheduler_fairness exEnv exManager (List.replicate 5 exInput) (by decide) (by decide)
    (fun inp hi => by
      have : inp = exInput := List.eq_of_mem_replicate hi
      subst this
      exact ⟨by decide, exManager_allOk⟩)
    [] [10, 11, 12, 10] [] hsel 10 (by decide)
  ⟨hsel, h.1, h.2⟩

/-- Removing the first item of [10, 11, 12] with the cursor at 2 leaves the
unvisited part [12]. -/
theorem removeAutoSearch_no_double_skip_witness :
    (10 : AutoSearchPtr) ∈ exManagerMid.searchItems ∧ exManagerMid.searchItems.Nodup ∧
    (removeAutoSearch exManagerMid 10).searchItems.drop (removeAutoSearch exManagerMid 10).curPos =
      [12] :=
  ⟨by decide, by decide,
    (removeAutoSearch_no_double_skip exManagerMid 10 (by decide) (by decide)).1⟩

/-- The example state `exAtEnd` is reachable. -/
theorem exAtEnd_reachable : Reachable exEnv exAtEnd :=
  Reachable.minute exInput (Reachable.minute exInput (Reachable.add 10 (Reachable.init exObjs)))

/-- The cursor bound on the example state. -/
theorem cursor_bound_witness :
    Reachable exEnv exAtEnd ∧ exAtEnd.curPos ≤ exAtEnd.searchItems.length :=
  ⟨exAtEnd_reachable, (cursor_bound exEnv exAtEnd exAtEnd_reachable).1⟩

/-- C8 fails as stated: after the constructor, one `addAutoSearch` and two
minute ticks the list is [10] and the cursor is 1, the length of the list. -/
theorem cursor_below_length_counterexample :
    Reachable exEnv exAtEnd ∧ exAtEnd.searchItems = [10] ∧ exAtEnd.curPos = 1 ∧
    ¬ (exAtEnd.curPos < exAtEnd.searchItems.length ∨
      (exAtEnd.searchItems = [] ∧ exAtEnd.curPos = 0)) :=
  ⟨exAtEnd_reachable, by decide, by decide, by decide⟩

/-- The amended cursor invariant on the example state. -/
theorem cursor_inside_or_at_end_witness :
    Reachable exEnv exAtEnd ∧
    (exAtEnd.curPos < exAtEnd.searchItems.length ∨ exAtEnd.curPos = exAtEnd.searchItems.length) :=
  ⟨exAtEnd_reachable, cursor_inside_or_at_end exEnv exAtEnd exAtEnd_reachable⟩

/-- The search strings of `exManager` are distinct. -/
theorem exManager_unique : UniqueStrings exManager := by
  unfold UniqueStrings
  decide

/-- Adding the object at 14, whose string is already listed, and adding the
object at 13 both keep the strings distinct. -/
theorem search_strings_unique_witness :
    UniqueStrings exManager ∧ UniqueStrings (addAutoSearch exManager 14).1 ∧
    UniqueStrings (updateAutoSearch exManager 1 13).1 ∧
    UniqueStrings (removeAutoSearch exManager 11) ∧ UniqueStrings exAtEnd :=
  ⟨exManager_unique, search_strings_unique.1 exManager 14 exManager_unique,
    search_strings_unique.2.1 exManager 1 13 (by decide) exManager_unique,
    search_strings_unique.2.2.1 exManager 11 exManager_unique,
    search_strings_unique.2.2.2 exEnv exAtEnd exAtEnd_reachable⟩

/-- The first add to the empty list and the add of a new string to
`exManager` are accepted and append the item; adding or writing at index 1 the
object at 14, whose string is the one of the item at index 0, is rejected and
changes nothing; writing the object at 13 at index 1 is accepted. -/
theorem duplicate_rejection_witness :
    exEmptyManager.searchItems = [] ∧
    (addAutoSearch exEmptyManager 20).2 = true ∧
    (addAutoSearch exEmptyManager 20).1.searchItems = [20] ∧
    (addAutoSearch exEmptyManager 20).1.dirty = true ∧
    (addAutoSearch exManager 13).1.searchItems = [10, 11, 12, 13] ∧
    (addAutoSearch exManager 14).2 = false ∧ (addAutoSearch exManager 14).1 = exManager ∧
    (updateAutoSearch exManager 1 14).2 = false ∧ (updateAutoSearch exManager 1 14).1 = exManager ∧
    (updateAutoSearch exManager 1 13).1.searchItems = [10, 13, 12] :=
  have h0 := (duplicate_rejection exEmptyManager 20 0).2.2.1 (by decide)
  have h1 := (duplicate_rejection exManager 13 0).2.2.1 (by decide)
  have h := duplicate_rejection exManager 14 1
  have hu := h.2.2.2 (by decide)
  have h2 := ((duplicate_rejection exManager 13 1).2.2.2 (by decide)).2.2 (by decide)
  ⟨rfl, by decide, h0.1, h0.2.2.2.2.1, h1.1,
    h.1.mpr ⟨10, by decide, by decide⟩, h.2.1 (h.1.mpr ⟨10, by decide, by decide⟩),
    hu.1.mpr ⟨0, 10, by decide, by decide, by decide⟩,
    hu.2.1 (hu.1.mpr ⟨0, 10, by decide, by decide, by decide⟩),
    h2.1⟩

/-! ## Expiry -/

/-- The loop of `hasEnabledItems` collects exactly the expired items, in
the order of the list. -/
theorem hasEnabledItemsLoop_expired (objs : AutoSearchPtr → AutoSearch) (t : Int) :
    ∀ (l expired : List AutoSearchPtr) (result : Bool),
      (hasEnabledItemsLoop objs t l expired result).1 =
        expired ++ l.filter (fun p => isExpired (objs p) t)
  | [], expired, result => by simp [hasEnabledItemsLoop]
  | a :: rest, expired, result => by
    simp only [hasEnabledItemsLoop]
    by_cases ha : isExpired (objs a) t = true
    · simp only [ha, if_true, List.filter_cons_of_pos]
      rw [hasEnabledItemsLoop_expired objs t rest (expired ++ [a]) result]
      simp
    · have hf : isExpired (objs a) t = false := by simpa using ha
      simp only [hf, Bool.false_eq_true, if_false]
      rw [List.filter_cons_of_neg (by simp [hf])]
      split
      · exact hasEnabledItemsLoop_expired objs t rest expired result
      · exact hasEnabledItemsLoop_expired objs t rest expired true

/-- `removeAutoSearch` erases the first occurrence of the pointer and does
not touch the objects. -/
theorem removeAutoSearch_searchItems (m : AutoSearchManager) (x : AutoSearchPtr) :
    (removeAutoSearch m x).searchItems = m.searchItems.erase x := by
  unfold removeAutoSearch
  simp only
  split
  · exact List.eraseIdx_indexOf_eq_erase x m.searchItems
  · rename_i h
    rw [List.indexOf_lt_length] at h
    exact (List.erase_of_not_mem h).symm

/-- The list after removing a list of items one by one. -/
theorem foldl_removeAutoSearch_searchItems :
    ∀ (xs : List AutoSearchPtr) (m : AutoSearchManager),
      (xs.foldl removeAutoSearch m).searchItems = xs.foldl List.erase m.searchItems
  | [], _ => rfl
  | x :: xs, m => by
    simp only [List.foldl_cons]
    rw [foldl_removeAutoSearch_searchItems xs (removeAutoSearch m x), removeAutoSearch_searchItems]

/-- Erasing pointers other than the head keeps the head. -/
theorem foldl_erase_cons_of_not_mem (a : AutoSearchPtr) :
    ∀ (xs l : List AutoSearchPtr), a ∉ xs →
      xs.foldl List.erase (a :: l) = a :: xs.foldl List.erase l
  | [], _, _ => rfl
  | x :: xs, l, h => by
    have hx : a ≠ x := fun heq => h (heq ▸ List.mem_cons_self _ _)
    have hxs : a ∉ xs := fun hm => h (List.mem_cons_of_mem _ hm)
    simp only [List.foldl_cons]
    rw [List.erase_cons_tail (by simpa using hx)]
    exact foldl_erase_cons_of_not_mem a xs (l.erase x) hxs

/-- Erasing one by one the members of a list that satisfy a test leaves the
members that do not. -/
theorem foldl_erase_filter (P : AutoSearchPtr → Bool) :
    ∀ (l : List AutoSearchPtr),
      (l.filter P).foldl List.erase l = l.filter (fun p => !P p)
  | [] => rfl
  | a :: rest => by
    by_cases ha : P a = true
    · rw [List.filter_cons_of_pos ha, List.filter_cons_of_neg (by simp [ha])]
      simp only [List.foldl_cons, List.erase_cons_head]
      exact foldl_erase_filter P rest
    · have hf : P a = false := by simpa using ha
      rw [List.filter_cons_of_neg ha, List.filter_cons_of_pos (by simp [hf])]
      rw [foldl_erase_cons_of_not_mem a _ rest
        (fun hm => ha (List.of_mem_filter hm))]
      rw [foldl_erase_filter P rest]

/-- `hasEnabledItems` leaves exactly the items that are not expired. -/
theorem hasEnabledItems_searchItems (t : Int) (m : AutoSearchManager) :
    (hasEnabledItems t m).1.searchItems =
      m.searchItems.filter (fun p => !isExpired (m.objs p) t) := by
  unfold hasEnabledItems
  split
  · rename_i hempty
    rw [List.isEmpty_iff] at hempty
    simp [hempty]
  · have hloop := hasEnabledItemsLoop_expired m.objs t m.searchItems [] false
    split
    rename_i expired result heq
    rw [heq] at hloop
    simp only [List.nil_append] at hloop
    have hlist : (expired.foldl removeAutoSearch m).searchItems =
        m.searchItems.filter (fun p => !isExpired (m.objs p) t) := by
      rw [foldl_removeAutoSearch_searchItems, hloop]
      exact foldl_erase_filter (fun p => isExpired (m.objs p) t) m.searchItems
    cases result with
    | true => exact hlist
    | false => exact hlist

/-- The item the walk selects is one of the items it was given. -/
theorem checkSearchesLoop_mem (objs : AutoSearchPtr → AutoSearch) (tm : Tm) :
    ∀ (l : List AutoSearchPtr) (pos : Nat) (p : AutoSearchPtr),
      (checkSearchesLoop objs tm l pos).2 = some p → p ∈ l
  | [], _, p, h => by simp [checkSearchesLoop] at h
  | a :: rest, pos, p, h => by
    simp only [checkSearchesLoop] at h
    split at h
    · simp only [Option.some.injEq] at h
      rw [← h]
      exact List.mem_cons_self _ _
    · exact List.mem_cons_of_mem _ (checkSearchesLoop_mem objs tm rest (pos + 1) p h)

/-- The item `checkSearches` selects is in the list. -/
theorem checkSearches_mem (env : Env) (inp : MinuteInput) (m : AutoSearchManager)
    (p : AutoSearchPtr) (h : (checkSearches env inp m).2 = some p) : p ∈ m.searchItems := by
  unfold checkSearches at h
  split at h
  · exact absurd h (by simp)
  · split at h
    · exact absurd h (by simp)
    · split at h
      · exact absurd h (by simp)
      · rename_i pos as heq
        simp only [Option.some.injEq] at h
        subst h
        have := checkSearchesLoop_mem m.objs inp.tm (m.searchItems.drop m.curPos) m.curPos as
          (by rw [heq])
        exact List.mem_of_mem_drop this

/-- `onMinuteSearch`, once the interval has elapsed, leaves the items that
are not expired, selects only among them, and keeps the expiry test of every
object. -/
theorem onMinuteSearch_expiry (env : Env) (inp : MinuteInput) (m : AutoSearchManager)
    (hdue : m.lastSearch ≥ env.AUTOSEARCH_EVERY) :
    (onMinuteSearch env inp m).1.searchItems =
      m.searchItems.filter (fun p => !isExpired (m.objs p) inp.expiryTime) ∧
    (∀ p, (onMinuteSearch env inp m).2 = some p →
      p ∈ m.searchItems.filter (fun p => !isExpired (m.objs p) inp.expiryTime)) ∧
    (∀ q t, isExpired ((onMinuteSearch env inp m).1.objs q) t = isExpired (m.objs q) t) := by
  have hlist := hasEnabledItems_searchItems inp.expiryTime m
  have hobjs := (hasEnabledItems_frame inp.expiryTime m).2
  unfold onMinuteSearch
  rw [if_pos hdue]
  split
  · rename_i m1 heq
    rw [heq] at hlist hobjs
    simp only at hlist hobjs
    obtain ⟨f1, f2⟩ := checkSearches_frame env inp m1
    refine ⟨by rw [f1, hlist], ?_, ?_⟩
    · intro p hp
      rw [← hlist]
      exact checkSearches_mem env inp m1 p hp
    · intro q t
      rw [(f2 q inp.tm t).2, hobjs]
  · rename_i m1 heq
    rw [heq] at hlist hobjs
    simp only at hlist hobjs
    refine ⟨hlist, fun p hp => absurd hp (by simp), fun q t => by rw [hobjs]⟩

/-- C11: expiry.  On a minute tick that reaches the search selection (the
manager is not waiting for the recheck, or the recheck time is reached on
this tick, and the search interval has elapsed), with `now` the time
`hasEnabledItems` reads: the list after the tick is the list before it
without the items with 0 < expireTime < now; these are removed before the
walk, which runs on the remaining list, so the selected item is a listed item
that is not expired; no item of the list after the tick is expired; and an
item with expireTime = 0 stays in the list. -/
theorem expiry_before_selection (env : Env) (inp : MinuteInput) (m : AutoSearchManager)
    (hwait : m.endOfListReached = false ∨ m.recheckTime + 1 ≥ env.AUTOSEARCH_RECHECK_TIME)
    (hdue : m.lastSearch + 1 ≥ env.AUTOSEARCH_EVERY) :
    (onMinute env inp m).1.searchItems =
      m.searchItems.filter (fun p => !isExpired (m.objs p) inp.expiryTime) ∧
    (∀ p, (onMinute env inp m).2 = some p →
      p ∈ m.searchItems ∧ isExpired (m.objs p) inp.expiryTime = false ∧
      isExpired ((onMinute env inp m).1.objs p) inp.expiryTime = false) ∧
    (∀ p ∈ (onMinute env inp m).1.searchItems,
      isExpired ((onMinute env inp m).1.objs p) inp.expiryTime = false) ∧
    (∀ p ∈ m.searchItems, (m.objs p).expireTime = 0 →
      p ∈ (onMinute env inp m).1.searchItems) := by
  have key : ∃ m1 : AutoSearchManager, m1.searchItems = m.searchItems ∧ m1.objs = m.objs ∧
      m1.lastSearch ≥ env.AUTOSEARCH_EVERY ∧ onMinute env inp m = onMinuteSearch env inp m1 := by
    unfold onMinute
    simp only
    by_cases heol : m.endOfListReached = true
    · rw [if_pos heol]
      have hr : m.recheckTime + 1 ≥ env.AUTOSEARCH_RECHECK_TIME := by
        rcases hwait with h | h
        · rw [h] at heol
          exact absurd heol (by simp)
        · exact h
      rw [if_pos hr]
      exact ⟨{ m with
        lastSearch := m.lastSearch + 1
        recheckTime := m.recheckTime + 1
        curPos := 0
        endOfListReached := false }, rfl, rfl, hdue, rfl⟩
    · rw [if_neg heol]
      exact ⟨{ m with lastSearch := m.lastSearch + 1 }, rfl, rfl, hdue, rfl⟩
  obtain ⟨m1, hl, ho, hd, hm⟩ := key
  obtain ⟨e1, e2, e3⟩ := onMinuteSearch_expiry env inp m1 hd
  rw [hm]
  rw [hl, ho] at e1 e2
  simp only [ho] at e3
  refine ⟨e1, ?_, ?_, ?_⟩
  · intro p hp
    have hmem := e2 p hp
    rw [List.mem_filter] at hmem
    have hne : isExpired (m.objs p) inp.expiryTime = false := by simpa using hmem.2
    exact ⟨hmem.1, hne, by rw [e3]; exact hne⟩
  · intro p hp
    rw [e1, List.mem_filter] at hp
    rw [e3]
    simpa using hp.2
  · intro p hp h0
    rw [e1, List.mem_filter]
    refine ⟨hp, ?_⟩
    simp [isExpired, h0]

/-! ## Deduplication in `handleAction` -/

/-- With the file type directory, an action that queues, and a dedup flag
whose collaborator reports the directory, `handleAction` returns at once. -/
theorem handleAction_dedup (c : Collab) (env : Env) (sr : SearchResult) (m : AutoSearchManager)
    (as : AutoSearchPtr)
    (hact : (m.objs as).action = ActionType.ACTION_DOWNLOAD ∨
      (m.objs as).action = ActionType.ACTION_QUEUE)
    (hdir : (m.objs as).fileType = env.SEARCH_TYPE_DIRECTORY)
    (hdup : ((m.objs as).checkAlreadyShared = true ∧ c.isDirShared (c.getLastDir sr.file) = true) ∨
      ((m.objs as).checkAlreadyQueued = true ∧ c.isDirQueued (c.getLastDir sr.file) = true)) :
    handleAction c env sr m as = (m, []) := by
  have h1 : ((m.objs as).action == ActionType.ACTION_QUEUE ||
      (m.objs as).action == ActionType.ACTION_DOWNLOAD) = true := by
    rcases hact with h | h <;> simp [h]
  unfold handleAction
  simp only [h1, if_true, hdir, beq_self_eq_true, Bool.true_and]
  rcases hdup with ⟨h2, h3⟩ | ⟨h2, h3⟩
  · simp [h2, h3]
  · simp only [h2, h3, Bool.and_self, if_true]
    split <;> rfl

/-- C12 as amended: for an item with action Download or Queue and file type
directory, and every search result, if `checkAlreadyShared` is set and
`isDirShared` returns true for the result's last directory, or
`checkAlreadyQueued` is set and `isDirQueued` returns true for it, then
`handleAction` makes no queue call (neither `addDirectoryDownload` nor
`addFile`). -/
theorem dedup_no_queue_call (c : Collab) (env : Env) (sr : SearchResult) (m : AutoSearchManager)
    (as : AutoSearchPtr)
    (hact : (m.objs as).action = ActionType.ACTION_DOWNLOAD ∨
      (m.objs as).action = ActionType.ACTION_QUEUE)
    (hdir : (m.objs as).fileType = env.SEARCH_TYPE_DIRECTORY)
    (hdup : ((m.objs as).checkAlreadyShared = true ∧ c.isDirShared (c.getLastDir sr.file) = true) ∨
      ((m.objs as).checkAlreadyQueued = true ∧ c.isDirQueued (c.getLastDir sr.file) = true)) :
    ∀ call ∈ (handleAction c env sr m as).2, call.isQueueCall = false := by
  rw [handleAction_dedup c env sr m as hact hdir hdup]
  intro call hcall
  exact absurd hcall (List.not_mem_nil _)

/-- C13: for an item with file type directory, action Download or Queue
and `checkAlreadyShared` set, and a result (a directory result or any other)
whose last path segment `isDirShared` reports as shared, `handleAction` makes
no call at all (so
neither `addDirectoryDownload` nor `addFile`) and returns the state as it
was: the status and every other field of every object, the list, the cursor
and the flags; the same with `checkAlreadyQueued` and `isDirQueued`. -/
theorem dedup_frame (c : Collab) (env : Env) (sr : SearchResult) (m : AutoSearchManager)
    (as : AutoSearchPtr)
    (hact : (m.objs as).action = ActionType.ACTION_DOWNLOAD ∨
      (m.objs as).action = ActionType.ACTION_QUEUE)
    (hdir : (m.objs as).fileType = env.SEARCH_TYPE_DIRECTORY) :
    ((m.objs as).checkAlreadyShared = true → c.isDirShared (c.getLastDir sr.file) = true →
      (handleAction c env sr m as).2 = [] ∧ (handleAction c env sr m as).1 = m ∧
      ((handleAction c env sr m as).1.objs as).status = (m.objs as).status) ∧
    ((m.objs as).checkAlreadyQueued = true → c.isDirQueued (c.getLastDir sr.file) = true →
      (handleAction c env sr m as).2 = [] ∧ (handleAction c env sr m as).1 = m ∧
      ((handleAction c env sr m as).1.objs as).status = (m.objs as).status) := by
  constructor
  · intro h1 h2
    rw [handleAction_dedup c env sr m as hact hdir (Or.inl ⟨h1, h2⟩)]
    exact ⟨rfl, rfl, rfl⟩
  · intro h1 h2
    rw [handleAction_dedup c env sr m as hact hdir (Or.inr ⟨h1, h2⟩)]
    exact ⟨rfl, rfl, rfl⟩

/-! ## Manual searches and the result handler -/

/-- The loop of the result handler only appends to the matches. -/
theorem onSearchResultLoop_acc (c : Collab) (env : Env) (sr : SearchResult) :
    ∀ (l : List AutoSearchPtr) (objs : AutoSearchPtr → AutoSearch) (acc : List AutoSearchPtr)
      (x : AutoSearchPtr), x ∈ acc → x ∈ (onSearchResultLoop c env sr l objs acc).2
  | [], _, _, _, h => h
  | a :: rest, objs, acc, x, h => by
    simp only [onSearchResultLoop]
    split
    · exact onSearchResultLoop_acc c env sr rest objs acc x h
    · split
      · exact onSearchResultLoop_acc c env sr rest _ (acc ++ [a]) x
          (List.mem_append_left _ h)
      · exact onSearchResultLoop_acc c env sr rest _ acc x h

/-- The match test does not read the manual search flag. -/
theorem matchResult_manualSearch (c : Collab) (env : Env) (sr : SearchResult) (a : AutoSearch)
    (b : Bool) : matchResult c env sr { a with manualSearch := b } = matchResult c env sr a :=
  rfl

/-- A listed item with a pending manual search that the result matches is
among the matches of the loop. -/
theorem onSearchResultLoop_manual (c : Collab) (env : Env) (sr : SearchResult) (p : AutoSearchPtr) :
    ∀ (l : List AutoSearchPtr) (objs : AutoSearchPtr → AutoSearch) (acc : List AutoSearchPtr),
      p ∈ l → (objs p).manualSearch = true → matchResult c env sr (objs p) = true →
      p ∈ (onSearchResultLoop c env sr l objs acc).2
  | [], _, _, h, _, _ => absurd h (List.not_mem_nil _)
  | a :: rest, objs, acc, h, hman, hmatch => by
    simp only [onSearchResultLoop]
    by_cases hap : a = p
    · subst hap
      have hadmit : ¬ ((!(objs a).allowNewItems && !(objs a).manualSearch) = true) := by
        simp [hman]
      rw [if_neg hadmit]
      have hm2 : matchResult c env sr
          (Function.update objs a { objs a with manualSearch := false } a) = true := by
        rw [Function.update_same]
        exact hmatch
      rw [if_pos hm2]
      exact onSearchResultLoop_acc c env sr rest _ (acc ++ [a]) a
        (List.mem_append_right _ (List.mem_singleton_self a))
    · have hrest : p ∈ rest := by
        rcases List.mem_cons.mp h with h1 | h1
        · exact absurd h1.symm hap
        · exact h1
      have hpa : p ≠ a := fun heq => hap heq.symm
      split
      · exact onSearchResultLoop_manual c env sr p rest objs acc hrest hman hmatch
      · have hobjs : Function.update objs a { objs a with manualSearch := false } p = objs p :=
          Function.update_noteq hpa _ _
        split
        · exact onSearchResultLoop_manual c env sr p rest _ (acc ++ [a]) hrest
            (by rw [hobjs]; exact hman) (by rw [hobjs]; exact hmatch)
        · exact onSearchResultLoop_manual c env sr p rest _ acc hrest
            (by rw [hobjs]; exact hman) (by rw [hobjs]; exact hmatch)

/-- The calls of `handleAction` for a match are part of the calls made for
the list of matches. -/
theorem handleActions_mem (c : Collab) (env : Env) (sr : SearchResult) (p : AutoSearchPtr) :
    ∀ (found : List AutoSearchPtr) (m : AutoSearchManager), p ∈ found →
      ∃ (m1 : AutoSearchManager) (before after : List Call),
        (handleActions c env sr found m).2 = before ++ (handleAction c env sr m1 p).2 ++ after
  | [], _, h => absurd h (List.not_mem_nil _)
  | a :: rest, m, h => by
    by_cases hap : a = p
    · subst hap
      exact ⟨m, [], (handleActions c env sr rest (handleAction c env sr m a).1).2, by
        simp [handleActions]⟩
    · have hrest : p ∈ rest := by
        rcases List.mem_cons.mp h with h1 | h1
        · exact absurd h1.symm hap
        · exact h1
      obtain ⟨m1, before, after, hm⟩ :=
        handleActions_mem c env sr p rest (handleAction c env sr m a).1 hrest
      exact ⟨m1, (handleAction c env sr m a).2 ++ before, after, by
        simp [handleActions, hm]⟩

/-- A run of results with the token `qa` changes nothing. -/
theorem foldl_onSearchResult_bundle (c : Collab) (env : Env) :
    ∀ (srs : List SearchResult) (m : AutoSearchManager),
      (∀ s ∈ srs, isBundleSearchToken s.token = true) →
      srs.foldl (fun st r => (onSearchResult c env r st).1) m = m
  | [], _, _ => rfl
  | s :: rest, m, h => by
    have hs : isBundleSearchToken s.token = true := h s (List.mem_cons_self _ _)
    have hstep : (onSearchResult c env s m).1 = m := by
      unfold onSearchResult
      rw [if_pos hs]
    simp only [List.foldl_cons, hstep]
    exact foldl_onSearchResult_bundle c env rest m (fun x hx => h x (List.mem_cons_of_mem _ hx))

/-- `manualSearch` with a hub online sets the flag of the item and keeps
the list. -/
theorem manualSearch_sets (env : Env) (allowedHubs : List String) (m : AutoSearchManager)
    (p : AutoSearchPtr) (hhubs : allowedHubs ≠ []) :
    ((manualSearch env allowedHubs m p).objs p).manualSearch = true ∧
    (manualSearch env allowedHubs m p).searchItems = m.searchItems := by
  have hh : allowedHubs.isEmpty = false := by
    cases h : allowedHubs with
    | nil => exact absurd h hhubs
    | cons a l => rfl
  unfold manualSearch
  simp only [hh, Bool.false_eq_true, if_false]
  obtain ⟨h1, _, _, _, _, _, _, h8⟩ := searchItem_frame env
    { m with objs := Function.update m.objs p { m.objs p with manualSearch := true } } p
  refine ⟨?_, h1⟩
  rcases h8 p with h | h <;> rw [h] <;> simp

/-! ## The ADC command dispatcher -/

/-- The `switch` takes the case of a tag on the code of that tag. -/
theorem dispatchCase_code (n : AdcTag) : dispatchCase n.code = some n := by
  cases n <;> decide

/-- The codes of the tags are pairwise distinct. -/
theorem AdcTag.code_injective : Function.Injective AdcTag.code := by
  intro a b h
  have ha := dispatchCase_code a
  rw [h, dispatchCase_code b] at ha
  exact (Option.some.inj ha).symm

/-- The `switch` takes `default` on every other code. -/
theorem dispatchCase_other (cmdInt : Nat) (h : ∀ n : AdcTag, cmdInt ≠ n.code) :
    dispatchCase cmdInt = none := by
  unfold dispatchCase
  simp only [(show cmdInt ≠ CMD_SUP from h AdcTag.SUP), (show cmdInt ≠ CMD_STA from h AdcTag.STA), (show cmdInt ≠ CMD_INF from h AdcTag.INF), (show cmdInt ≠ CMD_MSG from h AdcTag.MSG), (show cmdInt ≠ CMD_SCH from h AdcTag.SCH), (show cmdInt ≠ CMD_RES from h AdcTag.RES), (show cmdInt ≠ CMD_CTM from h AdcTag.CTM), (show cmdInt ≠ CMD_RCM from h AdcTag.RCM), (show cmdInt ≠ CMD_GPA from h AdcTag.GPA), (show cmdInt ≠ CMD_PAS from h AdcTag.PAS), (show cmdInt ≠ CMD_QUI from h AdcTag.QUI), (show cmdInt ≠ CMD_GET from h AdcTag.GET), (show cmdInt ≠ CMD_GFI from h AdcTag.GFI), (show cmdInt ≠ CMD_SND from h AdcTag.SND), (show cmdInt ≠ CMD_SID from h AdcTag.SID), (show cmdInt ≠ CMD_CMD from h AdcTag.CMD), (show cmdInt ≠ CMD_NAT from h AdcTag.NAT), (show cmdInt ≠ CMD_RNT from h AdcTag.RNT), (show cmdInt ≠ CMD_ZON from h AdcTag.ZON), (show cmdInt ≠ CMD_ZOF from h AdcTag.ZOF), (show cmdInt ≠ CMD_TCP from h AdcTag.TCP), (show cmdInt ≠ CMD_PMI from h AdcTag.PMI), if_false]

/-- C15: `dispatch` on a parsed command whose code is the code of one of
the 22 tags (SUP, STA, INF, MSG, SCH, RES, CTM, RCM, GPA, PAS, QUI, GET, GFI,
SND, SID, CMD, NAT, RNT, ZON, ZOF, TCP, PMI, each packed as
a | b<<8 | c<<16) invokes exactly one handler, the one of that tag, with the
command; the 22 codes are pairwise distinct; on every other code, XYZ for
example, it invokes no handler; and the result is always a list of at most one
call, never an error. -/
theorem dispatch_exactly_one :
    (∀ (n : AdcTag) (c : AdcCommand), c.cmdInt = n.code →
      CommandHandler.dispatch c = [DispatchEvent.handle n c]) ∧
    Function.Injective AdcTag.code ∧
    (∀ n : AdcTag, n ∈ [AdcTag.SUP, AdcTag.STA, AdcTag.INF, AdcTag.MSG, AdcTag.SCH, AdcTag.RES,
      AdcTag.CTM, AdcTag.RCM, AdcTag.GPA, AdcTag.PAS, AdcTag.QUI, AdcTag.GET, AdcTag.GFI,
      AdcTag.SND, AdcTag.SID, AdcTag.CMD, AdcTag.NAT, AdcTag.RNT, AdcTag.ZON, AdcTag.ZOF,
      AdcTag.TCP, AdcTag.PMI]) ∧
    (∀ c : AdcCommand, (∀ n : AdcTag, c.cmdInt ≠ n.code) → CommandHandler.dispatch c = []) ∧
    (∀ c : AdcCommand, c.cmdInt = ADC_CMD 'X' 'Y' 'Z' → CommandHandler.dispatch c = []) ∧
    (∀ c : AdcCommand, (CommandHandler.dispatch c).length ≤ 1) := by
  refine ⟨?_, AdcTag.code_injective, ?_, ?_, ?_, ?_⟩
  · intro n c h
    unfold CommandHandler.dispatch
    rw [h, dispatchCase_code n]
  · intro n
    cases n <;> decide
  · intro c h
    unfold CommandHandler.dispatch
    rw [dispatchCase_other c.cmdInt h]
  · intro c h
    unfold CommandHandler.dispatch
    rw [h]
    rfl
  · intro c
    unfold CommandHandler.dispatch
    split <;> simp

/-- C16 as amended: `dispatch` on a raw line.  When the codec throws
`ParseException` neither the callback nor a handler is invoked, and nothing
is propagated (the result is the empty list of calls).  When the codec returns
a command: in legacy mode, and without a callback, the callback is not
invoked and the handler of the command's tag is invoked; outside legacy mode
a callback is invoked exactly once, with the parsed command, before any
handler, and the handler of the command's tag is invoked after it if the
callback returns; if the callback throws `ParseException` no handler is
invoked.  For a code that is the code of no tag no handler is invoked in any
mode. -/
theorem dispatchLine_callback (parse : String → Bool → Option AdcCommand) (aLine : String) :
    (∀ (aNmdc : Bool) (cb : Option (AdcCommand → Outcome)), parse aLine aNmdc = none →
      CommandHandler.dispatchLine parse aLine aNmdc cb = []) ∧
    (∀ (cb : Option (AdcCommand → Outcome)) (c : AdcCommand) (n : AdcTag),
      parse aLine true = some c → c.cmdInt = n.code →
      CommandHandler.dispatchLine parse aLine true cb = [DispatchEvent.handle n c]) ∧
    (∀ (aNmdc : Bool) (c : AdcCommand) (n : AdcTag),
      parse aLine aNmdc = some c → c.cmdInt = n.code →
      CommandHandler.dispatchLine parse aLine aNmdc none = [DispatchEvent.handle n c]) ∧
    (∀ (f : AdcCommand → Outcome) (c : AdcCommand) (n : AdcTag),
      parse aLine false = some c → c.cmdInt = n.code → f c = Outcome.returns →
      CommandHandler.dispatchLine parse aLine false (some f) =
        [DispatchEvent.callback c, DispatchEvent.handle n c]) ∧
    (∀ (f : AdcCommand → Outcome) (c : AdcCommand),
      parse aLine false = some c → f c = Outcome.throwsParseException →
      CommandHandler.dispatchLine parse aLine false (some f) = [DispatchEvent.callback c]) ∧
    (∀ (f : AdcCommand → Outcome) (c : AdcCommand), parse aLine false = some c →
      (CommandHandler.dispatchLine parse aLine false (some f)).head? =
        some (DispatchEvent.callback c) ∧
      (CommandHandler.dispatchLine parse aLine false (some f)).count
        (DispatchEvent.callback c) = 1 ∧
      ∀ x, DispatchEvent.callback x ∈ CommandHandler.dispatchLine parse aLine false (some f) →
        x = c) ∧
    (∀ (aNmdc : Bool) (cb : Option (AdcCommand → Outcome)) (c : AdcCommand),
      parse aLine aNmdc = some c → (aNmdc = true ∨ cb = none) →
      CommandHandler.dispatchLine parse aLine aNmdc cb = CommandHandler.dispatch c ∧
      ∀ x, DispatchEvent.callback x ∉ CommandHandler.dispatchLine parse aLine aNmdc cb) ∧
    (∀ (aNmdc : Bool) (cb : Option (AdcCommand → Outcome)) (c : AdcCommand),
      parse aLine aNmdc = some c → (∀ n : AdcTag, c.cmdInt ≠ n.code) →
      ∀ (n : AdcTag) (x : AdcCommand),
        DispatchEvent.handle n x ∉ CommandHandler.dispatchLine parse aLine aNmdc cb) := by
  have hnocb : ∀ (c : AdcCommand) (x : AdcCommand),
      DispatchEvent.callback x ∉ CommandHandler.dispatch c := by
    intro c x
    unfold CommandHandler.dispatch
    split <;> simp
  have htag : ∀ (c : AdcCommand) (n : AdcTag), c.cmdInt = n.code →
      CommandHandler.dispatch c = [DispatchEvent.handle n c] := by
    intro c n h
    unfold CommandHandler.dispatch
    rw [h, dispatchCase_code n]
  have hother : ∀ c : AdcCommand, (∀ n : AdcTag, c.cmdInt ≠ n.code) →
      CommandHandler.dispatch c = [] := by
    intro c h
    unfold CommandHandler.dispatch
    rw [dispatchCase_other c.cmdInt h]
  refine ⟨?_, ?_, ?_, ?_, ?_, ?_, ?_, ?_⟩
  · intro aNmdc cb h
    simp [CommandHandler.dispatchLine, h]
  · intro cb c n h hn
    rw [← htag c n hn]
    simp [CommandHandler.dispatchLine, h]
  · intro aNmdc c n h hn
    rw [← htag c n hn]
    simp [CommandHandler.dispatchLine, h]
  · intro f c n h hn hf
    rw [← List.singleton_append, ← htag c n hn]
    simp [CommandHandler.dispatchLine, h, hf]
  · intro f c h hf
    simp [CommandHandler.dispatchLine, h, hf]
  · intro f c h
    cases hf : f c with
    | returns =>
      have heq : CommandHandler.dispatchLine parse aLine false (some f) =
          DispatchEvent.callback c :: CommandHandler.dispatch c := by
        simp [CommandHandler.dispatchLine, h, hf]
      rw [heq]
      refine ⟨rfl, ?_, ?_⟩
      · rw [List.count_cons_self, List.count_eq_zero_of_not_mem (hnocb c c)]
      · intro x hx
        rcases List.mem_cons.mp hx with hx1 | hx1
        · exact DispatchEvent.callback.inj hx1
        · exact absurd hx1 (hnocb c x)
    | throwsParseException =>
      have heq : CommandHandler.dispatchLine parse aLine false (some f) =
          [DispatchEvent.callback c] := by
        simp [CommandHandler.dispatchLine, h, hf]
      rw [heq]
      refine ⟨rfl, by simp, ?_⟩
      intro x hx
      rw [List.mem_singleton] at hx
      exact DispatchEvent.callback.inj hx
  · intro aNmdc cb c h hor
    have heq : CommandHandler.dispatchLine parse aLine aNmdc cb = CommandHandler.dispatch c := by
      rcases hor with hor | hor
      · subst hor
        simp [CommandHandler.dispatchLine, h]
      · subst hor
        simp [CommandHandler.dispatchLine, h]
    rw [heq]
    exact ⟨rfl, hnocb c⟩
  · intro aNmdc cb c h hno n x
    have hd := hother c hno
    unfold CommandHandler.dispatchLine
    rw [h]
    simp only []
    split
    · split <;> simp [hd]
    · simp [hd]

/-! ## Persistence: the day mask -/

/-- The seven characters of `bitset<7>::to_string`. -/
theorem bitset7ToString_toList (n : Nat) :
    (bitset7ToString n).toList =
      [if n.testBit 6 then '1' else '0', if n.testBit 5 then '1' else '0',
        if n.testBit 4 then '1' else '0', if n.testBit 3 then '1' else '0',
        if n.testBit 2 then '1' else '0', if n.testBit 1 then '1' else '0',
        if n.testBit 0 then '1' else '0'] :=
  rfl

/-- The string of a 7-bit mask is not empty and `bitset<7>(string)` reads
the mask back from it. -/
theorem bitset7_round_trip :
    ∀ n, n < 128 →
      bitset7OfString (bitset7ToString n) = some n ∧ (bitset7ToString n).isEmpty = false := by
  decide

/-- C17 as amended: the `SearchDays` attribute written by save is a string
of seven characters, each 0 or 1, in which bit k of the mask, the bit the
scheduler tests for weekday k (0 is Sunday), is the character at position
6 - k: bit 0 is the rightmost character and the leftmost character is bit 6.
So an item the walk selects on weekday w has the character 1 at position
6 - w of the attribute. -/
theorem searchDays_string (timeToString : SearchTime → String) (as : AutoSearch) :
    (saveItem timeToString as).SearchDays.toList.length = 7 ∧
    (∀ ch ∈ (saveItem timeToString as).SearchDays.toList, ch = '0' ∨ ch = '1') ∧
    (∀ k, k < 7 →
      (saveItem timeToString as).SearchDays.toList[6 - k]? =
        some (if as.searchDays.testBit k then '1' else '0')) ∧
    (∀ tm : Tm, tm.tm_wday < 7 → checkItem as tm = true →
      (saveItem timeToString as).SearchDays.toList[6 - tm.tm_wday]? = some '1') := by
  have hs : (saveItem timeToString as).SearchDays.toList =
      [if as.searchDays.testBit 6 then '1' else '0', if as.searchDays.testBit 5 then '1' else '0',
        if as.searchDays.testBit 4 then '1' else '0', if as.searchDays.testBit 3 then '1' else '0',
        if as.searchDays.testBit 2 then '1' else '0', if as.searchDays.testBit 1 then '1' else '0',
        if as.searchDays.testBit 0 then '1' else '0'] :=
    bitset7ToString_toList as.searchDays
  have hk : ∀ k, k < 7 →
      (saveItem timeToString as).SearchDays.toList[6 - k]? =
        some (if as.searchDays.testBit k then '1' else '0') := by
    intro k hk
    rw [hs]
    interval_cases k <;> rfl
  refine ⟨by rw [hs]; rfl, ?_, hk, ?_⟩
  · intro ch hch
    rw [hs] at hch
    simp only [List.mem_cons, List.mem_singleton, List.not_mem_nil, or_false] at hch
    rcases hch with h | h | h | h | h | h | h <;> rw [h] <;> split <;> simp
  · intro tm hw hc
    have hbit : as.searchDays.testBit tm.tm_wday = true := by
      unfold checkItem at hc
      cases hb : as.searchDays.testBit tm.tm_wday with
      | true => rfl
      | false => simp [hb] at hc
    rw [hk tm.tm_wday hw, hbit]
    rfl

/-! ## Persistence: save and load -/

/-- Loading the attributes that save wrote for an item rebuilds the item,
with the status Searching, no bundle tokens and no pending manual search. -/
theorem loadItem_saveItem (env : Env) (timeToString : SearchTime → String) (a : AutoSearch)
    (ptr : AutoSearchPtr) (rand : Int) (htok : a.token ≠ 0) (hdays : a.searchDays < 128)
    (hpat : a.pattern.isEmpty = true → a.searchString = a.pattern)
    (hstart : TimeRoundTrip env timeToString a.startTime)
    (hend : TimeRoundTrip env timeToString a.endTime) :
    loadItem env { ptr := ptr, rand := rand, item := saveItem timeToString a } =
      some { a with
        status := StatusType.STATUS_SEARCHING, bundleTokens := [], manualSearch := false } := by
  obtain ⟨hd1, hd2⟩ := bitset7_round_trip a.searchDays hdays
  have hpattern : (if a.pattern.isEmpty = true then a.searchString else a.pattern) = a.pattern := by
    by_cases h : a.pattern.isEmpty = true
    · rw [if_pos h]
      exact hpat h
    · rw [if_neg h]
  have htoken : (if (a.token == 0) = true then rand else a.token) = a.token := by
    have : (a.token == 0) = false := by simpa using htok
    simp [this]
  simp only [loadItem, saveItem, AutoSearch.create, hd1, hd2, hstart.1, hstart.2, hend.1, hend.2,
    hpattern, htoken, Bool.not_false, if_true]

/-- The search string of a loaded item is the attribute. -/
theorem loadItem_searchString (env : Env) (c : XmlChild) (a : AutoSearch)
    (h : loadItem env c = some a) : a.searchString = c.item.SearchString := by
  unfold loadItem at h
  simp only at h
  split at h
  · exact absurd h (by simp)
  · simp only [Option.some.injEq] at h
    rw [← h]
    rfl

/-- Loading elements with new objects at fresh, distinct addresses and
search strings that are new and pairwise distinct appends every element to
the list, in order, and leaves at each address the object built from the
element. -/
theorem loadAutoSearch_fresh (env : Env) :
    ∀ (children : List XmlChild) (m0 : AutoSearchManager),
      (∀ c ∈ children, ∃ a, loadItem env c = some a) →
      (children.map XmlChild.ptr).Nodup → (∀ c ∈ children, c.ptr ∉ m0.searchItems) →
      (m0.searchItems.map (fun p => (m0.objs p).searchString) ++
        children.map (fun c => c.item.SearchString)).Nodup →
      ∃ m1, loadAutoSearch env m0 children = some m1 ∧
        m1.searchItems = m0.searchItems ++ children.map XmlChild.ptr ∧
        (∀ c ∈ children, loadItem env c = some (m1.objs c.ptr)) ∧
        (∀ q, (∀ c ∈ children, c.ptr ≠ q) → m1.objs q = m0.objs q)
  | [], m0, _, _, _, _ => ⟨m0, rfl, by simp, by simp, fun _ _ => rfl⟩
  | c :: rest, m0, hload, hnd, hfresh, hstr => by
    obtain ⟨a, ha⟩ := hload c (List.mem_cons_self _ _)
    have hastr := loadItem_searchString env c a ha
    simp only [List.map_cons, List.nodup_cons] at hnd
    have hc : c.ptr ∉ m0.searchItems := hfresh c (List.mem_cons_self _ _)
    have hobjs : ∀ q ∈ m0.searchItems, Function.update m0.objs c.ptr a q = m0.objs q := by
      intro q hq
      have hne : q ≠ c.ptr := fun heq => hc (by rw [← heq]; exact hq)
      exact Function.update_noteq hne _ _
    have hany : (m0.searchItems.any (fun as =>
        (Function.update m0.objs c.ptr a as).searchString ==
          (Function.update m0.objs c.ptr a c.ptr).searchString)) = false := by
      rw [Bool.eq_false_iff]
      intro h
      rw [List.any_eq_true] at h
      obtain ⟨q, hq, hqs⟩ := h
      rw [hobjs q hq, Function.update_same, hastr] at hqs
      have h1 : (m0.objs q).searchString ∈
          m0.searchItems.map (fun p => (m0.objs p).searchString) :=
        List.mem_map_of_mem _ hq
      have h2 : c.item.SearchString ∈ (c :: rest).map (fun c => c.item.SearchString) :=
        List.mem_map_of_mem _ (List.mem_cons_self _ _)
      rw [List.nodup_append] at hstr
      exact hstr.2.2 h1 (by rw [beq_iff_eq] at hqs; rw [hqs]; exact h2)
    have hadd : addAutoSearch { m0 with objs := Function.update m0.objs c.ptr a } c.ptr =
        ({ m0 with
          objs := Function.update m0.objs c.ptr a
          searchItems := m0.searchItems ++ [c.ptr]
          dirty := true }, true) := by
      unfold addAutoSearch
      simp only [hany, Bool.false_eq_true, if_false]
    have hstr2 : ((m0.searchItems ++ [c.ptr]).map
        (fun p => (Function.update m0.objs c.ptr a p).searchString) ++
        rest.map (fun c => c.item.SearchString)).Nodup := by
      have e1 : (m0.searchItems ++ [c.ptr]).map
          (fun p => (Function.update m0.objs c.ptr a p).searchString) =
          m0.searchItems.map (fun p => (m0.objs p).searchString) ++ [c.item.SearchString] := by
        rw [List.map_append]
        congr 1
        · exact List.map_congr_left (fun q hq => by rw [hobjs q hq])
        · simp [hastr]
      rw [e1, List.append_assoc]
      simpa using hstr
    obtain ⟨m1, g1, g2, g3, g4⟩ := loadAutoSearch_fresh env rest
      { m0 with
        objs := Function.update m0.objs c.ptr a
        searchItems := m0.searchItems ++ [c.ptr]
        dirty := true }
      (fun x hx => hload x (List.mem_cons_of_mem _ hx)) hnd.2
      (by
        intro x hx hmem
        simp only [List.mem_append, List.mem_singleton] at hmem
        rcases hmem with h | h
        · exact hfresh x (List.mem_cons_of_mem _ hx) h
        · exact hnd.1 (h ▸ List.mem_map_of_mem _ hx))
      hstr2
    refine ⟨m1, ?_, ?_, ?_, ?_⟩
    · simp only [loadAutoSearch, ha, hadd]
      exact g1
    · rw [g2]
      simp
    · intro x hx
      rcases List.mem_cons.mp hx with h | h
      · subst h
        rw [g4 x.ptr (fun y hy heq => hnd.1 (heq ▸ List.mem_map_of_mem _ hy))]
        simp only [Function.update_same]
        exact ha
      · exact g3 x h
    · intro q hq
      rw [g4 q (fun y hy => hq y (List.mem_cons_of_mem _ hy))]
      exact Function.update_noteq (fun heq => hq c (List.mem_cons_self _ _) heq.symm) _ _

/-- When every written item is read back, the items read are the items
written. -/
theorem readSavedItem_map :
    ∀ (items : List XmlItem) (children : List XmlChild),
      items.map readSavedItem = children.map (fun c => some c.item) →
      children.map XmlChild.item = items
  | [], [], _ => rfl
  | [], _ :: _, h => by simp at h
  | _ :: _, [], h => by simp at h
  | x :: items, c :: children, h => by
    simp only [List.map_cons, List.cons.injEq] at h
    have hx : c.item = x := by
      have h1 := h.1
      unfold readSavedItem at h1
      split at h1
      · exact (Option.some.inj h1).symm
      · exact absurd h1 (by simp)
    simp only [List.map_cons, hx, readSavedItem_map items children h.2]

/-- C18 as amended: persistence round trip.  Take a list with pairwise
distinct search strings whose items have a non-zero token, a 7-bit day mask,
a matcher pattern as the constructor leaves it (empty only when it equals the
search string), times whose string form reads back, and save it; read the
attributes back (the two times must fit an `int`) and load them into an empty
manager, the new objects at pairwise distinct addresses.  Then the load
succeeds with the same number of items in the same order, and each loaded
item equals the saved one on every attribute except that its status is
Searching, its bundle tokens are empty and no manual search is pending. -/
theorem save_load_round_trip (env : Env) (timeToString : SearchTime → String)
    (m m0 : AutoSearchManager) (children : List XmlChild) (saved : SavedFile)
    (hsave : (AutoSearchSave timeToString true m).2 = some saved)
    (hread : saved.items.map readSavedItem = children.map (fun c => some c.item))
    (hempty : m0.searchItems = [])
    (hfresh : (children.map XmlChild.ptr).Nodup)
    (huniq : UniqueStrings m)
    (hitems : ∀ p ∈ m.searchItems,
      (m.objs p).token ≠ 0 ∧ (m.objs p).searchDays < 128 ∧
      ((m.objs p).pattern.isEmpty = true → (m.objs p).searchString = (m.objs p).pattern) ∧
      TimeRoundTrip env timeToString (m.objs p).startTime ∧
      TimeRoundTrip env timeToString (m.objs p).endTime) :
    ∃ m1, loadAutoSearch env m0 children = some m1 ∧
      m1.searchItems = children.map XmlChild.ptr ∧
      m1.searchItems.length = m.searchItems.length ∧
      ∀ (i : Nat) (p q : AutoSearchPtr), m.searchItems[i]? = some p →
        m1.searchItems[i]? = some q →
        m1.objs q = { m.objs p with
          status := StatusType.STATUS_SEARCHING, bundleTokens := [], manualSearch := false } := by
  have hsaved : saved.items = m.searchItems.map (fun as => saveItem timeToString (m.objs as)) := by
    simp only [AutoSearchSave, if_true, Option.some.injEq] at hsave
    rw [← hsave]
  have hmap : children.map XmlChild.item =
      m.searchItems.map (fun as => saveItem timeToString (m.objs as)) := by
    rw [← hsaved]
    exact readSavedItem_map saved.items children hread
  have hone : ∀ (c : XmlChild) (p : AutoSearchPtr), p ∈ m.searchItems →
      c.item = saveItem timeToString (m.objs p) →
      loadItem env c = some { m.objs p with
        status := StatusType.STATUS_SEARCHING, bundleTokens := [], manualSearch := false } := by
    intro c p hp hc
    obtain ⟨h1, h2, h3, h4, h5⟩ := hitems p hp
    have := loadItem_saveItem env timeToString (m.objs p) c.ptr c.rand h1 h2 h3 h4 h5
    rw [← hc] at this
    exact this
  have hload : ∀ c ∈ children, ∃ a, loadItem env c = some a := by
    intro c hc
    have hmem : c.item ∈ children.map XmlChild.item := List.mem_map_of_mem _ hc
    rw [hmap] at hmem
    obtain ⟨p, hp, hps⟩ := List.mem_map.mp hmem
    exact ⟨_, hone c p hp hps.symm⟩
  have hstr : (m0.searchItems.map (fun p => (m0.objs p).searchString) ++
      children.map (fun c => c.item.SearchString)).Nodup := by
    have e : children.map (fun c => c.item.SearchString) =
        m.searchItems.map (fun p => (m.objs p).searchString) := by
      have := congrArg (List.map XmlItem.SearchString) hmap
      simp only [List.map_map] at this
      exact this
    rw [hempty, e]
    exact huniq
  obtain ⟨m1, g1, g2, g3, _⟩ := loadAutoSearch_fresh env children m0 hload hfresh
    (by rw [hempty]; intro c _ h; exact absurd h (List.not_mem_nil _)) hstr
  rw [hempty, List.nil_append] at g2
  refine ⟨m1, g1, g2, ?_, ?_⟩
  · rw [g2]
    have := congrArg List.length hmap
    simpa using this
  · intro i p q hp hq
    rw [g2, List.getElem?_map] at hq
    cases hci : children[i]? with
    | none => rw [hci] at hq; exact absurd hq (by simp)
    | some c =>
      rw [hci] at hq
      simp only [Option.map_some', Option.some.injEq] at hq
      have hitem : (children.map XmlChild.item)[i]? = some c.item := by
        rw [List.getElem?_map, hci]
        rfl
      rw [hmap, List.getElem?_map, hp] at hitem
      simp only [Option.map_some', Option.some.injEq] at hitem
      have hcm : c ∈ children := List.mem_iff_getElem?.mpr ⟨i, hci⟩
      have h1 := g3 c hcm
      have h2 := hone c p (List.mem_iff_getElem?.mpr ⟨i, hp⟩) hitem.symm
      rw [h1] at h2
      rw [← hq]
      exact Option.some.inj h2

/-! ## The dirty flag -/

/-- The rename handler changes only the objects. -/
theorem onSearchTypeRenamed_frame (oldName newName : String) (m : AutoSearchManager) :
    (onSearchTypeRenamed oldName newName m).dirty = m.dirty ∧
    (onSearchTypeRenamed oldName newName m).searchItems = m.searchItems ∧
    (onSearchTypeRenamed oldName newName m).curPos = m.curPos :=
  ⟨rfl, rfl, rfl⟩

/-- `checkSearches` does not write the dirty flag. -/
theorem checkSearches_dirty (env : Env) (inp : MinuteInput) (m : AutoSearchManager) :
    (checkSearches env inp m).1.dirty = m.dirty := by
  unfold checkSearches
  split
  · rfl
  · split
    · rfl
    · split
      · rfl
      · rename_i pos as _
        exact (searchItem_frame env
          { m with
            curPos := pos
            lastSearch := 0
            objs := Function.update m.objs as { m.objs as with lastSearch := inp.curTime } }
          as).2.2.2.2.2.1

/-- `hasEnabledItems` does not write the dirty flag when no item is expired. -/
theorem hasEnabledItems_dirty (t : Int) (m : AutoSearchManager)
    (h : ∀ p ∈ m.searchItems, isExpired (m.objs p) t = false) :
    (hasEnabledItems t m).1.dirty = m.dirty := by
  unfold hasEnabledItems
  split
  · rfl
  · have hloop := hasEnabledItemsLoop_expired m.objs t m.searchItems [] false
    split
    rename_i expired result heq
    rw [heq] at hloop
    have hnil : expired = [] := by
      simp only [List.nil_append] at hloop
      rw [hloop, List.filter_eq_nil_iff]
      intro p hp
      simp [h p hp]
    subst hnil
    cases result <;> rfl

/-- A minute tick does not write the dirty flag when no item is expired. -/
theorem onMinute_dirty (env : Env) (inp : MinuteInput) (m : AutoSearchManager)
    (h : ∀ p ∈ m.searchItems, isExpired (m.objs p) inp.expiryTime = false) :
    (onMinute env inp m).1.dirty = m.dirty := by
  have hs : ∀ m1 : AutoSearchManager, m1.searchItems = m.searchItems → m1.objs = m.objs →
      m1.dirty = m.dirty → (onMinuteSearch env inp m1).1.dirty = m.dirty := by
    intro m1 hl ho hd
    unfold onMinuteSearch
    split
    · have hh := hasEnabledItems_dirty inp.expiryTime m1 (by rw [hl, ho]; exact h)
      split
      · rename_i m2 heq
        rw [heq] at hh
        rw [checkSearches_dirty, hh, hd]
      · rename_i m2 heq
        rw [heq] at hh
        rw [hh, hd]
    · exact hd
  unfold onMinute
  simp only
  split
  · split
    · exact hs _ rfl rfl rfl
    · rfl
  · exact hs _ rfl rfl rfl

/-- C19 as amended: `addAutoSearch` and `updateAutoSearch`, when they
return true, and `removeAutoSearch` of a listed item leave dirty = true.  The
operations that change an item's `lastSearch` or file type or move the cursor
without adding or removing an item do not write the flag: `checkSearches`
(selection, cursor advance, end-of-list reset), `searchItem` (unknown type
reset), the search type rename, and a whole minute tick on which no item
expires leave dirty as it was. -/
theorem dirty_flag :
    (∀ (m : AutoSearchManager) (p : AutoSearchPtr), (addAutoSearch m p).2 = true →
      (addAutoSearch m p).1.dirty = true) ∧
    (∀ (m : AutoSearchManager) (index : Nat) (p : AutoSearchPtr),
      (updateAutoSearch m index p).2 = true → (updateAutoSearch m index p).1.dirty = true) ∧
    (∀ (m : AutoSearchManager) (p : AutoSearchPtr), p ∈ m.searchItems →
      (removeAutoSearch m p).dirty = true) ∧
    (∀ (env : Env) (inp : MinuteInput) (m : AutoSearchManager),
      (checkSearches env inp m).1.dirty = m.dirty) ∧
    (∀ (env : Env) (m : AutoSearchManager) (p : AutoSearchPtr),
      (searchItem env m p).dirty = m.dirty) ∧
    (∀ (oldName newName : String) (m : AutoSearchManager),
      (onSearchTypeRenamed oldName newName m).dirty = m.dirty) ∧
    (∀ (env : Env) (inp : MinuteInput) (m : AutoSearchManager),
      (∀ p ∈ m.searchItems, isExpired (m.objs p) inp.expiryTime = false) →
      (onMinute env inp m).1.dirty = m.dirty) := by
  refine ⟨?_, ?_, ?_, checkSearches_dirty, ?_, fun _ _ _ => rfl, onMinute_dirty⟩
  · intro m p h
    unfold addAutoSearch at h ⊢
    split
    · rename_i hany
      rw [if_pos hany] at h
      exact absurd h (by simp)
    · rfl
  · intro m index p h
    unfold updateAutoSearch at h ⊢
    split
    · rename_i hloop
      rw [if_pos hloop] at h
      exact absurd h (by simp)
    · rfl
  · intro m p hp
    have hlt : m.searchItems.indexOf p < m.searchItems.length := List.indexOf_lt_length.mpr hp
    unfold removeAutoSearch
    simp only [hlt, if_true]
  · intro env m p
    exact (searchItem_frame env m p).2.2.2.2.2.1

/-! ## The save cadence -/

/-- The Second handler triggers no save when the state is not dirty, and a
triggered save leaves the state not dirty, with `lastSave` the tick, which is
above the wrapped sum. -/
theorem onSecond_cases (timeToString : SearchTime → String) (aTick : Nat) (ioOk : Bool)
    (m : AutoSearchManager) :
    (m.dirty = false → (onSecond timeToString aTick ioOk m).2.1 = false) ∧
    ((onSecond timeToString aTick ioOk m).2.1 = true →
      (onSecond timeToString aTick ioOk m).1.dirty = false ∧
      (onSecond timeToString aTick ioOk m).1.lastSave = aTick ∧
      (m.lastSave + 20000) % 2 ^ 64 < aTick) ∧
    ((onSecond timeToString aTick ioOk m).2.1 = false →
      (onSecond timeToString aTick ioOk m).1 = m) := by
  unfold onSecond
  by_cases h : (m.dirty && decide ((m.lastSave + 20 * 1000) % 2 ^ 64 < aTick)) = true
  · rw [if_pos h]
    simp only [Bool.and_eq_true, decide_eq_true_eq] at h
    refine ⟨fun hd => ?_, fun _ => ⟨rfl, rfl, h.2⟩, fun hf => absurd hf (by simp)⟩
    rw [hd] at h
    exact absurd h.1 (by simp)
  · rw [if_neg h]
    exact ⟨fun _ => rfl, fun hf => absurd hf (by simp), fun _ => rfl⟩

/-- While the sums stay below `2 ^ 64`, every save of a run happens more
than 20 seconds after `lastSave` at the start of the run. -/
theorem runSeconds_after_lastSave (timeToString : SearchTime → String) :
    ∀ (steps : List SecondStep) (m : AutoSearchManager),
      (∀ s ∈ steps, ∀ x : AutoSearchManager, (s.before x).lastSave = x.lastSave) →
      m.lastSave + 20000 < 2 ^ 64 → (∀ s ∈ steps, s.aTick + 20000 < 2 ^ 64) →
      ∀ t ∈ saveTicks (runSeconds timeToString m steps).2, m.lastSave + 20000 < t
  | [], _, _, _, _, t, ht => by simp [runSeconds, saveTicks] at ht
  | s :: rest, m, hb, hm, hticks, t, ht => by
    have hrest : ∀ x ∈ rest, ∀ y : AutoSearchManager, (x.before y).lastSave = y.lastSave :=
      fun x hx => hb x (List.mem_cons_of_mem _ hx)
    have hticks2 : ∀ x ∈ rest, x.aTick + 20000 < 2 ^ 64 :=
      fun x hx => hticks x (List.mem_cons_of_mem _ hx)
    have hs := hticks s (List.mem_cons_self _ _)
    have hsb := hb s (List.mem_cons_self _ _) m
    obtain ⟨_, c2, c3⟩ := onSecond_cases timeToString s.aTick s.ioOk (s.before m)
    cases htr : (onSecond timeToString s.aTick s.ioOk (s.before m)).2.1 with
    | true =>
      obtain ⟨_, d2, d3⟩ := c2 htr
      rw [hsb, Nat.mod_eq_of_lt hm] at d3
      have ih := runSeconds_after_lastSave timeToString rest
        (onSecond timeToString s.aTick s.ioOk (s.before m)).1 hrest (by rw [d2]; exact hs) hticks2
      simp only [runSeconds, saveTicks, List.filter_cons, htr, if_true, List.map_cons,
        List.mem_cons] at ht
      rcases ht with h | h
      · rw [h]
        exact d3
      · have := ih t (by simpa [saveTicks] using h)
        rw [d2] at this
        omega
    | false =>
      have ih := runSeconds_after_lastSave timeToString rest
        (onSecond timeToString s.aTick s.ioOk (s.before m)).1 hrest
        (by rw [c3 htr, hsb]; exact hm) hticks2
      simp only [runSeconds, saveTicks, List.filter_cons, htr, Bool.false_eq_true, if_false] at ht
      have := ih t (by simpa [saveTicks] using ht)
      rw [c3 htr, hsb] at this
      exact this

/-- The cadence below the wrap: for a run of ticks, interleaved with any
other operations (which do not write `lastSave`), in which `lastSave` and
every tick are more than 20000 below `2 ^ 64`, any two saves the Second
handler triggers happen at tick values more than 20000 ms apart.  For every
tick, a state that is not dirty triggers no save, and a triggered save leaves
the state not dirty, whether or not the write succeeds. -/
theorem save_cadence_below_wrap (timeToString : SearchTime → String) (steps : List SecondStep)
    (m : AutoSearchManager)
    (hbefore : ∀ s ∈ steps, ∀ x : AutoSearchManager, (s.before x).lastSave = x.lastSave)
    (hm : m.lastSave + 20000 < 2 ^ 64) (hticks : ∀ s ∈ steps, s.aTick + 20000 < 2 ^ 64) :
    (saveTicks (runSeconds timeToString m steps).2).Pairwise (fun a b => a + 20000 < b) ∧
    (∀ e ∈ (runSeconds timeToString m steps).2, e.2.1 = true → e.2.2 = false) ∧
    (∀ (aTick : Nat) (ioOk : Bool) (x : AutoSearchManager), x.dirty = false →
      (onSecond timeToString aTick ioOk x).2.1 = false) ∧
    (∀ (aTick : Nat) (ioOk : Bool) (x : AutoSearchManager),
      (onSecond timeToString aTick ioOk x).2.1 = true →
      (onSecond timeToString aTick ioOk x).1.dirty = false) := by
  refine ⟨?_, ?_, fun aTick ioOk x => (onSecond_cases timeToString aTick ioOk x).1,
    fun aTick ioOk x h => ((onSecond_cases timeToString aTick ioOk x).2.1 h).1⟩
  · induction steps generalizing m with
    | nil => simp [runSeconds, saveTicks]
    | cons s rest ih =>
      have hrest : ∀ x ∈ rest, ∀ y : AutoSearchManager, (x.before y).lastSave = y.lastSave :=
        fun x hx => hbefore x (List.mem_cons_of_mem _ hx)
      have hticks2 : ∀ x ∈ rest, x.aTick + 20000 < 2 ^ 64 :=
        fun x hx => hticks x (List.mem_cons_of_mem _ hx)
      have hs := hticks s (List.mem_cons_self _ _)
      have hsb := hbefore s (List.mem_cons_self _ _) m
      obtain ⟨_, c2, c3⟩ := onSecond_cases timeToString s.aTick s.ioOk (s.before m)
      cases htr : (onSecond timeToString s.aTick s.ioOk (s.before m)).2.1 with
      | true =>
        have hls : (onSecond timeToString s.aTick s.ioOk (s.before m)).1.lastSave + 20000
            < 2 ^ 64 := by
          rw [(c2 htr).2.1]
          exact hs
        have ih1 := ih (onSecond timeToString s.aTick s.ioOk (s.before m)).1 hrest hls hticks2
        have hafter := runSeconds_after_lastSave timeToString rest
          (onSecond timeToString s.aTick s.ioOk (s.before m)).1 hrest hls hticks2
        rw [(c2 htr).2.1] at hafter
        simp only [runSeconds, saveTicks, List.filter_cons, htr, if_true, List.map_cons,
          List.pairwise_cons]
        exact ⟨fun t ht => hafter t (by simpa [saveTicks] using ht), by simpa [saveTicks] using ih1⟩
      | false =>
        have hls : (onSecond timeToString s.aTick s.ioOk (s.before m)).1.lastSave + 20000
            < 2 ^ 64 := by
          rw [c3 htr, hsb]
          exact hm
        have ih1 := ih (onSecond timeToString s.aTick s.ioOk (s.before m)).1 hrest hls hticks2
        simp only [runSeconds, saveTicks, List.filter_cons, htr, Bool.false_eq_true, if_false]
        simpa [saveTicks] using ih1
  · clear hm hticks
    induction steps generalizing m with
    | nil => simp [runSeconds]
    | cons s rest ih =>
      have hrest : ∀ x ∈ rest, ∀ y : AutoSearchManager, (x.before y).lastSave = y.lastSave :=
        fun x hx => hbefore x (List.mem_cons_of_mem _ hx)
      intro e he
      simp only [runSeconds, List.mem_cons] at he
      rcases he with h | h
      · rw [h]
        intro htr
        exact ((onSecond_cases timeToString s.aTick s.ioOk (s.before m)).2.1 htr).1
      · exact ih _ hrest e h

/-! ## The later theorems on the example data -/

/-- The expired item at 30 is removed on a due tick and the item at 10 is
selected. -/
theorem expiry_before_selection_witness :
    exExpiryManager.endOfListReached = false ∧
    exExpiryManager.lastSearch + 1 ≥ exEnv.AUTOSEARCH_EVERY ∧
    isExpired (exExpiryManager.objs 30) exInput.expiryTime = true ∧
    (onMinute exEnv exInput exExpiryManager).1.searchItems = [10, 11] ∧
    (onMinute exEnv exInput exExpiryManager).2 = some 10 :=
  have h := expiry_before_selection exEnv exInput exExpiryManager (Or.inl rfl) (by decide)
  ⟨rfl, by decide, by decide, h.1.trans (by decide), by decide⟩

/-- C12 fails as stated: the item at 20 has action Download, the shared
check set and a file type other than directory; the directory `Some.Release`
is shared; and `handleAction` still calls `addDirectoryDownload`. -/
theorem dedup_any_file_type_counterexample :
    (exObjs2 20).action = ActionType.ACTION_DOWNLOAD ∧
    (exObjs2 20).checkAlreadyShared = true ∧
    (exObjs2 20).fileType ≠ exEnv.SEARCH_TYPE_DIRECTORY ∧
    exCollab.isDirShared (exCollab.getLastDir exDirResult.file) = true ∧
    (handleAction exCollab exEnv exDirResult exEmptyManager 20).2 =
      [Call.addDirectoryDownload "Some.Release" "CID" "adc://hub" "" 0 false 1] ∧
    (handleAction exCollab exEnv exDirResult exEmptyManager 20).2.any Call.isQueueCall = true := by
  decide

/-- The directory item at 21 with the shared check makes no queue call for
the shared directory. -/
theorem dedup_no_queue_call_witness :
    (exEmptyManager.objs 21).fileType = exEnv.SEARCH_TYPE_DIRECTORY ∧
    (exEmptyManager.objs 21).checkAlreadyShared = true ∧
    exCollab.isDirShared (exCollab.getLastDir exDirResult.file) = true ∧
    ∀ call ∈ (handleAction exCollab exEnv exDirResult exEmptyManager 21).2,
      call.isQueueCall = false :=
  ⟨by decide, by decide, by decide,
    dedup_no_queue_call exCollab exEnv exDirResult exEmptyManager 21 (Or.inl (by decide))
      (by decide) (Or.inl ⟨by decide, by decide⟩)⟩

/-- The directory item at 21 with the shared check: no call and the same
state. -/
theorem dedup_frame_witness :
    (exEmptyManager.objs 21).action = ActionType.ACTION_DOWNLOAD ∧
    (exEmptyManager.objs 21).fileType = exEnv.SEARCH_TYPE_DIRECTORY ∧
    (handleAction exCollab exEnv exDirResult exEmptyManager 21).2 = [] ∧
    (handleAction exCollab exEnv exDirResult exEmptyManager 21).1 = exEmptyManager :=
  have h := (dedup_frame exCollab exEnv exDirResult exEmptyManager 21 (Or.inl (by decide))
    (by decide)).1 (by decide) (by decide)
  ⟨by decide, by decide, h.1, h.2.1⟩

/-- C14 fails as stated: after the manual search of the disabled item at 22
a result that does not match arrives first and clears the flag; the matching
result that arrives next is not accepted and no call is made for it. -/
theorem manual_search_counterexample :
    (exAfterManual.objs 22).allowNewItems = false ∧
    (exAfterManual.objs 22).manualSearch = true ∧
    isBundleSearchToken exOtherResult.token = false ∧
    matchResult exCollab exEnv exOtherResult (exAfterManual.objs 22) = false ∧
    matchResult exCollab exEnv exDirResult (exAfterManual.objs 22) = true ∧
    searchResultMatches exCollab exEnv exDirResult
      (onSearchResult exCollab exEnv exOtherResult exAfterManual).1 = [] ∧
    (onSearchResult exCollab exEnv exDirResult
      (onSearchResult exCollab exEnv exOtherResult exAfterManual).1).2 = [] := by
  decide

/-- The parsed `IINF` command goes to the INF handler. -/
theorem dispatch_exactly_one_witness :
    exCommand.cmdInt = AdcTag.INF.code ∧
    CommandHandler.dispatch exCommand = [DispatchEvent.handle AdcTag.INF exCommand] :=
  ⟨rfl, dispatch_exactly_one.1 AdcTag.INF exCommand rfl⟩

/-- C16 fails as stated: the codec parses the line `IINF NIalice`, the
callback is invoked outside legacy mode and throws `ParseException`, and no
handler is invoked, although the same line without the callback goes to the
INF handler. -/
theorem dispatchLine_callback_counterexample :
    exParse "IINF NIalice" false = some exCommand ∧
    CommandHandler.dispatchLine exParse "IINF NIalice" false
      (some (fun _ => Outcome.throwsParseException)) = [DispatchEvent.callback exCommand] ∧
    (∀ n x, DispatchEvent.handle n x ∉ CommandHandler.dispatchLine exParse "IINF NIalice" false
      (some (fun _ => Outcome.throwsParseException))) ∧
    CommandHandler.dispatchLine exParse "IINF NIalice" false none =
      [DispatchEvent.handle AdcTag.INF exCommand] := by
  refine ⟨by decide, by decide, ?_, by decide⟩
  intro n x hx
  have h : CommandHandler.dispatchLine exParse "IINF NIalice" false
      (some (fun _ => Outcome.throwsParseException)) = [DispatchEvent.callback exCommand] := by
    decide
  rw [h, List.mem_singleton] at hx
  exact absurd hx (by simp)

/-- The line `IINF NIalice` with a callback that returns: the callback,
then the INF handler; in legacy mode: the INF handler alone; a line the codec
rejects: nothing. -/
theorem dispatchLine_callback_witness :
    exParse "IINF NIalice" false = some exCommand ∧
    exCommand.cmdInt = AdcTag.INF.code ∧
    CommandHandler.dispatchLine exParse "IINF NIalice" false (some (fun _ => Outcome.returns)) =
      [DispatchEvent.callback exCommand, DispatchEvent.handle AdcTag.INF exCommand] ∧
    CommandHandler.dispatchLine exParse "IINF NIalice" true (some (fun _ => Outcome.returns)) =
      [DispatchEvent.handle AdcTag.INF exCommand] ∧
    CommandHandler.dispatchLine exParse "IXY" false (some (fun _ => Outcome.returns)) = [] :=
  ⟨by decide, rfl,
    (dispatchLine_callback exParse "IINF NIalice").2.2.2.1 (fun _ => Outcome.returns) exCommand
      AdcTag.INF (by decide) rfl rfl,
    (dispatchLine_callback exParse "IINF NIalice").2.1 (some (fun _ => Outcome.returns)) exCommand
      AdcTag.INF (by decide) rfl,
    (dispatchLine_callback exParse "IXY").1 false (some (fun _ => Outcome.returns)) (by decide)⟩

/-- C17 fails as stated: the item at 24 has only bit 0 set, the bit the
walk tests on Sunday, and the attribute written is `0000001`, whose leftmost
character is 0. -/
theorem searchDays_leftmost_counterexample :
    (exObjs2 24).searchDays = 1 ∧ (exObjs2 24).searchDays.testBit 0 = true ∧
    checkItem (exObjs2 24) { tm_wday := 0, tm_hour := 12, tm_min := 30 } = true ∧
    (saveItem exTimeToString (exObjs2 24)).SearchDays = "0000001" ∧
    (saveItem exTimeToString (exObjs2 24)).SearchDays.toList.head? = some '0' := by
  decide

/-- The Sunday bit of the item at 24 is the last of the seven characters. -/
theorem searchDays_string_witness :
    (saveItem exTimeToString (exObjs2 24)).SearchDays.toList[6 - 0]? = some '1' :=
  (searchDays_string exTimeToString (exObjs2 24)).2.2.1 0 (by decide)

/-- C18 fails as stated: the queued item at 23 with the bundle token `b1`
is saved and loaded into an empty manager; the loaded item has the status
Searching and no bundle tokens. -/
theorem save_load_status_counterexample :
    UniqueStrings exQueuedManager ∧ (exQueuedManager.objs 23).token ≠ 0 ∧
    (exQueuedManager.objs 23).status = StatusType.STATUS_QUEUED_OK ∧
    (exQueuedManager.objs 23).bundleTokens = ["b1"] ∧
    (AutoSearchSave exTimeToString true exQueuedManager).2.map
      (fun f => f.items.map readSavedItem) =
      some (exQueuedChildren.map (fun c => some c.item)) ∧
    (loadAutoSearch exEnvTime exEmptyManager exQueuedChildren).map
      (fun m1 => (m1.searchItems, (m1.objs 40).status, (m1.objs 40).bundleTokens)) =
      some ([40], StatusType.STATUS_SEARCHING, []) := by
  refine ⟨?_, by decide, by decide, by decide, ?_, by decide⟩
  · unfold UniqueStrings
    decide
  · rfl

/-- The items of `exSaveManager` meet the conditions of the round trip. -/
theorem exSaveManager_items :
    ∀ p ∈ exSaveManager.searchItems,
      (exSaveManager.objs p).token ≠ 0 ∧ (exSaveManager.objs p).searchDays < 128 ∧
      ((exSaveManager.objs p).pattern.isEmpty = true →
        (exSaveManager.objs p).searchString = (exSaveManager.objs p).pattern) ∧
      TimeRoundTrip exEnvTime exTimeToString (exSaveManager.objs p).startTime ∧
      TimeRoundTrip exEnvTime exTimeToString (exSaveManager.objs p).endTime := by
  intro p hp
  have h2 : p = 10 ∨ p = 11 := by
    simpa [exSaveManager] using hp
  rcases h2 with rfl | rfl
  · exact ⟨by decide, by decide, fun _ => rfl, ⟨by decide, by decide⟩, ⟨by decide, by decide⟩⟩
  · exact ⟨by decide, by decide, fun _ => rfl, ⟨by decide, by decide⟩, ⟨by decide, by decide⟩⟩

/-- Saving the list [10, 11] and loading it at the addresses 40 and 41
gives two items in the same order. -/
theorem save_load_round_trip_witness :
    UniqueStrings exSaveManager ∧ exEmptyManager.searchItems = [] ∧
    ∃ m1, loadAutoSearch exEnvTime exEmptyManager exChildren = some m1 ∧
      m1.searchItems = exChildren.map XmlChild.ptr ∧
      m1.searchItems.length = exSaveManager.searchItems.length ∧
      ∀ (i : Nat) (p q : AutoSearchPtr), exSaveManager.searchItems[i]? = some p →
        m1.searchItems[i]? = some q →
        m1.objs q = { exSaveManager.objs p with
          status := StatusType.STATUS_SEARCHING, bundleTokens := [], manualSearch := false } :=
  have hu : UniqueStrings exSaveManager := by
    unfold UniqueStrings
    decide
  ⟨hu, rfl,
    save_load_round_trip exEnvTime exTimeToString exSaveManager exEmptyManager exChildren
      { lastPosition := 1
        items := [saveItem exTimeToString (exObjs2 10), saveItem exTimeToString (exObjs2 11)] }
      rfl rfl rfl (by decide) hu exSaveManager_items⟩

/-- C19 fails as stated: a minute tick on `exManager` selects the item at
10, sets its `lastSearch` and moves the cursor, two values that save writes,
and the dirty flag is still false. -/
theorem dirty_flag_counterexample :
    exManager.dirty = false ∧
    (exManager.objs 10).lastSearch = 0 ∧
    ((onMinute exEnv exInput exManager).1.objs 10).lastSearch = 1000 ∧
    exManager.curPos = 0 ∧ (onMinute exEnv exInput exManager).1.curPos = 1 ∧
    (onMinute exEnv exInput exManager).1.dirty = false := by
  decide

/-- Adding the object at 13 to `exManager` sets the dirty flag; the walk
does not. -/
theorem dirty_flag_witness :
    (addAutoSearch exManager 13).2 = true ∧ (addAutoSearch exManager 13).1.dirty = true ∧
    (checkSearches exEnv exInput exManager).1.dirty = exManager.dirty :=
  ⟨by decide, dirty_flag.1 exManager 13 (by decide),
    dirty_flag.2.2.2.1 exEnv exInput exManager⟩

/-- The three example ticks: saves at 25000 and 46000, none at 30000. -/
theorem save_cadence_below_wrap_example :
    (runSeconds exTimeToString exManager exSeconds).2 =
      [(25000, true, false), (30000, false, true), (46000, true, false)] ∧
    (saveTicks (runSeconds exTimeToString exManager exSeconds).2).Pairwise
      (fun a b => a + 20000 < b) :=
  ⟨by decide,
    (save_cadence_below_wrap exTimeToString exSeconds exManager
      (fun s hs x => by
        have h3 : s = exSeconds.get ⟨0, by decide⟩ ∨ s = exSeconds.get ⟨1, by decide⟩ ∨
            s = exSeconds.get ⟨2, by decide⟩ := by
          simpa [exSeconds] using hs
        rcases h3 with h | h | h <;> rw [h] <;> rfl)
      (by decide)
      (fun s hs => by
        have h3 : s = exSeconds.get ⟨0, by decide⟩ ∨ s = exSeconds.get ⟨1, by decide⟩ ∨
            s = exSeconds.get ⟨2, by decide⟩ := by
          simpa [exSeconds] using hs
        rcases h3 with h | h | h <;> rw [h] <;> decide)).1⟩

/-- C25: a search result whose token is `qa` is dropped: for every state and
every such result the handler makes no call, matches no item and returns the
state it was given, so the list, every field of every item (the manual search
flag and the status among them) and the cursor are unchanged. -/
theorem bundle_result_dropped (c : Collab) (env : Env) (sr : SearchResult) (m : AutoSearchManager)
    (h : sr.token = "qa") :
    onSearchResult c env sr m = (m, []) ∧ searchResultMatches c env sr m = [] := by
  have hqa : isBundleSearchToken sr.token = true := by
    rw [h]
    decide
  constructor
  · unfold onSearchResult
    rw [if_pos hqa]
  · unfold searchResultMatches
    rw [if_pos hqa]

/-- The matching directory result with the token `qa` after the manual
search of the item at 22: nothing happens, although the same result with
another token is matched to the item. -/
theorem bundle_result_dropped_witness :
    searchResultMatches exCollab exEnv exDirResult exAfterManual = [22] ∧
    onSearchResult exCollab exEnv { exDirResult with token := "qa" } exAfterManual =
      (exAfterManual, []) ∧
    searchResultMatches exCollab exEnv { exDirResult with token := "qa" } exAfterManual = [] :=
  ⟨by decide,
    bundle_result_dropped exCollab exEnv { exDirResult with token := "qa" } exAfterManual rfl⟩

/-- The loop of the result handler never sets a manual search flag. -/
theorem onSearchResultLoop_keeps_clear (c : Collab) (env : Env) (sr : SearchResult)
    (q : AutoSearchPtr) :
    ∀ (l : List AutoSearchPtr) (objs : AutoSearchPtr → AutoSearch) (acc : List AutoSearchPtr),
      (objs q).manualSearch = false →
      ((onSearchResultLoop c env sr l objs acc).1 q).manualSearch = false
  | [], _, _, h => h
  | a :: rest, objs, acc, h => by
    have hupd : (Function.update objs a { objs a with manualSearch := false } q).manualSearch
        = false := by
      by_cases hqa : q = a
      · subst hqa
        rw [Function.update_same]
      · rw [Function.update_noteq hqa]
        exact h
    simp only [onSearchResultLoop]
    split
    · exact onSearchResultLoop_keeps_clear c env sr q rest objs acc h
    · split
      · exact onSearchResultLoop_keeps_clear c env sr q rest _ (acc ++ [a]) hupd
      · exact onSearchResultLoop_keeps_clear c env sr q rest _ acc hupd

/-- After the loop of the result handler every item it went over has its
manual search flag clear. -/
theorem onSearchResultLoop_clears (c : Collab) (env : Env) (sr : SearchResult)
    (q : AutoSearchPtr) :
    ∀ (l : List AutoSearchPtr) (objs : AutoSearchPtr → AutoSearch) (acc : List AutoSearchPtr),
      q ∈ l → ((onSearchResultLoop c env sr l objs acc).1 q).manualSearch = false
  | [], _, _, h => absurd h (List.not_mem_nil _)
  | a :: rest, objs, acc, h => by
    simp only [onSearchResultLoop]
    by_cases hqa : q = a
    · subst hqa
      have hupd : (Function.update objs q { objs q with manualSearch := false } q).manualSearch
          = false := by
        rw [Function.update_same]
      split
      · rename_i hskip
        have hflag : (objs q).manualSearch = false := by
          cases hf : (objs q).manualSearch
          · rfl
          · rw [hf] at hskip
            simp at hskip
        exact onSearchResultLoop_keeps_clear c env sr q rest objs acc hflag
      · split
        · exact onSearchResultLoop_keeps_clear c env sr q rest _ (acc ++ [q]) hupd
        · exact onSearchResultLoop_keeps_clear c env sr q rest _ acc hupd
    · have hrest : q ∈ rest := by
        rcases List.mem_cons.mp h with h1 | h1
        · exact absurd h1 hqa
        · exact h1
      split
      · exact onSearchResultLoop_clears c env sr q rest objs acc hrest
      · split
        · exact onSearchResultLoop_clears c env sr q rest _ (acc ++ [a]) hrest
        · exact onSearchResultLoop_clears c env sr q rest _ acc hrest

/-- `setItemStatus` only writes the status of the item. -/
theorem setItemStatus_frame (m : AutoSearchManager) (as : AutoSearchPtr) (s : StatusType) :
    (setItemStatus m as s).searchItems = m.searchItems ∧
    (setItemStatus m as s).curPos = m.curPos ∧
    (setItemStatus m as s).dirty = m.dirty ∧
    (∀ q, q ≠ as → (setItemStatus m as s).objs q = m.objs q) ∧
    (setItemStatus m as s).objs as = { m.objs as with status := s } := by
  refine ⟨rfl, rfl, rfl, ?_, ?_⟩
  · intro q hq
    exact Function.update_noteq hq _ _
  · exact Function.update_same _ _ _

/-- `handleAction` leaves a sublist of the list and does not write a manual
search flag. -/
theorem handleAction_manualSearch (c : Collab) (env : Env) (sr : SearchResult)
    (m : AutoSearchManager) (as : AutoSearchPtr) :
    (handleAction c env sr m as).1.searchItems.Sublist m.searchItems ∧
    ∀ q, ((handleAction c env sr m as).1.objs q).manualSearch = (m.objs q).manualSearch := by
  have hset : ∀ s : StatusType,
      (setItemStatus m as s).searchItems.Sublist m.searchItems ∧
      ∀ q, ((setItemStatus m as s).objs q).manualSearch = (m.objs q).manualSearch := by
    intro s
    refine ⟨List.Sublist.refl _, fun q => ?_⟩
    by_cases hq : q = as
    · subst hq
      rw [(setItemStatus_frame m q s).2.2.2.2]
    · rw [(setItemStatus_frame m as s).2.2.2.1 q hq]
  have hid : m.searchItems.Sublist m.searchItems ∧
      ∀ q, (m.objs q).manualSearch = (m.objs q).manualSearch :=
    ⟨List.Sublist.refl _, fun _ => rfl⟩
  have hrem : (removeAutoSearch m as).searchItems.Sublist m.searchItems ∧
      ∀ q, ((removeAutoSearch m as).objs q).manualSearch = (m.objs q).manualSearch := by
    refine ⟨(removeAutoSearch_frame m as).1, fun q => ?_⟩
    rw [(removeAutoSearch_frame m as).2]
  unfold handleAction
  simp only []
  split
  · split
    · exact hid
    · split
      · exact hid
      · split
        · split
          · exact hid
          · split
            · exact hset _
            · exact hid
        · split
          · exact hid
          · exact hset _
  · split
    · split
      · split
        · exact hrem
        · exact hid
      · exact hid
    · exact hid


/-- The actions for the matches leave a sublist of the list and do not write
a manual search flag. -/
theorem handleActions_manualSearch (c : Collab) (env : Env) (sr : SearchResult) :
    ∀ (found : List AutoSearchPtr) (m : AutoSearchManager),
      (handleActions c env sr found m).1.searchItems.Sublist m.searchItems ∧
      ∀ q, ((handleActions c env sr found m).1.objs q).manualSearch = (m.objs q).manualSearch
  | [], m => ⟨List.Sublist.refl _, fun _ => rfl⟩
  | a :: rest, m => by
    obtain ⟨h1, h2⟩ := handleAction_manualSearch c env sr m a
    obtain ⟨h3, h4⟩ := handleActions_manualSearch c env sr rest (handleAction c env sr m a).1
    simp only [handleActions]
    exact ⟨h3.trans h1, fun q => (h4 q).trans (h2 q)⟩

/-- C24 fails as stated: the result with the token `QA` is not the token
`qa`, yet the handler drops it, and the item at 22 of the list still has its
manual search pending afterwards. -/
theorem manual_flag_counterexample :
    exBundleResult.token ≠ "qa" ∧
    22 ∈ (onSearchResult exCollab exEnv exBundleResult exAfterManual).1.searchItems ∧
    ((onSearchResult exCollab exEnv exBundleResult exAfterManual).1.objs 22).manualSearch = true := by
  decide

/-- C24 as amended: after the result handler has processed a search result
whose token is not `qa` up to the case of its letters, every item of the list
it started from, and so every item of the list it leaves, has its manual
search flag clear, whether or not the item matched the result. -/
theorem manual_flag_cleared (c : Collab) (env : Env) (sr : SearchResult) (m : AutoSearchManager)
    (h : isBundleSearchToken sr.token = false) :
    (∀ q ∈ m.searchItems, ((onSearchResult c env sr m).1.objs q).manualSearch = false) ∧
    (∀ q ∈ (onSearchResult c env sr m).1.searchItems,
      ((onSearchResult c env sr m).1.objs q).manualSearch = false) := by
  have hstep : onSearchResult c env sr m =
      handleActions c env sr (onSearchResultLoop c env sr m.searchItems m.objs []).2
        { m with objs := (onSearchResultLoop c env sr m.searchItems m.objs []).1 } := by
    unfold onSearchResult
    simp only [h, Bool.false_eq_true, if_false]
  obtain ⟨hsub, hflag⟩ := handleActions_manualSearch c env sr
    (onSearchResultLoop c env sr m.searchItems m.objs []).2
    { m with objs := (onSearchResultLoop c env sr m.searchItems m.objs []).1 }
  have hall : ∀ q ∈ m.searchItems, ((onSearchResult c env sr m).1.objs q).manualSearch = false := by
    intro q hq
    rw [hstep, hflag q]
    exact onSearchResultLoop_clears c env sr q m.searchItems m.objs [] hq
  refine ⟨hall, fun q hq => hall q ?_⟩
  rw [hstep] at hq
  exact hsub.subset hq

/-- The result for another directory after the manual search of the item at
22: the item does not match and its flag is clear afterwards. -/
theorem manual_flag_cleared_witness :
    (exAfterManual.objs 22).manualSearch = true ∧
    searchResultMatches exCollab exEnv exOtherResult exAfterManual = [] ∧
    ((onSearchResult exCollab exEnv exOtherResult exAfterManual).1.objs 22).manualSearch = false :=
  ⟨by decide, by decide,
    (manual_flag_cleared exCollab exEnv exOtherResult exAfterManual (by decide)).1 22
      (by decide)⟩


/-! ## The report action -/

/-- C26 fails as stated: the report item at 50 is removed after completion,
the result is matched to it, the user of the result is not online, and
`handleAction` leaves the item in the list. -/
theorem report_remove_counterexample :
    (exBundleManager.objs 50).action = ActionType.ACTION_REPORT ∧
    (exBundleManager.objs 50).remove = true ∧
    50 ∈ searchResultMatches exCollab exEnv exDirResult exBundleManager ∧
    exCollab.findOnlineUser exDirResult.cid exDirResult.hubUrl = none ∧
    (handleAction exCollab exEnv exDirResult exBundleManager 50).1.searchItems = [23, 51, 50, 52] := by
  decide

/-- C26 as amended: for an item with the action report, `handleAction`
deletes the item from the list when it is removed after completion and the
user of the result is found online; when the flag is clear or the user is not
found online the state is unchanged; in no case is a queue call made or a
field of an item, the status among them, changed. -/
theorem report_action (c : Collab) (env : Env) (sr : SearchResult) (m : AutoSearchManager)
    (as : AutoSearchPtr) (hact : (m.objs as).action = ActionType.ACTION_REPORT) :
    (∀ call ∈ (handleAction c env sr m as).2, call.isQueueCall = false) ∧
    (handleAction c env sr m as).1.objs = m.objs ∧
    ((m.objs as).remove = true → (∃ u, c.findOnlineUser sr.cid sr.hubUrl = some u) →
      (handleAction c env sr m as).1.searchItems = m.searchItems.erase as ∧
      (m.searchItems.Nodup → as ∉ (handleAction c env sr m as).1.searchItems)) ∧
    ((m.objs as).remove = false ∨ c.findOnlineUser sr.cid sr.hubUrl = none →
      (handleAction c env sr m as).1 = m) := by
  have h1 : ¬ (((m.objs as).action == ActionType.ACTION_QUEUE ||
      (m.objs as).action == ActionType.ACTION_DOWNLOAD) = true) := by
    rw [hact]
    decide
  have h2 : ((m.objs as).action == ActionType.ACTION_REPORT) = true := by
    rw [hact]
    decide
  unfold handleAction
  simp only []
  rw [if_neg h1, if_pos h2]
  cases hu : c.findOnlineUser sr.cid sr.hubUrl with
  | none =>
    refine ⟨?_, rfl, ?_, fun _ => rfl⟩
    · intro call hcall
      exact absurd hcall (List.not_mem_nil _)
    · intro _ hex
      obtain ⟨u, hu2⟩ := hex
      exact absurd hu2 (by simp)
  | some u =>
    obtain ⟨nick, connected⟩ := u
    simp only []
    refine ⟨?_, ?_, ?_, ?_⟩
    · intro call hcall
      by_cases hc : connected = true
      · rw [if_pos hc, List.mem_singleton] at hcall
        rw [hcall]
        rfl
      · rw [if_neg hc] at hcall
        exact absurd hcall (List.not_mem_nil _)
    · by_cases hr : (m.objs as).remove = true
      · rw [if_pos hr]
        exact (removeAutoSearch_frame m as).2
      · rw [if_neg hr]
    · intro hr _
      rw [if_pos hr, removeAutoSearch_searchItems]
      exact ⟨rfl, fun hnd => hnd.not_mem_erase⟩
    · intro hor
      rcases hor with hr | hn
      · have hr2 : ¬ ((m.objs as).remove = true) := by
          rw [hr]
          decide
        rw [if_neg hr2]
      · exact absurd hn (by simp)

/-- The report item at 50 with the user of the result online: the item
leaves the list, one message is sent and no object is written. -/
theorem report_action_witness :
    (exBundleManager.objs 50).action = ActionType.ACTION_REPORT ∧
    (exBundleManager.objs 50).remove = true ∧
    (handleAction exOnlineCollab exEnv exDirResult exBundleManager 50).1.searchItems =
      [23, 51, 52] ∧
    (handleAction exOnlineCollab exEnv exDirResult exBundleManager 50).2 =
      [Call.message "CID" "adc://hub" "AutoSearch found a file: Some.Release from an user alice"] ∧
    (handleAction exOnlineCollab exEnv exDirResult exBundleManager 50).1.objs =
      exBundleManager.objs :=
  ⟨by decide, by decide, by decide, by decide,
    (report_action exOnlineCollab exEnv exDirResult exBundleManager 50 (by decide)).2.1⟩


/-! ## Bundles -/

/-- The item `getSearchByToken` returns is in the list and has the token. -/
theorem getSearchByToken_some (m : AutoSearchManager) (aToken : Int) (x : AutoSearchPtr)
    (h : getSearchByToken m aToken = some x) :
    x ∈ m.searchItems ∧ (m.objs x).token = aToken := by
  unfold getSearchByToken at h
  refine ⟨List.mem_of_find?_eq_some h, ?_⟩
  have h2 := List.find?_some h
  exact eq_of_beq h2

/-- The handlers of bundle events do nothing for the token 0. -/
theorem bundle_handlers_zero (m : AutoSearchManager) (b : Bundle) (flag : Bool)
    (h : b.autoSearch = 0) :
    onAddBundle m b = m ∧ onRemoveBundle m b flag = m ∧ onBundleScanFailed m b flag = m := by
  have h0 : (b.autoSearch == 0) = true := by
    rw [h]
    rfl
  refine ⟨?_, ?_, ?_⟩
  · unfold onAddBundle
    rw [if_pos h0]
  · unfold onRemoveBundle
    rw [if_pos h0]
  · unfold onBundleScanFailed
    rw [if_pos h0]

/-- The handlers of bundle events do nothing when no item has the token. -/
theorem bundle_handlers_none (m : AutoSearchManager) (b : Bundle) (flag : Bool)
    (h : getSearchByToken m b.autoSearch = none) :
    onAddBundle m b = m ∧ onRemoveBundle m b flag = m ∧ onBundleScanFailed m b flag = m := by
  refine ⟨?_, ?_, ?_⟩
  · unfold onAddBundle
    rw [h]
    split <;> rfl
  · unfold onRemoveBundle
    rw [h]
    split <;> rfl
  · unfold onBundleScanFailed
    rw [h]
    split <;> rfl

/-- The step of `onRemoveBundle` for a bundle that names the item `x`. -/
theorem onRemoveBundle_some (m : AutoSearchManager) (b : Bundle) (finished : Bool)
    (x : AutoSearchPtr) (h0 : b.autoSearch ≠ 0) (h : getSearchByToken m b.autoSearch = some x) :
    onRemoveBundle m b finished =
      if (m.objs x).remove && finished then
        removeAutoSearch
          { m with objs := Function.update m.objs x ((m.objs x).removeBundle b.token) } x
      else { m with objs := Function.update m.objs x ((m.objs x).removeBundle b.token) } := by
  have h1 : ¬ ((b.autoSearch == 0) = true) := by
    intro hb
    exact h0 (eq_of_beq hb)
  unfold onRemoveBundle
  rw [if_neg h1, h]
  simp only [Function.update_same]
  rfl

/-- The step of `onAddBundle` for a bundle that names the item `x`. -/
theorem onAddBundle_some (m : AutoSearchManager) (b : Bundle) (x : AutoSearchPtr)
    (h0 : b.autoSearch ≠ 0) (h : getSearchByToken m b.autoSearch = some x) :
    onAddBundle m b =
      setItemStatus { m with objs := Function.update m.objs x ((m.objs x).addBundle b.token) }
        x StatusType.STATUS_QUEUED_OK := by
  have h1 : ¬ ((b.autoSearch == 0) = true) := by
    intro hb
    exact h0 (eq_of_beq hb)
  unfold onAddBundle
  rw [if_neg h1, h]

/-- The step of `onBundleScanFailed` for a bundle that names the item `x`. -/
theorem onBundleScanFailed_some (m : AutoSearchManager) (b : Bundle) (noMissing : Bool)
    (x : AutoSearchPtr) (h0 : b.autoSearch ≠ 0) (h : getSearchByToken m b.autoSearch = some x) :
    onBundleScanFailed m b noMissing =
      setItemStatus m x
        (if noMissing then StatusType.STATUS_FAILED_EXTRAS
          else StatusType.STATUS_FAILED_MISSING) := by
  have h1 : ¬ ((b.autoSearch == 0) = true) := by
    intro hb
    exact h0 (eq_of_beq hb)
  unfold onBundleScanFailed
  rw [if_neg h1, h]

/-- `removeBundle` takes the token out of the tokens and keeps the others. -/
theorem removeBundle_tokens (a : AutoSearch) (aToken : String) :
    aToken ∉ (a.removeBundle aToken).bundleTokens ∧
    ∀ t, t ≠ aToken → (t ∈ (a.removeBundle aToken).bundleTokens ↔ t ∈ a.bundleTokens) := by
  unfold AutoSearch.removeBundle
  constructor
  · intro hmem
    have h2 := (List.mem_filter.mp hmem).2
    simp at h2
  · intro t ht
    simp only [List.mem_filter]
    constructor
    · intro h
      exact h.1
    · intro h
      exact ⟨h, by simpa using ht⟩

/-- `addBundle` puts the token among the tokens and keeps the others. -/
theorem addBundle_tokens (a : AutoSearch) (aToken : String) :
    aToken ∈ (a.addBundle aToken).bundleTokens ∧
    ∀ t, t ≠ aToken → (t ∈ (a.addBundle aToken).bundleTokens ↔ t ∈ a.bundleTokens) := by
  unfold AutoSearch.addBundle
  by_cases hmem : aToken ∈ a.bundleTokens
  · rw [if_pos hmem]
    exact ⟨hmem, fun _ _ => Iff.rfl⟩
  · rw [if_neg hmem]
    refine ⟨List.mem_append_right _ (List.mem_singleton_self _), fun t ht => ?_⟩
    rw [List.mem_append, List.mem_singleton]
    constructor
    · intro h
      rcases h with h | h
      · exact h
      · exact absurd h ht
    · intro h
      exact Or.inl h


/-- C23: for every bundle whose auto search token names an item `x` of the
list (the item `getSearchByToken` returns), `onRemoveBundle` takes the token of
the bundle out of the bundle tokens of `x` and keeps its other tokens, writes
no other object, and removes `x` from the list if and only if `x` is removed
after completion and `finished` is true: the list is then the old list with
`x` erased, so every other item stays in the same relative order, and it is
the old list otherwise.  A bundle whose auto search token is 0 or names no
item changes nothing. -/
theorem onRemoveBundle_spec (m : AutoSearchManager) (b : Bundle) (finished : Bool) :
    (∀ x, b.autoSearch ≠ 0 → getSearchByToken m b.autoSearch = some x →
      x ∈ m.searchItems ∧
      b.token ∉ ((onRemoveBundle m b finished).objs x).bundleTokens ∧
      (∀ t, t ≠ b.token →
        (t ∈ ((onRemoveBundle m b finished).objs x).bundleTokens ↔ t ∈ (m.objs x).bundleTokens)) ∧
      (∀ q, q ≠ x → (onRemoveBundle m b finished).objs q = m.objs q) ∧
      ((m.objs x).remove = true ∧ finished = true →
        (onRemoveBundle m b finished).searchItems = m.searchItems.erase x) ∧
      (¬ ((m.objs x).remove = true ∧ finished = true) →
        (onRemoveBundle m b finished).searchItems = m.searchItems) ∧
      (m.searchItems.Nodup →
        (x ∉ (onRemoveBundle m b finished).searchItems ↔
          ((m.objs x).remove = true ∧ finished = true)))) ∧
    (b.autoSearch = 0 ∨ getSearchByToken m b.autoSearch = none →
      onRemoveBundle m b finished = m) := by
  constructor
  · intro x h0 hx
    have hmem := (getSearchByToken_some m b.autoSearch x hx).1
    have hobjs : (onRemoveBundle m b finished).objs =
        Function.update m.objs x ((m.objs x).removeBundle b.token) := by
      rw [onRemoveBundle_some m b finished x h0 hx]
      split
      · exact (removeAutoSearch_frame _ x).2
      · rfl
    have hyes : (m.objs x).remove = true ∧ finished = true →
        (onRemoveBundle m b finished).searchItems = m.searchItems.erase x := by
      intro hc
      have hc2 : ((m.objs x).remove && finished) = true := by
        rw [hc.1, hc.2]
        rfl
      rw [onRemoveBundle_some m b finished x h0 hx, if_pos hc2, removeAutoSearch_searchItems]
    have hno : ¬ ((m.objs x).remove = true ∧ finished = true) →
        (onRemoveBundle m b finished).searchItems = m.searchItems := by
      intro hc
      have hc2 : ¬ (((m.objs x).remove && finished) = true) := by
        intro h
        rw [Bool.and_eq_true] at h
        exact hc h
      rw [onRemoveBundle_some m b finished x h0 hx, if_neg hc2]
    refine ⟨hmem, ?_, ?_, ?_, hyes, hno, ?_⟩
    · rw [hobjs, Function.update_same]
      exact (removeBundle_tokens (m.objs x) b.token).1
    · rw [hobjs, Function.update_same]
      exact (removeBundle_tokens (m.objs x) b.token).2
    · intro q hq
      rw [hobjs, Function.update_noteq hq]
    · intro hnd
      constructor
      · intro hout
        by_contra hc
        rw [hno hc] at hout
        exact hout hmem
      · intro hc
        rw [hyes hc]
        exact hnd.not_mem_erase
  · intro h
    rcases h with h | h
    · exact (bundle_handlers_zero m b finished h).2.1
    · exact (bundle_handlers_none m b finished h).2.1

/-- The bundle `b2` of the item at 51, which is removed after completion,
finished: the item leaves the list and the others keep their order. -/
theorem onRemoveBundle_spec_witness :
    getSearchByToken exBundleManager 6 = some 51 ∧
    (exBundleManager.objs 51).remove = true ∧
    (onRemoveBundle exBundleManager { autoSearch := 6, token := "b2" } true).searchItems =
      [23, 50, 52] ∧
    ((onRemoveBundle exBundleManager { autoSearch := 6, token := "b2" } true).objs 51).bundleTokens
      = [] ∧
    (onRemoveBundle exBundleManager { autoSearch := 6, token := "b2" } false).searchItems =
      [23, 51, 50, 52] :=
  ⟨by decide, by decide,
    ((onRemoveBundle_spec exBundleManager { autoSearch := 6, token := "b2" } true).1 51
      (by decide) (by decide)).2.2.2.2.1 ⟨by decide, rfl⟩,
    by decide, by decide⟩

/-- C28: for a bundle whose auto search token names an item `x` of the list
(the item `getSearchByToken` returns), `onAddBundle` puts the token of the
bundle among the bundle tokens of `x`, keeps its other tokens and sets its
status to `STATUS_QUEUED_OK`; `onBundleScanFailed` sets the status of `x` to
`STATUS_FAILED_EXTRAS` when `noMissing` is true and to
`STATUS_FAILED_MISSING` otherwise and writes nothing else; both keep the list
and the other objects, and both change nothing when the token is 0 or names
no item.  So when `x` is enabled it allows new items after a failure with
missing files, and after `onAddBundle` or a failure with extra files it
allows new items exactly when it is not removed after completion. -/
theorem bundle_status_spec (m : AutoSearchManager) (b : Bundle) :
    (∀ x, b.autoSearch ≠ 0 → getSearchByToken m b.autoSearch = some x →
      x ∈ m.searchItems ∧
      (onAddBundle m b).objs x =
        { m.objs x with
          bundleTokens := ((m.objs x).addBundle b.token).bundleTokens
          status := StatusType.STATUS_QUEUED_OK } ∧
      b.token ∈ ((onAddBundle m b).objs x).bundleTokens ∧
      (∀ t, t ≠ b.token →
        (t ∈ ((onAddBundle m b).objs x).bundleTokens ↔ t ∈ (m.objs x).bundleTokens)) ∧
      (onAddBundle m b).searchItems = m.searchItems ∧
      (∀ q, q ≠ x → (onAddBundle m b).objs q = m.objs q) ∧
      (onBundleScanFailed m b true).objs x =
        { m.objs x with status := StatusType.STATUS_FAILED_EXTRAS } ∧
      (onBundleScanFailed m b false).objs x =
        { m.objs x with status := StatusType.STATUS_FAILED_MISSING } ∧
      (∀ noMissing, (onBundleScanFailed m b noMissing).searchItems = m.searchItems ∧
        ∀ q, q ≠ x → (onBundleScanFailed m b noMissing).objs q = m.objs q) ∧
      ((m.objs x).enabled = true →
        ((onBundleScanFailed m b false).objs x).allowNewItems = true ∧
        ((onBundleScanFailed m b true).objs x).allowNewItems = !(m.objs x).remove ∧
        ((onAddBundle m b).objs x).allowNewItems = !(m.objs x).remove)) ∧
    (b.autoSearch = 0 ∨ getSearchByToken m b.autoSearch = none →
      onAddBundle m b = m ∧ ∀ noMissing, onBundleScanFailed m b noMissing = m) := by
  constructor
  · intro x h0 hx
    have hmem := (getSearchByToken_some m b.autoSearch x hx).1
    have hadd : (onAddBundle m b).objs x =
        { m.objs x with
          bundleTokens := ((m.objs x).addBundle b.token).bundleTokens
          status := StatusType.STATUS_QUEUED_OK } := by
      rw [onAddBundle_some m b x h0 hx, (setItemStatus_frame _ x _).2.2.2.2]
      simp only [Function.update_same]
      rfl
    have hext : (onBundleScanFailed m b true).objs x =
        { m.objs x with status := StatusType.STATUS_FAILED_EXTRAS } := by
      rw [onBundleScanFailed_some m b true x h0 hx, (setItemStatus_frame _ x _).2.2.2.2]
      rfl
    have hmis : (onBundleScanFailed m b false).objs x =
        { m.objs x with status := StatusType.STATUS_FAILED_MISSING } := by
      rw [onBundleScanFailed_some m b false x h0 hx, (setItemStatus_frame _ x _).2.2.2.2]
      rfl
    refine ⟨hmem, hadd, ?_, ?_, ?_, ?_, hext, hmis, ?_, ?_⟩
    · rw [hadd]
      exact (addBundle_tokens (m.objs x) b.token).1
    · rw [hadd]
      exact (addBundle_tokens (m.objs x) b.token).2
    · rw [onAddBundle_some m b x h0 hx]
      rfl
    · intro q hq
      rw [onAddBundle_some m b x h0 hx, (setItemStatus_frame _ x _).2.2.2.1 q hq]
      exact Function.update_noteq hq _ _
    · intro noMissing
      rw [onBundleScanFailed_some m b noMissing x h0 hx]
      exact ⟨rfl, fun q hq => (setItemStatus_frame _ x _).2.2.2.1 q hq⟩
    · intro hen
      rw [hmis, hext, hadd]
      simp [AutoSearch.allowNewItems, hen]
  · intro h
    rcases h with h | h
    · exact ⟨(bundle_handlers_zero m b true h).1, fun nm => (bundle_handlers_zero m b nm h).2.2⟩
    · exact ⟨(bundle_handlers_none m b true h).1, fun nm => (bundle_handlers_none m b nm h).2.2⟩

/-- The item at 51, enabled and removed after completion: after a failure
with missing files it allows new items, after a new bundle or a failure with
extra files it does not. -/
theorem bundle_status_spec_witness :
    getSearchByToken exBundleManager 6 = some 51 ∧
    (exBundleManager.objs 51).enabled = true ∧
    (exBundleManager.objs 51).remove = true ∧
    ((onAddBundle exBundleManager { autoSearch := 6, token := "b3" }).objs 51).bundleTokens =
      ["b2", "b3"] ∧
    ((onBundleScanFailed exBundleManager { autoSearch := 6, token := "b3" } false).objs
      51).allowNewItems = true ∧
    ((onBundleScanFailed exBundleManager { autoSearch := 6, token := "b3" } true).objs
      51).allowNewItems = false ∧
    ((onAddBundle exBundleManager { autoSearch := 6, token := "b3" }).objs 51).allowNewItems =
      false :=
  have h := ((bundle_status_spec exBundleManager { autoSearch := 6, token := "b3" }).1 51
    (by decide) (by decide)).2.2.2.2.2.2.2.2.2 (by decide)
  ⟨by decide, by decide, by decide, by decide, h.1, h.2.1, h.2.2⟩


/-! ## The status text -/

/-- A text made of a status, a comma and one of the two endings ends in
`, searching` exactly for the first ending and in `, not searching` exactly
for the second. -/
theorem status_text_ending (s : String) (b : Bool) :
    ((", searching".toList <:+
        (s ++ ", " ++ (if b then "searching" else "not searching")).toList) ↔ b = true) ∧
    ((", not searching".toList <:+
        (s ++ ", " ++ (if b then "searching" else "not searching")).toList) ↔ b = false) := by
  cases b
  · have e : (s ++ ", " ++ (if false = true then "searching" else "not searching")).toList
        = s.toList ++ ", not searching".toList := by
      simp [String.toList, String.data_append]
    rw [e]
    constructor
    · constructor
      · intro h
        have h2 : ", searching".toList <:+ ", not searching".toList :=
          List.suffix_of_suffix_length_le h (List.suffix_append _ _) (by decide)
        exact absurd h2 (by decide)
      · intro h
        exact absurd h (by decide)
    · exact ⟨fun _ => rfl, fun _ => List.suffix_append _ _⟩
  · have e : (s ++ ", " ++ (if true = true then "searching" else "not searching")).toList
        = s.toList ++ ", searching".toList := by
      simp [String.toList, String.data_append]
    rw [e]
    constructor
    · exact ⟨fun _ => rfl, fun _ => List.suffix_append _ _⟩
    · constructor
      · intro h
        have h2 : ", searching".toList <:+ ", not searching".toList :=
          List.suffix_of_suffix_length_le (List.suffix_append _ _) h (by decide)
        exact absurd h2 (by decide)
      · intro h
        exact absurd h (by decide)

/-- The local `searching` of `getStatus` for an enabled item: set exactly
when the item allows new items, or the status is neither searching nor
downloading a list and the number of bundles is not 1. -/
theorem getStatusLocals_searching (a : AutoSearch) (hen : a.enabled = true) :
    (getStatusLocals a).2 = true ↔
      (a.allowNewItems = true ∨
        (a.status ≠ StatusType.STATUS_SEARCHING ∧ a.status ≠ StatusType.STATUS_LIST ∧
          a.bundleTokens.length ≠ 1)) := by
  by_cases hlen : a.bundleTokens.length = 1
  · cases hs : a.status <;> cases hr : a.remove <;>
      simp [getStatusLocals, AutoSearch.allowNewItems, hen, hs, hr, hlen]
  · cases hs : a.status <;> cases hr : a.remove <;>
      simp [getStatusLocals, AutoSearch.allowNewItems, hen, hs, hr, hlen]

/-- C27 fails as stated: the item at 52 is enabled, queued with two bundles
and removed after completion; it does not allow new items, and its status
text ends in `, searching`. -/
theorem status_text_counterexample :
    (exBundleManager.objs 52).enabled = true ∧
    (exBundleManager.objs 52).bundleTokens.length = 2 ∧
    (exBundleManager.objs 52).allowNewItems = false ∧
    getStatus exBundleManager 52 = "2 bundles queued, searching" ∧
    ", searching".toList <:+ (getStatus exBundleManager 52).toList := by
  decide

/-- C27 as amended: for a disabled item `getStatus` returns exactly
`Disabled`.  For an enabled item the text ends in `, searching` if and only
if the item allows new items or its status is neither searching nor
downloading a list and its number of bundles is not 1, and it ends in
`, not searching` otherwise; so for an item with exactly one bundle the text
ends in `, searching` if and only if the item allows new items. -/
theorem status_text (m : AutoSearchManager) (as : AutoSearchPtr) :
    ((m.objs as).enabled = false → getStatus m as = "Disabled") ∧
    ((m.objs as).enabled = true →
      ((", searching".toList <:+ (getStatus m as).toList) ↔
        ((m.objs as).allowNewItems = true ∨
          ((m.objs as).status ≠ StatusType.STATUS_SEARCHING ∧
            (m.objs as).status ≠ StatusType.STATUS_LIST ∧
            (m.objs as).bundleTokens.length ≠ 1))) ∧
      ((", not searching".toList <:+ (getStatus m as).toList) ↔
        ¬ ((m.objs as).allowNewItems = true ∨
          ((m.objs as).status ≠ StatusType.STATUS_SEARCHING ∧
            (m.objs as).status ≠ StatusType.STATUS_LIST ∧
            (m.objs as).bundleTokens.length ≠ 1))) ∧
      ((m.objs as).bundleTokens.length = 1 →
        ((", searching".toList <:+ (getStatus m as).toList) ↔
          (m.objs as).allowNewItems = true))) := by
  constructor
  · intro hen
    unfold getStatus
    rw [hen]
    rfl
  · intro hen
    have hloc := getStatusLocals_searching (m.objs as) hen
    have hkey := status_text_ending (getStatusLocals (m.objs as)).1 (getStatusLocals (m.objs as)).2
    have htext : getStatus m as =
        (getStatusLocals (m.objs as)).1 ++ ", " ++
          (if (getStatusLocals (m.objs as)).2 then "searching" else "not searching") := by
      unfold getStatus
      rw [hen]
      rfl
    rw [htext]
    refine ⟨hkey.1.trans hloc, ?_, ?_⟩
    · rw [hkey.2, ← hloc]
      cases (getStatusLocals (m.objs as)).2 <;> simp
    · intro hlen
      rw [hkey.1, hloc]
      constructor
      · intro h
        rcases h with h | h
        · exact h
        · exact absurd hlen h.2.2
      · intro h
        exact Or.inl h

/-- The queued item at 51 with one bundle, removed after completion: the
text ends in `, not searching`; the disabled item at 22 reads `Disabled`. -/
theorem status_text_witness :
    (exBundleManager.objs 51).enabled = true ∧
    (exBundleManager.objs 51).allowNewItems = false ∧
    getStatus exBundleManager 51 = "Queued, not searching" ∧
    ¬ (", searching".toList <:+ (getStatus exBundleManager 51).toList) ∧
    getStatus exBundleManager 22 = "Disabled" :=
  ⟨by decide, by decide, by decide,
    fun h => absurd
      ((((status_text exBundleManager 51).2 (by decide)).2.2 (by decide)).mp h) (by decide),
    (status_text exBundleManager 22).1 (by decide)⟩


/-! ## The external add -/

/-- The duplicate test of `addAutoSearch` for a new object at an address
outside the list: it finds an item exactly when a listed item has the search
string. -/
theorem externalItem_any (env : Env) (inp : AddInput) (ss aTarget : String) (aTargetType : Int)
    (isDirectory aRemove : Bool) (m : AutoSearchManager) (hfresh : inp.ptr ∉ m.searchItems) :
    (m.searchItems.any (fun as =>
      (Function.update m.objs inp.ptr
        (externalItem env inp ss aTarget aTargetType isDirectory aRemove) as).searchString ==
      (Function.update m.objs inp.ptr
        (externalItem env inp ss aTarget aTargetType isDirectory aRemove) inp.ptr).searchString))
      = true ↔ ∃ q ∈ m.searchItems, (m.objs q).searchString = ss := by
  rw [List.any_eq_true]
  have hss : (Function.update m.objs inp.ptr
      (externalItem env inp ss aTarget aTargetType isDirectory aRemove) inp.ptr).searchString
      = ss := by
    rw [Function.update_same]
    rfl
  constructor
  · intro h
    obtain ⟨q, hq, hqs⟩ := h
    have hne : q ≠ inp.ptr := fun heq => hfresh (by rw [← heq]; exact hq)
    rw [hss, Function.update_noteq hne] at hqs
    exact ⟨q, hq, eq_of_beq hqs⟩
  · intro h
    obtain ⟨q, hq, hqs⟩ := h
    have hne : q ≠ inp.ptr := fun heq => hfresh (by rw [← heq]; exact hq)
    refine ⟨q, hq, ?_⟩
    rw [hss, Function.update_noteq hne, hqs]
    exact beq_self_eq_true ss

/-- The external add of a search string that is long enough and new, as one
equation. -/
theorem addAutoSearchExternal_new (env : Env) (inp : AddInput) (ss aTarget : String)
    (aTargetType : Int) (isDirectory aRemove : Bool) (m : AutoSearchManager)
    (hfresh : inp.ptr ∉ m.searchItems) (hlong : ¬ ss.utf8ByteSize ≤ 5)
    (hnew : ¬ ∃ q ∈ m.searchItems, (m.objs q).searchString = ss) :
    addAutoSearchExternal env inp ss aTarget aTargetType isDirectory aRemove m =
      (if inp.allowedHubs.isEmpty then
          { m with
            objs := Function.update m.objs inp.ptr
              { externalItem env inp ss aTarget aTargetType isDirectory aRemove with
                lastSearch := inp.timeAdded }
            searchItems := m.searchItems ++ [inp.ptr]
            dirty := true }
        else
          searchItem env
            { m with
              objs := Function.update m.objs inp.ptr
                { externalItem env inp ss aTarget aTargetType isDirectory aRemove with
                  lastSearch := inp.timeAdded }
              searchItems := m.searchItems ++ [inp.ptr]
              dirty := true } inp.ptr,
        some inp.ptr) := by
  have hany := externalItem_any env inp ss aTarget aTargetType isDirectory aRemove m hfresh
  have hfalse : ¬ ((m.searchItems.any (fun as =>
      (Function.update m.objs inp.ptr
        (externalItem env inp ss aTarget aTargetType isDirectory aRemove) as).searchString ==
      (Function.update m.objs inp.ptr
        (externalItem env inp ss aTarget aTargetType isDirectory aRemove) inp.ptr).searchString))
      = true) := fun h => hnew (hany.mp h)
  unfold addAutoSearchExternal
  rw [if_neg hlong]
  unfold addAutoSearch
  simp only []
  rw [if_neg hfalse]
  simp only [Function.update_same, Function.update_idem]

/-- The external add of a search string that is long enough and listed, as
one equation. -/
theorem addAutoSearchExternal_dup (env : Env) (inp : AddInput) (ss aTarget : String)
    (aTargetType : Int) (isDirectory aRemove : Bool) (m : AutoSearchManager)
    (hfresh : inp.ptr ∉ m.searchItems) (hlong : ¬ ss.utf8ByteSize ≤ 5)
    (hdup : ∃ q ∈ m.searchItems, (m.objs q).searchString = ss) :
    addAutoSearchExternal env inp ss aTarget aTargetType isDirectory aRemove m =
      ({ m with
          objs := Function.update m.objs inp.ptr
            (externalItem env inp ss aTarget aTargetType isDirectory aRemove) }, none) := by
  have hany := externalItem_any env inp ss aTarget aTargetType isDirectory aRemove m hfresh
  have htrue := hany.mpr hdup
  unfold addAutoSearchExternal
  rw [if_neg hlong]
  unfold addAutoSearch
  simp only []
  rw [if_pos htrue]


/-- The object of the item after `searchItem`. -/
theorem searchItem_objs_self (env : Env) (m : AutoSearchManager) (as : AutoSearchPtr) :
    (searchItem env m as).objs as =
      if env.getSearchType (m.objs as).fileType = true then m.objs as
      else { m.objs as with fileType := env.SEARCH_TYPE_ANY } := by
  unfold searchItem
  split
  · rfl
  · exact Function.update_same _ _ _

/-- The object of the item after `searchItem`, from the object before: the
same, or the same with the file type any when the file type does not
resolve. -/
theorem searchItem_objs_of (env : Env) (m : AutoSearchManager) (as : AutoSearchPtr)
    (a : AutoSearch) (ha : m.objs as = a) :
    (searchItem env m as).objs as = a ∨
    ((searchItem env m as).objs as = { a with fileType := env.SEARCH_TYPE_ANY } ∧
      env.getSearchType a.fileType = false) := by
  rw [searchItem_objs_self, ha]
  by_cases h : env.getSearchType a.fileType = true
  · left
    rw [if_pos h]
  · right
    rw [if_neg h]
    exact ⟨rfl, by simpa using h⟩

/-- The other objects after `searchItem`. -/
theorem searchItem_objs_other (env : Env) (m : AutoSearchManager) (as q : AutoSearchPtr)
    (hq : q ≠ as) : (searchItem env m as).objs q = m.objs q := by
  unfold searchItem
  split
  · rfl
  · exact Function.update_noteq hq _ _

/-- C29: the external `addAutoSearch`, called with a new object at an
address outside the list.  When the search string has 5 or fewer characters
(the `char`s `length()` counts) or is the search string of a listed item, no
item is returned and the list, the cursor, the dirty flag and every listed
object are unchanged.  Otherwise the new item is returned and the list is the
old list with the new item appended; the new item is enabled, has the action
download, the status searching, the partial matcher with the search string as
its pattern and all seven search days set; its file type is the directory
type if `isDirectory` and the type any otherwise, provided no hub is online or
the search manager resolves the directory type (the immediate search of an
item resets a file type that does not resolve). -/
theorem external_add (env : Env) (inp : AddInput) (ss aTarget : String) (aTargetType : Int)
    (isDirectory aRemove : Bool) (m : AutoSearchManager) (hfresh : inp.ptr ∉ m.searchItems) :
    ((ss.utf8ByteSize ≤ 5 ∨ ∃ q ∈ m.searchItems, (m.objs q).searchString = ss) →
      (addAutoSearchExternal env inp ss aTarget aTargetType isDirectory aRemove m).2 = none ∧
      (addAutoSearchExternal env inp ss aTarget aTargetType isDirectory aRemove m).1.searchItems
        = m.searchItems ∧
      (addAutoSearchExternal env inp ss aTarget aTargetType isDirectory aRemove m).1.curPos
        = m.curPos ∧
      (addAutoSearchExternal env inp ss aTarget aTargetType isDirectory aRemove m).1.dirty
        = m.dirty ∧
      ∀ q ∈ m.searchItems,
        (addAutoSearchExternal env inp ss aTarget aTargetType isDirectory aRemove m).1.objs q
          = m.objs q) ∧
    (¬ (ss.utf8ByteSize ≤ 5 ∨ ∃ q ∈ m.searchItems, (m.objs q).searchString = ss) →
      (addAutoSearchExternal env inp ss aTarget aTargetType isDirectory aRemove m).2
        = some inp.ptr ∧
      (addAutoSearchExternal env inp ss aTarget aTargetType isDirectory aRemove m).1.searchItems
        = m.searchItems ++ [inp.ptr] ∧
      (addAutoSearchExternal env inp ss aTarget aTargetType isDirectory aRemove m).1.curPos
        = m.curPos ∧
      (∀ q ∈ m.searchItems,
        (addAutoSearchExternal env inp ss aTarget aTargetType isDirectory aRemove m).1.objs q
          = m.objs q) ∧
      (∃ a : AutoSearch,
        (addAutoSearchExternal env inp ss aTarget aTargetType isDirectory aRemove m).1.objs inp.ptr
          = a ∧
        a.enabled = true ∧ a.action = ActionType.ACTION_DOWNLOAD ∧
        a.status = StatusType.STATUS_SEARCHING ∧ a.method = Method.PARTIAL ∧
        a.pattern = ss ∧ a.searchString = ss ∧ a.remove = aRemove ∧
        (∀ k, k < 7 → a.searchDays.testBit k = true) ∧
        (isDirectory = false → a.fileType = env.SEARCH_TYPE_ANY) ∧
        (inp.allowedHubs = [] ∨ env.getSearchType env.SEARCH_TYPE_DIRECTORY = true →
          a.fileType =
            if isDirectory then env.SEARCH_TYPE_DIRECTORY else env.SEARCH_TYPE_ANY))) := by
  have hne : ∀ q ∈ m.searchItems, q ≠ inp.ptr :=
    fun q hq heq => hfresh (by rw [← heq]; exact hq)
  constructor
  · intro h
    by_cases hshort : ss.utf8ByteSize ≤ 5
    · have hres : addAutoSearchExternal env inp ss aTarget aTargetType isDirectory aRemove m
          = (m, none) := by
        unfold addAutoSearchExternal
        rw [if_pos hshort]
      rw [hres]
      exact ⟨rfl, rfl, rfl, rfl, fun _ _ => rfl⟩
    · have hdup : ∃ q ∈ m.searchItems, (m.objs q).searchString = ss := by
        rcases h with h | h
        · exact absurd h hshort
        · exact h
      rw [addAutoSearchExternal_dup env inp ss aTarget aTargetType isDirectory aRemove m hfresh
        hshort hdup]
      exact ⟨rfl, rfl, rfl, rfl, fun q hq => Function.update_noteq (hne q hq) _ _⟩
  · intro h
    have hlong : ¬ ss.utf8ByteSize ≤ 5 := fun hs => h (Or.inl hs)
    have hnew : ¬ ∃ q ∈ m.searchItems, (m.objs q).searchString = ss := fun hd => h (Or.inr hd)
    rw [addAutoSearchExternal_new env inp ss aTarget aTargetType isDirectory aRemove m hfresh
      hlong hnew]
    have hdays : ∀ k, k < 7 → Nat.testBit 127 k = true := by decide
    have hempty : ("" : String).isEmpty = true := by decide
    have hpat : (externalItem env inp ss aTarget aTargetType isDirectory aRemove).pattern = ss := by
      simp [externalItem, AutoSearch.create, hempty]
    by_cases hhubs : inp.allowedHubs.isEmpty = true
    · rw [if_pos hhubs]
      refine ⟨rfl, rfl, rfl, fun q hq => Function.update_noteq (hne q hq) _ _,
        { externalItem env inp ss aTarget aTargetType isDirectory aRemove with
          lastSearch := inp.timeAdded }, Function.update_same _ _ _, ?_⟩
      refine ⟨rfl, rfl, rfl, rfl, hpat, rfl, rfl, hdays, ?_, ?_⟩
      · intro hd
        rw [hd]
        rfl
      · intro _
        rfl
    · rw [if_neg hhubs]
      obtain ⟨h1, h2, _, _, _, _, _, _⟩ := searchItem_frame env
        { m with
          objs := Function.update m.objs inp.ptr
            { externalItem env inp ss aTarget aTargetType isDirectory aRemove with
              lastSearch := inp.timeAdded }
          searchItems := m.searchItems ++ [inp.ptr]
          dirty := true } inp.ptr
      have hother : ∀ q ∈ m.searchItems,
          (searchItem env
            { m with
              objs := Function.update m.objs inp.ptr
                { externalItem env inp ss aTarget aTargetType isDirectory aRemove with
                  lastSearch := inp.timeAdded }
              searchItems := m.searchItems ++ [inp.ptr]
              dirty := true } inp.ptr).objs q = m.objs q := by
        intro q hq
        rw [searchItem_objs_other env _ inp.ptr q (hne q hq)]
        exact Function.update_noteq (hne q hq) _ _
      rcases searchItem_objs_of env
        { m with
          objs := Function.update m.objs inp.ptr
            { externalItem env inp ss aTarget aTargetType isDirectory aRemove with
              lastSearch := inp.timeAdded }
          searchItems := m.searchItems ++ [inp.ptr]
          dirty := true } inp.ptr
        { externalItem env inp ss aTarget aTargetType isDirectory aRemove with
          lastSearch := inp.timeAdded } (Function.update_same _ _ _) with hobj | ⟨hobj, hres⟩
      · refine ⟨rfl, h1, h2, hother, _, hobj, ?_⟩
        refine ⟨rfl, rfl, rfl, rfl, hpat, rfl, rfl, hdays, ?_, ?_⟩
        · intro hd
          rw [hd]
          rfl
        · intro _
          rfl
      · refine ⟨rfl, h1, h2, hother, _, hobj, ?_⟩
        refine ⟨rfl, rfl, rfl, rfl, hpat, rfl, rfl, hdays, fun _ => rfl, ?_⟩
        intro hor
        cases isDirectory
        · rfl
        · exfalso
          have hres2 : env.getSearchType env.SEARCH_TYPE_DIRECTORY = false := hres
          rcases hor with hor | hor
          · rw [hor] at hhubs
            exact hhubs rfl
          · rw [hor] at hres2
            exact absurd hres2 (by decide)

/-- The add of `Some.Release` as a directory search to a manager that
lists other strings; the add of a string of five characters; the add of a
listed string. -/
theorem external_add_witness :
    60 ∉ exManager.searchItems ∧
    (addAutoSearchExternal exEnv exAddInput "Some.Release" "" 0 true false exManager).2 = some 60 ∧
    (addAutoSearchExternal exEnv exAddInput "Some.Release" "" 0 true false exManager).1.searchItems
      = [10, 11, 12, 60] ∧
    (addAutoSearchExternal exEnv exAddInput "gamma" "" 0 true false exManager).2 = none ∧
    (addAutoSearchExternal exEnv exAddInput "alpha" "" 0 true false exManager).2 = none ∧
    (addAutoSearchExternal exEnv exAddInput "alpha" "" 0 true false exManager).1.searchItems
      = [10, 11, 12] :=
  have h := (external_add exEnv exAddInput "Some.Release" "" 0 true false exManager
    (by decide)).2 (by decide)
  ⟨by decide, h.1, h.2.1, by decide, by decide, by decide⟩


/-! ## Loading a file with repeated search strings -/

/-- Loading elements with new objects at fresh, distinct addresses keeps
the cursor and the listed objects, appends a sublist of the new addresses,
and lists the object of an element exactly when its search string is neither
the search string of an item listed before the load nor that of an earlier
element. -/
theorem loadAutoSearch_dedup (env : Env) :
    ∀ (children : List XmlChild) (m0 : AutoSearchManager),
      (∀ c ∈ children, ∃ a, loadItem env c = some a) →
      (children.map XmlChild.ptr).Nodup → (∀ c ∈ children, c.ptr ∉ m0.searchItems) →
      ∃ m1, loadAutoSearch env m0 children = some m1 ∧
        m1.curPos = m0.curPos ∧
        (∃ kept, m1.searchItems = m0.searchItems ++ kept ∧
          kept.Sublist (children.map XmlChild.ptr)) ∧
        (∀ q ∈ m0.searchItems, m1.objs q = m0.objs q) ∧
        (∀ (pre post : List XmlChild) (c : XmlChild), children = pre ++ c :: post →
          (c.ptr ∈ m1.searchItems ↔
            ((∀ q ∈ m0.searchItems, (m0.objs q).searchString ≠ c.item.SearchString) ∧
              ∀ c2 ∈ pre, c2.item.SearchString ≠ c.item.SearchString)))
  | [], m0, _, _, _ =>
    ⟨m0, rfl, rfl, ⟨[], by simp, List.Sublist.refl _⟩, fun _ _ => rfl,
      fun pre post c h => absurd h (by simp)⟩
  | c :: rest, m0, hload, hnd, hfresh => by
    obtain ⟨a, ha⟩ := hload c (List.mem_cons_self _ _)
    have hastr := loadItem_searchString env c a ha
    simp only [List.map_cons, List.nodup_cons] at hnd
    have hc : c.ptr ∉ m0.searchItems := hfresh c (List.mem_cons_self _ _)
    have hobjs : ∀ q ∈ m0.searchItems, Function.update m0.objs c.ptr a q = m0.objs q := by
      intro q hq
      have hne : q ≠ c.ptr := fun heq => hc (by rw [← heq]; exact hq)
      exact Function.update_noteq hne _ _
    have hany : (m0.searchItems.any (fun as =>
        (Function.update m0.objs c.ptr a as).searchString ==
          (Function.update m0.objs c.ptr a c.ptr).searchString)) = true ↔
        ∃ q ∈ m0.searchItems, (m0.objs q).searchString = c.item.SearchString := by
      rw [List.any_eq_true]
      constructor
      · intro h
        obtain ⟨q, hq, hqs⟩ := h
        rw [hobjs q hq, Function.update_same, hastr] at hqs
        exact ⟨q, hq, eq_of_beq hqs⟩
      · intro h
        obtain ⟨q, hq, hqs⟩ := h
        refine ⟨q, hq, ?_⟩
        rw [hobjs q hq, Function.update_same, hastr, hqs]
        exact beq_self_eq_true _
    by_cases hdup : ∃ q ∈ m0.searchItems, (m0.objs q).searchString = c.item.SearchString
    · have hadd : addAutoSearch { m0 with objs := Function.update m0.objs c.ptr a } c.ptr =
          ({ m0 with objs := Function.update m0.objs c.ptr a }, false) := by
        unfold addAutoSearch
        simp only []
        rw [if_pos (hany.mpr hdup)]
      obtain ⟨m1, g1, g2, ⟨kept, gk1, gk2⟩, g3, g4⟩ := loadAutoSearch_dedup env rest
        { m0 with objs := Function.update m0.objs c.ptr a }
        (fun x hx => hload x (List.mem_cons_of_mem _ hx)) hnd.2
        (fun x hx => hfresh x (List.mem_cons_of_mem _ hx))
      refine ⟨m1, ?_, g2, ⟨kept, gk1, gk2.cons _⟩, ?_, ?_⟩
      · simp only [loadAutoSearch, ha, hadd]
        exact g1
      · intro q hq
        exact (g3 q hq).trans (hobjs q hq)
      · intro pre post x hx
        rcases List.cons_eq_append_iff.mp hx with ⟨hpre, hrest⟩ | ⟨pre2, hpre, hrest⟩
        · have hxc : x = c := by
            have := List.cons.inj hrest
            exact this.1
          subst hxc
          constructor
          · intro hmem
            exfalso
            rw [gk1, List.mem_append] at hmem
            rcases hmem with h | h
            · exact hc h
            · exact hnd.1 (gk2.subset h)
          · intro h
            obtain ⟨q, hq, hqs⟩ := hdup
            exact absurd hqs (h.1 q hq)
        · rw [g4 pre2 post x hrest, hpre]
          constructor
          · intro h
            refine ⟨fun q hq => ?_, fun c2 hc2 => ?_⟩
            · have h3 : (Function.update m0.objs c.ptr a q).searchString ≠ x.item.SearchString :=
                h.1 q hq
              rw [hobjs q hq] at h3
              exact h3
            · rcases List.mem_cons.mp hc2 with h2 | h2
              · obtain ⟨q, hq, hqs⟩ := hdup
                have h3 : (Function.update m0.objs c.ptr a q).searchString ≠ x.item.SearchString :=
                  h.1 q hq
                rw [hobjs q hq, hqs] at h3
                rw [h2]
                exact h3
              · exact h.2 c2 h2
          · intro h
            refine ⟨fun q hq => ?_, fun c2 hc2 => h.2 c2 (List.mem_cons_of_mem _ hc2)⟩
            show (Function.update m0.objs c.ptr a q).searchString ≠ x.item.SearchString
            rw [hobjs q hq]
            exact h.1 q hq
    · have hadd : addAutoSearch { m0 with objs := Function.update m0.objs c.ptr a } c.ptr =
          ({ m0 with
            objs := Function.update m0.objs c.ptr a
            searchItems := m0.searchItems ++ [c.ptr]
            dirty := true }, true) := by
        unfold addAutoSearch
        simp only []
        rw [if_neg (fun h => hdup (hany.mp h))]
      obtain ⟨m1, g1, g2, ⟨kept, gk1, gk2⟩, g3, g4⟩ := loadAutoSearch_dedup env rest
        { m0 with
          objs := Function.update m0.objs c.ptr a
          searchItems := m0.searchItems ++ [c.ptr]
          dirty := true }
        (fun x hx => hload x (List.mem_cons_of_mem _ hx)) hnd.2
        (by
          intro x hx hmem
          simp only [List.mem_append, List.mem_singleton] at hmem
          rcases hmem with h | h
          · exact hfresh x (List.mem_cons_of_mem _ hx) h
          · exact hnd.1 (h ▸ List.mem_map_of_mem _ hx))
      have hcin : c.ptr ∈ m1.searchItems := by
        rw [gk1]
        exact List.mem_append_left _ (List.mem_append_right _ (List.mem_singleton_self _))
      refine ⟨m1, ?_, g2, ⟨c.ptr :: kept, ?_, gk2.cons₂ _⟩, ?_, ?_⟩
      · simp only [loadAutoSearch, ha, hadd]
        exact g1
      · rw [gk1]
        simp
      · intro q hq
        exact (g3 q (List.mem_append_left _ hq)).trans (hobjs q hq)
      · intro pre post x hx
        rcases List.cons_eq_append_iff.mp hx with ⟨hpre, hrest⟩ | ⟨pre2, hpre, hrest⟩
        · have hxc : x = c := by
            have := List.cons.inj hrest
            exact this.1
          subst hxc
          constructor
          · intro _
            refine ⟨fun q hq hqs => hdup ⟨q, hq, hqs⟩, fun c2 hc2 => ?_⟩
            rw [hpre] at hc2
            exact absurd hc2 (List.not_mem_nil _)
          · intro _
            exact hcin
        · rw [g4 pre2 post x hrest, hpre]
          constructor
          · intro h
            refine ⟨fun q hq => ?_, fun c2 hc2 => ?_⟩
            · have h3 : (Function.update m0.objs c.ptr a q).searchString ≠ x.item.SearchString :=
                h.1 q (List.mem_append_left _ hq)
              rw [hobjs q hq] at h3
              exact h3
            · rcases List.mem_cons.mp hc2 with h2 | h2
              · have h3 : (Function.update m0.objs c.ptr a c.ptr).searchString ≠
                    x.item.SearchString :=
                  h.1 c.ptr (List.mem_append_right _ (List.mem_singleton_self _))
                rw [Function.update_same, hastr] at h3
                rw [h2]
                exact h3
              · exact h.2 c2 h2
          · intro h
            refine ⟨fun q hq => ?_, fun c2 hc2 => h.2 c2 (List.mem_cons_of_mem _ hc2)⟩
            show (Function.update m0.objs c.ptr a q).searchString ≠ x.item.SearchString
            rcases List.mem_append.mp hq with hq1 | hq1
            · rw [hobjs q hq1]
              exact h.1 q hq1
            · rw [List.mem_singleton] at hq1
              rw [hq1, Function.update_same, hastr]
              exact h.2 c (List.mem_cons_self _ _)


/-- C21: `AutoSearchLoad` of a file whose root element stores the position
`p`, with `0 ≤ p` a value an `int` holds, and whose elements are well formed
(the search days of each parse) into a manager with an empty list, the
objects built at distinct addresses.  The load returns; the list holds the
objects of a subsequence of the elements, and the object of an element is in
the list if and only if no earlier element of the file has its search string,
so an item whose search string equals that of an earlier item is not added.
With `n` the length of the list after the load, the cursor is `p` when
`p < n` and 0 otherwise, so it is below `n` whenever `0 < n`. -/
theorem load_dedup_and_cursor (env : Env) (m0 : AutoSearchManager) (p : Int)
    (children : List XmlChild) (hempty : m0.searchItems = []) (hp : 0 ≤ p) (hp2 : p < 2 ^ 31)
    (hload : ∀ c ∈ children, ∃ a, loadItem env c = some a)
    (hnd : (children.map XmlChild.ptr).Nodup) :
    ∃ m1, AutoSearchLoad env m0 (XmlFile.root p children) = some m1 ∧
      m1.searchItems.Sublist (children.map XmlChild.ptr) ∧
      (∀ (pre post : List XmlChild) (c : XmlChild), children = pre ++ c :: post →
        (c.ptr ∈ m1.searchItems ↔ ∀ c2 ∈ pre, c2.item.SearchString ≠ c.item.SearchString)) ∧
      (p.toNat < m1.searchItems.length → m1.curPos = p.toNat) ∧
      (¬ p.toNat < m1.searchItems.length → m1.curPos = 0) ∧
      (0 < m1.searchItems.length → m1.curPos < m1.searchItems.length) := by
  have hmod : (p % 2 ^ 32).toNat = p.toNat := by
    rw [Int.emod_eq_of_lt hp (by omega)]
  obtain ⟨m1, g1, g2, ⟨kept, gk1, gk2⟩, _, g4⟩ := loadAutoSearch_dedup env children
    { m0 with curPos := (p % 2 ^ 32).toNat } hload hnd
    (fun c _ hmem => by
      rw [hempty] at hmem
      exact absurd hmem (List.not_mem_nil _))
  have hlist : m1.searchItems = kept := by
    rw [gk1]
    show m0.searchItems ++ kept = kept
    rw [hempty]
    rfl
  have hpos : m1.curPos = p.toNat := by
    rw [g2]
    exact hmod
  have hmemb : ∀ (pre post : List XmlChild) (c : XmlChild), children = pre ++ c :: post →
      (c.ptr ∈ m1.searchItems ↔ ∀ c2 ∈ pre, c2.item.SearchString ≠ c.item.SearchString) := by
    intro pre post c hc
    rw [g4 pre post c hc]
    constructor
    · intro h
      exact h.2
    · intro h
      refine ⟨fun q hq => ?_, h⟩
      have hq2 : q ∈ m0.searchItems := hq
      rw [hempty] at hq2
      exact absurd hq2 (List.not_mem_nil _)
  have hres : AutoSearchLoad env m0 (XmlFile.root p children) =
      some (if m1.curPos ≥ m1.searchItems.length then { m1 with curPos := 0 } else m1) := by
    unfold AutoSearchLoad
    simp only [g1]
  by_cases hin : p.toNat < m1.searchItems.length
  · have hcond : ¬ (m1.curPos ≥ m1.searchItems.length) := by
      rw [hpos]
      omega
    rw [if_neg hcond] at hres
    refine ⟨m1, hres, ?_, hmemb, fun _ => hpos, fun h => absurd hin h, fun _ => ?_⟩
    · rw [hlist]
      exact gk2
    · rw [hpos]
      exact hin
  · have hcond : m1.curPos ≥ m1.searchItems.length := by
      rw [hpos]
      omega
    rw [if_pos hcond] at hres
    refine ⟨{ m1 with curPos := 0 }, hres, ?_, hmemb, fun h => absurd h hin, fun _ => rfl,
      fun h => h⟩
    show m1.searchItems.Sublist (children.map XmlChild.ptr)
    rw [hlist]
    exact gk2

/-- A file with the position 2 and three elements, the third with the
search string of the first: two items are loaded and the cursor is 0; with
the position 1 the cursor is 1. -/
theorem load_dedup_and_cursor_witness :
    (∃ m1, AutoSearchLoad exEnvTime exEmptyManager (XmlFile.root 2 exDupChildren) = some m1 ∧
      m1.searchItems = [40, 41] ∧ m1.curPos = 0) ∧
    (∃ m1, AutoSearchLoad exEnvTime exEmptyManager (XmlFile.root 1 exDupChildren) = some m1 ∧
      m1.searchItems = [40, 41] ∧ m1.curPos = 1) :=
  have hload : ∀ c ∈ exDupChildren, ∃ a, loadItem exEnvTime c = some a := by
    intro c hc
    simp only [exDupChildren, List.mem_cons, List.mem_singleton, List.not_mem_nil, or_false] at hc
    rcases hc with h | h | h <;> subst h <;> exact ⟨_, rfl⟩
  have h2 := load_dedup_and_cursor exEnvTime exEmptyManager 2 exDupChildren rfl (by decide)
    (by decide) hload (by decide)
  have h1 := load_dedup_and_cursor exEnvTime exEmptyManager 1 exDupChildren rfl (by decide)
    (by decide) hload (by decide)
  ⟨by
    obtain ⟨m1, e, _, _, _, _, _⟩ := h2
    refine ⟨m1, e, ?_, ?_⟩
    · have e2 : (AutoSearchLoad exEnvTime exEmptyManager (XmlFile.root 2 exDupChildren)).map
          (fun m => m.searchItems) = some [40, 41] := by decide
      rw [e] at e2
      exact Option.some.inj e2
    · have e2 : (AutoSearchLoad exEnvTime exEmptyManager (XmlFile.root 2 exDupChildren)).map
          (fun m => m.curPos) = some 0 := by decide
      rw [e] at e2
      exact Option.some.inj e2,
  by
    obtain ⟨m1, e, _, _, _, _, _⟩ := h1
    refine ⟨m1, e, ?_, ?_⟩
    · have e2 : (AutoSearchLoad exEnvTime exEmptyManager (XmlFile.root 1 exDupChildren)).map
          (fun m => m.searchItems) = some [40, 41] := by decide
      rw [e] at e2
      exact Option.some.inj e2
    · have e2 : (AutoSearchLoad exEnvTime exEmptyManager (XmlFile.root 1 exDupChildren)).map
          (fun m => m.curPos) = some 1 := by decide
      rw [e] at e2
      exact Option.some.inj e2⟩

/-- C22, the code at two inputs.  A file with two elements that have
different search strings and the same token 5: both are loaded, both have the
token 5.  A file with two elements without a token for which the generator
returns 7 twice: both are loaded, both have the token 7.  Two external adds
for which the generator returns 7 twice: both items are listed with the token
7, and `getSearchByToken` returns the first of them. -/
theorem token_collision :
    (loadAutoSearch exEnvTime exEmptyManager exTokenChildren).map
      (fun m => m.searchItems.map (fun p => (p, (m.objs p).searchString, (m.objs p).token))) =
      some [(40, "alpha", 5), (41, "beta", 5)] ∧
    (loadAutoSearch exEnvTime exEmptyManager exRandChildren).map
      (fun m => m.searchItems.map (fun p => (p, (m.objs p).searchString, (m.objs p).token))) =
      some [(40, "alpha", 7), (41, "beta", 7)] ∧
    (addAutoSearchExternal exEnv { exAddInput with ptr := 61 } "Other.Release" "" 0 true false
      (addAutoSearchExternal exEnv exAddInput "Some.Release" "" 0 true false
        exEmptyManager).1).1.searchItems = [60, 61] ∧
    ((addAutoSearchExternal exEnv { exAddInput with ptr := 61 } "Other.Release" "" 0 true false
      (addAutoSearchExternal exEnv exAddInput "Some.Release" "" 0 true false
        exEmptyManager).1).1.objs 60).token = 7 ∧
    ((addAutoSearchExternal exEnv { exAddInput with ptr := 61 } "Other.Release" "" 0 true false
      (addAutoSearchExternal exEnv exAddInput "Some.Release" "" 0 true false
        exEmptyManager).1).1.objs 61).token = 7 ∧
    getSearchByToken
      (addAutoSearchExternal exEnv { exAddInput with ptr := 61 } "Other.Release" "" 0 true false
        (addAutoSearchExternal exEnv exAddInput "Some.Release" "" 0 true false
          exEmptyManager).1).1 7 = some 60 := by
  decide


/-! ## The first result after a manual search -/

/-- The actions for a list of matches split at any point of the list. -/
theorem handleActions_append (c : Collab) (env : Env) (sr : SearchResult) :
    ∀ (l1 l2 : List AutoSearchPtr) (m : AutoSearchManager),
      handleActions c env sr (l1 ++ l2) m =
        ((handleActions c env sr l2 (handleActions c env sr l1 m).1).1,
          (handleActions c env sr l1 m).2 ++
            (handleActions c env sr l2 (handleActions c env sr l1 m).1).2)
  | [], l2, m => by simp [handleActions]
  | a :: rest, l2, m => by
    have ih := handleActions_append c env sr rest l2 (handleAction c env sr m a).1
    show handleActions c env sr (a :: (rest ++ l2)) m = _
    simp only [handleActions]
    rw [ih]
    simp only [List.append_assoc]

/-- The handler on a result that is not a bundle search result: the loop,
then the actions for the matches. -/
theorem onSearchResult_eq (c : Collab) (env : Env) (sr : SearchResult) (m : AutoSearchManager)
    (h : isBundleSearchToken sr.token = false) :
    onSearchResult c env sr m =
      handleActions c env sr (searchResultMatches c env sr m) (afterResultLoop c env sr m) := by
  unfold onSearchResult searchResultMatches afterResultLoop
  simp only [h, Bool.false_eq_true, if_false]

/-- C14 as amended: after `manualSearch` of a listed item with a hub
online, and after any sequence of results whose token is `qa` up to the case
of its letters (which the handler drops), take the first result whose token
is not `qa` up to case.  If it matches the item (file type, matcher, nick
filter) it is accepted, whether or not `allowNewItems` holds: the item is
among the matches, and wherever it stands among them the calls of the handler
are the calls of the actions for the matches before it, then the calls of
`handleAction` for the item in the state those actions leave, then the calls
of the actions for the matches after it.  Whether it matches or not, the
pending flag of the item is clear afterwards. -/
theorem manual_search_first_result (c : Collab) (env : Env) (allowedHubs : List String)
    (m : AutoSearchManager) (p : AutoSearchPtr) (srs : List SearchResult) (sr : SearchResult)
    (hhubs : allowedHubs ≠ []) (hp : p ∈ m.searchItems)
    (hqa : ∀ s ∈ srs, isBundleSearchToken s.token = true)
    (hsr : isBundleSearchToken sr.token = false) :
    (matchResult c env sr ((manualSearch env allowedHubs m p).objs p) = true →
      p ∈ searchResultMatches c env sr
        (onSearchResults c env srs (manualSearch env allowedHubs m p)) ∧
      ∀ pre post : List AutoSearchPtr,
        searchResultMatches c env sr
          (onSearchResults c env srs (manualSearch env allowedHubs m p)) = pre ++ p :: post →
        (onSearchResult c env sr
          (onSearchResults c env srs (manualSearch env allowedHubs m p))).2 =
          (handleActions c env sr pre (afterResultLoop c env sr
            (onSearchResults c env srs (manualSearch env allowedHubs m p)))).2 ++
          (handleAction c env sr
            (handleActions c env sr pre (afterResultLoop c env sr
              (onSearchResults c env srs (manualSearch env allowedHubs m p)))).1 p).2 ++
          (handleActions c env sr post
            (handleAction c env sr
              (handleActions c env sr pre (afterResultLoop c env sr
                (onSearchResults c env srs (manualSearch env allowedHubs m p)))).1 p).1).2) ∧
    ((onSearchResult c env sr
      (onSearchResults c env srs (manualSearch env allowedHubs m p))).1.objs p).manualSearch
      = false := by
  have hdrop : onSearchResults c env srs (manualSearch env allowedHubs m p) =
      manualSearch env allowedHubs m p := by
    unfold onSearchResults
    exact foldl_onSearchResult_bundle c env srs _ hqa
  rw [hdrop]
  obtain ⟨hflag, hlist⟩ := manualSearch_sets env allowedHubs m p hhubs
  have heq := onSearchResult_eq c env sr (manualSearch env allowedHubs m p) hsr
  constructor
  · intro hmatch
    constructor
    · unfold searchResultMatches
      simp only [hsr, Bool.false_eq_true, if_false]
      exact onSearchResultLoop_manual c env sr p _ _ [] (by rw [hlist]; exact hp) hflag hmatch
    · intro pre post hsplit
      rw [heq, hsplit, handleActions_append]
      simp only [handleActions, List.append_assoc]
  · rw [heq, (handleActions_manualSearch c env sr _ _).2 p]
    exact onSearchResultLoop_clears c env sr p _ _ [] (by rw [hlist]; exact hp)

/-- After the manual search of the disabled item at 22 and a bundle search
result with the token `QA`, the matching result is accepted, the call of the
handler is the directory download of `handleAction` for the item, and the
flag is clear. -/
theorem manual_search_first_result_witness :
    (exManualManager.objs 22).allowNewItems = false ∧
    isBundleSearchToken exBundleResult.token = true ∧
    22 ∈ searchResultMatches exCollab exEnv exDirResult
      (onSearchResults exCollab exEnv [exBundleResult]
        (manualSearch exEnv ["adc://hub"] exManualManager 22)) ∧
    (onSearchResult exCollab exEnv exDirResult
      (onSearchResults exCollab exEnv [exBundleResult]
        (manualSearch exEnv ["adc://hub"] exManualManager 22))).2 =
      [Call.addDirectoryDownload "Some.Release" "CID" "adc://hub" "" 0 false 1] ∧
    ((onSearchResult exCollab exEnv exDirResult
      (onSearchResults exCollab exEnv [exBundleResult]
        (manualSearch exEnv ["adc://hub"] exManualManager 22))).1.objs 22).manualSearch = false :=
  have h := manual_search_first_result exCollab exEnv ["adc://hub"] exManualManager 22
    [exBundleResult] exDirResult (by decide) (by decide)
    (fun s hs => by
      rw [List.mem_singleton] at hs
      subst hs
      decide)
    (by decide)
  ⟨by decide, by decide, (h.1 (by decide)).1, by decide, h.2⟩

end dcpp
